import Mathlib

/-!
# Hilokal/audio-rtp-tools: a shallow embedding of the packet pipeline

Conventions of the embedding.

* C++ `int64_t` and `int` values are Lean `Int`.  Signed arithmetic is exact
  (signed overflow is undefined behaviour in C++, so no execution that
  overflows is described); narrowing conversions that the source writes out
  (`(int)(...)`, `unsigned` to `int` on return) are modelled with `toInt32`.
* `AV_NOPTS_VALUE` is the sentinel `INT64_MIN`, compared with `=` as in the
  source.
* Calls into libav, libopus and the clock are inputs of the model: every loop
  iteration is given the values those calls returned.
* Side effects (log lines, queue posts, muxer writes, codec calls) are
  collected in an effect trace, in program order.
-/

namespace AudioRtp

/-! ## Constants of libavutil used by the sources -/

/-- The value of `AV_NOPTS_VALUE`, that is `INT64_MIN`. -/
def AV_NOPTS_VALUE : Int := -9223372036854775808

/-- The value of `AVERROR_INVALIDDATA`, `-MKTAG('I','N','D','A')`. -/
def AVERROR_INVALIDDATA : Int := -1094995529

/-- The value of `AVERROR_EOF`, `-MKTAG('E','O','F',' ')`. -/
def AVERROR_EOF : Int := -541478725

/-- The value of `AVERROR_EXIT`, `-MKTAG('E','X','I','T')`. -/
def AVERROR_EXIT : Int := -1414092869

/-- The value of `AVERROR(EAGAIN)` on Linux. -/
def AVERROR_EAGAIN : Int := -11

/-- The flag `AV_THREAD_MESSAGE_NONBLOCK`. -/
def AV_THREAD_MESSAGE_NONBLOCK : Int := 1

/-- Number of microseconds in a second (`time_util.h`). -/
def MICROSECONDS : Int := 1000000

/-- Conversion of a 64-bit value to a 32-bit `int` (two's complement wrap). -/
def toInt32 (x : Int) : Int := (x + 2147483648) % 4294967296 - 2147483648

/-- Library function `av_rescale a b c` of libavutil: `a * b / c` rounded to the
nearest integer, halfway cases away from zero; `INT64_MIN` when `c <= 0` or
`b < 0`. -/
def av_rescale (a b c : Int) : Int :=
  if c ≤ 0 ∨ b < 0 then AV_NOPTS_VALUE
  else if a < 0 then -(Int.tdiv ((-a) * b + Int.tdiv c 2) c)
  else Int.tdiv (a * b + Int.tdiv c 2) c

/-! ## Packets and thread messages (`thread_messages.h`) -/

/-- A byte of packet payload. -/
abbrev Byte := Fin 256

/-- The fields of `AVPacket` that the sources read or write.  `data` is `none`
for a NULL data pointer; `size` is the length of the payload. -/
structure AVPacket where
  data : Option (List Byte)
  pts : Int
  dts : Int
  duration : Int
  stream_index : Int
deriving DecidableEq, Repr

/-- The field `pkt->size`. -/
def AVPacket.size (pkt : AVPacket) : Int :=
  match pkt.data with
  | none => 0
  | some d => (d.length : Int)

/-- The tagged union `ThreadMessage`: one constructor per `ThreadMessageType`,
carrying the member of `ThreadMessageParameter` that the type uses. -/
inductive ThreadMessage where
  | POST_PACKET (pkt : AVPacket)
  | POST_START_TIME_REALTIME (start_time_realtime : Int)
  | POST_START_TIME_LOCALTIME (start_time_localtime : Int)
  | POST_CODEC_PARAMETERS
  | TICK
  | OGG_BUFFER (buf : List Byte)
  | OGG_EOF
  | OGG_RESET_DEMUXER
  | POST_PCM_BUFFER (buf : List Byte)
  | SET_ENCODER_BITRATE (int_value : Int)
  | SET_ENCODER_FEC (int_value : Int)
  | SET_ENCODER_PACKET_LOSS_PERC (int_value : Int)
deriving DecidableEq, Repr

/-! ## demuxer.cc -/

/-- The function `opus_duration(src, size)` of demuxer.cc (lines 86-104).  The
arithmetic is `unsigned` (32 bit) and the product is converted to `int` on
return. -/
def opus_duration (src : List Byte) (size : Int) : Int :=
  let toc : Nat := (src.getD 0 0).val
  let toc_config : Nat := toc >>> 3
  let toc_count : Nat := toc &&& 3
  let frame_size : Nat :=
    if toc_config < 12 then max 480 (960 * (toc_config &&& 3))
    else if toc_config < 16 then 480 <<< (toc_config &&& 1)
    else 120 <<< (toc_config &&& 3)
  if toc_count = 3 then
    if size < 2 then AVERROR_INVALIDDATA
    else toInt32 (((frame_size * ((src.getD 1 0).val &&& 0x3F)) % 4294967296 : Nat) : Int)
  else if toc_count ≠ 0 then
    toInt32 (((frame_size * 2) % 4294967296 : Nat) : Int)
  else
    toInt32 (((frame_size * 1) % 4294967296 : Nat) : Int)

/-- Frame size in 48 kHz samples per RFC 6716 configuration number, as the
specification lists it: configurations 0-11 are 480, 960, 1920, 2880 by
`config mod 4`; 12-15 are 480, 960 by `config mod 2`; 16-31 are 120, 240, 480,
960 by `config mod 4`. -/
def rfc6716_frame_size (config : Nat) : Nat :=
  if config < 12 then [480, 960, 1920, 2880].getD (config % 4) 0
  else if config < 16 then [480, 960].getD (config % 2) 0
  else [120, 240, 480, 960].getD (config % 4) 0

/-- Frame count of a packet as the specification lists it: 1 for count code 0,
2 for codes 1 and 2, the low six bits of the second byte for code 3. -/
def rfc6716_frame_count (src : List Byte) : Nat :=
  match (src.getD 0 0).val % 4 with
  | 0 => 1
  | 1 => 2
  | 2 => 2
  | _ => (src.getD 1 0).val % 64

/-- The enum `DemumerThreadMode` of demuxer.cc. -/
inductive DemuxerThreadMode where
  | DEMUXER_MODE_RTP
  | DEMUXER_MODE_FILE
deriving DecidableEq, Repr

/-- The constant `MAX_WARNING_COUNT` of demuxer.cc. -/
def MAX_WARNING_COUNT : Int := 10

namespace Demuxer

/-- What one pass through the body of `while (1)` in `readAndWritePacket`
receives from outside: the result of `av_read_frame` and the packet it filled
in, the flags of `thread_data` as they stand after the read, the wall clock
`av_gettime()`, the field `ifmt_ctx->start_time_realtime`, and the value that
`post_packet_to_thread` returns when the pass reaches it. -/
structure ReadIter where
  ret : Int
  pkt : AVPacket
  should_tick : Bool
  shutdown : Bool
  should_reset : Bool
  gettime : Int
  start_time_realtime : Int
  post_ret : Int
deriving DecidableEq, Repr

/-- The local variables of `readAndWritePacket` (lines 111-118). -/
structure ReadState where
  received_start_time : Bool
  first_packet_at : Int
  warning_count : Int
  prev_pts : Int
  next_expected_pts : Int
  pts_correction : Int
deriving DecidableEq, Repr

/-- The values the locals are initialised with. -/
def ReadState.init : ReadState :=
  { received_start_time := false, first_packet_at := 0, warning_count := 0,
    prev_pts := AV_NOPTS_VALUE, next_expected_pts := AV_NOPTS_VALUE,
    pts_correction := AV_NOPTS_VALUE }

/-- Observable actions of `readAndWritePacket`, in program order.
`post_packet pkt flags ret` is the call `post_packet_to_thread(queue, pkt,
flags)` together with the value it returned; the packet is on the queue
exactly when `ret = 0`. -/
inductive Effect where
  | post_tick
  | post_start_time_local (first_packet_at : Int)
  | post_start_time (start_time_realtime : Int)
  | log_read_fail (ret : Int)
  | warn_out_of_order (prev_pts : Int) (pkt : AVPacket)
  | warn_mismatch (pkt : AVPacket)
  | post_packet (pkt : AVPacket) (flags : Int) (ret : Int)
  | warn_queue_full
deriving DecidableEq, Repr

/-- Result of one pass: the locals, the actions, and `some ret` when the pass
left the loop through `goto cleanup` with that `ret`. -/
structure IterResult where
  state : ReadState
  effects : List Effect
  exit : Option Int
deriving DecidableEq, Repr

/-- Lines 160-168: the first packet's arrival time and the stream's real-time
start are posted once each. -/
def note_start_times (st : ReadState) (it : ReadIter) : ReadState × List Effect :=
  let r1 : ReadState × List Effect :=
    if st.first_packet_at = 0 then
      ({ st with first_packet_at := it.gettime }, [Effect.post_start_time_local it.gettime])
    else (st, [])
  if it.start_time_realtime ≠ AV_NOPTS_VALUE ∧ r1.1.received_start_time = false then
    ({ r1.1 with received_start_time := true },
      r1.2 ++ [Effect.post_start_time it.start_time_realtime])
  else r1

/-- Lines 179-186: the duration repair.  `none` is the `continue` taken for a
malformed packet. -/
def repair_duration (pkt : AVPacket) : Option AVPacket :=
  match pkt.data with
  | some d =>
    if pkt.duration = 0 then
      if opus_duration d pkt.size < 0 then none
      else some { pkt with duration := opus_duration d pkt.size }
    else some pkt
  | none => some pkt

/-- Lines 225-231: the value of `pts_correction` once the packet went through
the negative-PTS correction.  The negation is the exact one: it is the
`int64_t` negation of line 227 for every pts above `INT64_MIN`, that is for
every packet that carries a timestamp (`INT64_MIN` is `AV_NOPTS_VALUE`). -/
def next_correction (st : ReadState) (pkt : AVPacket) : Int :=
  if st.pts_correction = AV_NOPTS_VALUE then
    (if pkt.pts < 0 then -pkt.pts else 0)
  else st.pts_correction

/-- Lines 232-237: `pts_correction` and then `*pts_offset` are added to the
`pts` and `dts` of the packet. -/
def shift_pts (pts_correction pts_offset : Int) (pkt : AVPacket) : AVPacket :=
  { pkt with pts := pkt.pts + pts_correction + pts_offset,
             dts := pkt.dts + pts_correction + pts_offset }

/-- Line 243: the flags of the send, non-blocking for RTP streams. -/
def send_flags (mode : DemuxerThreadMode) : Int :=
  if mode = DemuxerThreadMode.DEMUXER_MODE_RTP then AV_THREAD_MESSAGE_NONBLOCK else 0

/-- Lines 222-253: the timestamp correction, the continuity offset and the
post to the output queue, for a packet that passed every filter. -/
def correct_and_post (mode : DemuxerThreadMode) (pts_offset : Int) (st : ReadState)
    (pkt : AVPacket) (post_ret : Int) (pre : List Effect) : IterResult :=
  let out : AVPacket := shift_pts (next_correction st pkt) pts_offset pkt
  let st1 : ReadState :=
    { st with pts_correction := next_correction st pkt,
              next_expected_pts := out.pts + out.duration }
  if post_ret < 0 then
    if post_ret = AVERROR_EAGAIN then
      { state := st1,
        effects := pre ++ [Effect.post_packet out (send_flags mode) post_ret,
                           Effect.warn_queue_full],
        exit := none }
    else
      { state := st1, effects := pre ++ [Effect.post_packet out (send_flags mode) post_ret],
        exit := some post_ret }
  else
    { state := st1, effects := pre ++ [Effect.post_packet out (send_flags mode) post_ret],
      exit := none }

/-- Lines 173-253: the filters a packet goes through after a successful read. -/
def filter_packet (mode : DemuxerThreadMode) (stream_idx pts_offset : Int) (st : ReadState)
    (pkt : AVPacket) (post_ret : Int) (pre : List Effect) : IterResult :=
  if pkt.size = 0 then { state := st, effects := pre, exit := none }
  else
    match repair_duration pkt with
    | none => { state := st, effects := pre, exit := none }
    | some pkt1 =>
      if pkt1.stream_index ≠ stream_idx then { state := st, effects := pre, exit := none }
      else if st.prev_pts ≠ AV_NOPTS_VALUE ∧ pkt1.pts < st.prev_pts then
        if st.warning_count < MAX_WARNING_COUNT then
          { state := { st with warning_count := st.warning_count + 1 },
            effects := pre ++ [Effect.warn_out_of_order st.prev_pts pkt1], exit := none }
        else { state := st, effects := pre, exit := none }
      else if pkt1.pts ≠ pkt1.dts then
        if st.warning_count < MAX_WARNING_COUNT then
          { state := { st with prev_pts := pkt1.pts, warning_count := st.warning_count + 1 },
            effects := pre ++ [Effect.warn_mismatch pkt1], exit := none }
        else { state := { st with prev_pts := pkt1.pts }, effects := pre, exit := none }
      else
        correct_and_post mode pts_offset { st with prev_pts := pkt1.pts } pkt1 post_ret pre

/-- One pass through the body of `while (1)` (lines 127-253).  The output
queue is taken to be set (both start functions set it), so a pending tick is
always posted. -/
def read_iteration (mode : DemuxerThreadMode) (stream_idx pts_offset : Int) (st : ReadState)
    (it : ReadIter) : IterResult :=
  let tick : List Effect := if it.should_tick then [Effect.post_tick] else []
  if it.shutdown then { state := st, effects := tick, exit := some 0 }
  else if it.should_reset then { state := st, effects := tick, exit := some 0 }
  else if it.ret < 0 then
    if it.ret = AVERROR_EXIT then { state := st, effects := tick, exit := none }
    else if it.ret ≠ AVERROR_EOF then
      { state := st, effects := tick ++ [Effect.log_read_fail it.ret], exit := some it.ret }
    else { state := st, effects := tick, exit := some it.ret }
  else
    filter_packet mode stream_idx pts_offset (note_start_times st it).1 it.pkt it.post_ret
      (tick ++ (note_start_times st it).2)

/-- State of the loop after some passes: the locals, the actions so far, and
`some ret` once the loop has been left. -/
structure LoopResult where
  state : ReadState
  effects : List Effect
  exit : Option Int
deriving DecidableEq, Repr

/-- The loop `while (1)` of `readAndWritePacket`, run over the given passes.  It
stops at the first pass that leaves the loop; when the passes run out first,
`exit` is `none` (the thread is blocked in the next `av_read_frame`). -/
def read_loop (mode : DemuxerThreadMode) (stream_idx pts_offset : Int) :
    ReadState → List ReadIter → LoopResult
  | st, [] => { state := st, effects := [], exit := none }
  | st, it :: rest =>
    let r := read_iteration mode stream_idx pts_offset st it
    match r.exit with
    | some ret => { state := r.state, effects := r.effects, exit := some ret }
    | none =>
      let r2 := read_loop mode stream_idx pts_offset r.state rest
      { state := r2.state, effects := r.effects ++ r2.effects, exit := r2.exit }

/-- Result of `readAndWritePacket`: its return value (`none` while the loop is
still running), the value left in `*pts_offset`, and the actions. -/
structure ReadResult where
  ret : Option Int
  pts_offset : Int
  effects : List Effect
deriving DecidableEq, Repr

/-- The function `readAndWritePacket` (lines 108-265), for a successful
`av_packet_alloc`. -/
def readAndWritePacket (mode : DemuxerThreadMode) (stream_idx pts_offset : Int)
    (iters : List ReadIter) : ReadResult :=
  let r := read_loop mode stream_idx pts_offset ReadState.init iters
  match r.exit with
  | some ret =>
    if (ret = 0 ∨ ret = AVERROR_EOF) ∧ r.state.next_expected_pts ≠ AV_NOPTS_VALUE then
      { ret := some ret, pts_offset := r.state.next_expected_pts, effects := r.effects }
    else { ret := some ret, pts_offset := pts_offset, effects := r.effects }
  | none => { ret := none, pts_offset := pts_offset, effects := r.effects }

/-- The packets handed to `post_packet_to_thread`, in order. -/
def posted : List Effect → List AVPacket
  | [] => []
  | Effect.post_packet pkt _ _ :: es => pkt :: posted es
  | _ :: es => posted es

/-- The packets that were put on the output queue (`post_packet_to_thread`
returned 0), in order. -/
def enqueued : List Effect → List AVPacket
  | [] => []
  | Effect.post_packet pkt _ ret :: es =>
    if ret = 0 then pkt :: enqueued es else enqueued es
  | _ :: es => enqueued es

end Demuxer

/-! ### Reference definitions for the demuxer claims -/

/-- A packet that claim C7 calls malformed under RFC 6716: count code 3 with no
second byte, count code 3 with a frame count of 0, or a total duration above
120 ms (5760 samples at 48 kHz). -/
def rfc6716_malformed (src : List Byte) : Prop :=
  ((src.getD 0 0).val % 4 = 3 ∧ src.length < 2) ∨
  ((src.getD 0 0).val % 4 = 3 ∧ 2 ≤ src.length ∧ (src.getD 1 0).val % 64 = 0) ∨
  5760 < rfc6716_frame_size ((src.getD 0 0).val >>> 3) * rfc6716_frame_count src

instance (src : List Byte) : Decidable (rfc6716_malformed src) := by
  unfold rfc6716_malformed
  infer_instance

/-- The order check as the specification words it: a packet is dropped exactly
when its pts is lower than the pts of the latest packet that passed the check
(`none` while no packet has passed). -/
def order_check_keeps : Option Int → List AVPacket → List AVPacket
  | _, [] => []
  | none, p :: ps => p :: order_check_keeps (some p.pts) ps
  | some prev, p :: ps =>
    if p.pts < prev then order_check_keeps (some prev) ps
    else p :: order_check_keeps (some p.pts) ps

/-- The packet as it leaves the demuxer: duration repaired, `pts` and `dts`
shifted by the negative-PTS correction `c` and by the continuity offset. -/
def forwarded_form (c pts_offset : Int) (p : AVPacket) : AVPacket :=
  match Demuxer.repair_duration p with
  | some q => Demuxer.shift_pts c pts_offset q
  | none => Demuxer.shift_pts c pts_offset p

/-- The negative-PTS correction that the first kept packet fixes. -/
def first_correction : List AVPacket → Int
  | [] => 0
  | p :: _ => if p.pts < 0 then -p.pts else 0

/-- A pass of the read loop in which nothing but the order check can stop the
packet: the read succeeded with no shutdown or reset pending, the packet is
not empty, belongs to the audio stream, has `pts == dts` in the `int64_t`
range, passes the duration repair, and the output queue accepts the post. -/
def plain_pass (stream_idx : Int) (it : Demuxer.ReadIter) : Prop :=
  it.shutdown = false ∧ it.should_reset = false ∧ 0 ≤ it.ret ∧ it.pkt.size ≠ 0 ∧
  it.pkt.stream_index = stream_idx ∧ it.pkt.pts = it.pkt.dts ∧
  Demuxer.repair_duration it.pkt ≠ none ∧ it.post_ret = 0 ∧ AV_NOPTS_VALUE ≤ it.pkt.pts

instance (stream_idx : Int) (it : Demuxer.ReadIter) : Decidable (plain_pass stream_idx it) := by
  unfold plain_pass
  infer_instance

/-- The pass keeps its packet: the packet passes every filter and is handed
to `post_packet_to_thread`. -/
def pass_keeps (mode : DemuxerThreadMode) (stream_idx pts_offset : Int)
    (st : Demuxer.ReadState) (it : Demuxer.ReadIter) : Prop :=
  Demuxer.posted (Demuxer.read_iteration mode stream_idx pts_offset st it).effects ≠ []

instance (mode : DemuxerThreadMode) (stream_idx pts_offset : Int) (st : Demuxer.ReadState)
    (it : Demuxer.ReadIter) : Decidable (pass_keeps mode stream_idx pts_offset st it) := by
  unfold pass_keeps
  infer_instance

/-- A pass that reads the packet `pkt` with nothing else happening: the read
succeeds, no flag is raised, and the post returns `post_ret`. -/
def read_of (pkt : AVPacket) (post_ret : Int) : Demuxer.ReadIter :=
  { ret := 0, pkt := pkt, should_tick := false, shutdown := false, should_reset := false,
    gettime := 1, start_time_realtime := AV_NOPTS_VALUE, post_ret := post_ret }

/-- An audio packet of stream 0 with `pts == dts`, no duration yet, and a
one-byte payload whose TOC `0xF8` stands for one 20 ms frame. -/
def opus_packet (pts : Int) : AVPacket :=
  { data := some [0xF8], pts := pts, dts := pts, duration := 0, stream_index := 0 }

/-! ## producer_thread.cc -/

/-- The constant `OPUS_SAMPLE_RATE` of producer_thread.cc. -/
def OPUS_SAMPLE_RATE : Int := 48000

/-- The constant `MAX_FUTURE` of producer_thread.cc, `OPUS_SAMPLE_RATE / 10`. -/
def MAX_FUTURE : Int := Int.tdiv OPUS_SAMPLE_RATE 10

namespace Producer

/-- The timestamp variables of `ThreadMain` (lines 35-37); `last_pts` is the
last incoming pts. -/
structure State where
  rebase_pts : Int
  last_pts : Int
  next_expected_pts : Int
deriving DecidableEq, Repr

/-- The values the variables are initialised with. -/
def State.init : State :=
  { rebase_pts := AV_NOPTS_VALUE, last_pts := AV_NOPTS_VALUE,
    next_expected_pts := AV_NOPTS_VALUE }

/-- Observable actions of the producer loop, in program order: the log lines,
the pacing sleep, the call `av_write_frame(output_ctx, pkt)` and the trailer. -/
inductive Effect where
  | warn_too_far_ahead (next_expected_pts now_pts : Int)
  | log_reset (old_rebase_pts new_rebase_pts incoming_pts last_pts : Int)
  | usleep (sleep_for : Int)
  | warn_drop (pts next_expected_pts : Int)
  | write_frame (pkt : AVPacket)
  | log_write_failed (ret : Int)
  | write_trailer
deriving DecidableEq, Repr

/-- Result of lines 110-159 for one packet: the variables, the packet after
`pkt->pts += rebase_pts`, the value of `now_pts` after the rebase block, the
actions before the write, and whether the regression check dropped the
packet. -/
structure PacketResult where
  state : State
  pkt : AVPacket
  now_pts : Int
  effects : List Effect
  dropped : Bool
deriving DecidableEq, Repr

/-- Lines 116-124: the value of `now_pts` after the alignment to
`next_expected_pts`, inside the rebase block. -/
def aligned_now_pts (next_expected_pts now_pts : Int) : Int :=
  if next_expected_pts ≠ AV_NOPTS_VALUE ∧ next_expected_pts > now_pts then
    if next_expected_pts > now_pts + MAX_FUTURE then now_pts + MAX_FUTURE
    else next_expected_pts
  else now_pts

/-- Lines 116-130: the log lines of the rebase block. -/
def rebase_log (s : State) (pkt : AVPacket) (now_pts : Int) : List Effect :=
  (if s.next_expected_pts ≠ AV_NOPTS_VALUE ∧ s.next_expected_pts > now_pts ∧
      s.next_expected_pts > now_pts + MAX_FUTURE then
    [Effect.warn_too_far_ahead s.next_expected_pts now_pts]
  else []) ++
  [Effect.log_reset s.rebase_pts (aligned_now_pts s.next_expected_pts now_pts) pkt.pts s.last_pts]

/-- Lines 110-159 of `ThreadMain`: the handling of a `POST_PACKET` message read
at monotonic time `now`, up to the call of `av_write_frame`. -/
def handle_packet (stream_start : Int) (s : State) (pkt : AVPacket) (now : Int) :
    PacketResult :=
  let now_pts0 : Int := av_rescale OPUS_SAMPLE_RATE (now - stream_start) MICROSECONDS
  let rebase : Prop := s.rebase_pts = AV_NOPTS_VALUE ∨ pkt.pts ≤ s.last_pts
  let now_pts : Int := if rebase then aligned_now_pts s.next_expected_pts now_pts0 else now_pts0
  let rebase_pts : Int := if rebase then now_pts else s.rebase_pts
  let next_expected_pts : Int := if rebase then AV_NOPTS_VALUE else s.next_expected_pts
  let log : List Effect := if rebase then rebase_log s pkt now_pts0 else []
  let out : AVPacket := { pkt with pts := pkt.pts + rebase_pts, dts := pkt.dts + rebase_pts }
  let future : Int := out.pts - now_pts
  let sleep : List Effect :=
    if future > MAX_FUTURE then
      [Effect.usleep (av_rescale MICROSECONDS (future - MAX_FUTURE) OPUS_SAMPLE_RATE)]
    else []
  if next_expected_pts ≠ AV_NOPTS_VALUE ∧ out.pts < next_expected_pts then
    { state := { rebase_pts := rebase_pts, last_pts := pkt.pts,
                 next_expected_pts := next_expected_pts },
      pkt := out, now_pts := now_pts,
      effects := log ++ sleep ++ [Effect.warn_drop out.pts next_expected_pts],
      dropped := true }
  else
    { state := { rebase_pts := rebase_pts, last_pts := pkt.pts,
                 next_expected_pts := out.pts + out.duration },
      pkt := out, now_pts := now_pts, effects := log ++ sleep, dropped := false }

/-- What one pass through the body of `while (true)` in `ThreadMain` receives
from outside: the result of `av_thread_message_queue_recv` and the message, the
monotonic clock `av_gettime_relative()`, and the value `av_write_frame`
returns when the pass reaches it. -/
structure Iter where
  recv_ret : Int
  msg : ThreadMessage
  now : Int
  write_ret : Int
deriving DecidableEq, Repr

/-- Result of one pass: the variables, the actions, and `some ret` when the
pass left the loop through `goto cleanup` with that `ret`. -/
structure IterResult where
  state : State
  effects : List Effect
  exit : Option Int
deriving DecidableEq, Repr

/-- One pass through the body of `while (true)` (lines 98-169). -/
def iteration (stream_start : Int) (s : State) (it : Iter) : IterResult :=
  if it.recv_ret < 0 then
    if it.recv_ret = AVERROR_EOF then
      { state := s, effects := [Effect.write_trailer], exit := some 0 }
    else { state := s, effects := [], exit := some it.recv_ret }
  else
    match it.msg with
    | ThreadMessage.POST_PACKET pkt =>
      let r := handle_packet stream_start s pkt it.now
      if r.dropped then { state := r.state, effects := r.effects, exit := none }
      else if it.write_ret < 0 then
        { state := r.state,
          effects := r.effects ++ [Effect.write_frame r.pkt, Effect.log_write_failed it.write_ret],
          exit := some it.write_ret }
      else
        { state := r.state, effects := r.effects ++ [Effect.write_frame r.pkt], exit := none }
    | _ => { state := s, effects := [], exit := none }

/-- The loop `while (true)` of `ThreadMain` (lines 97-170), run over the given
passes.  It stops at the first pass that leaves the loop; when the passes run
out first, `exit` is `none` (the thread is blocked in the next receive). -/
def ThreadMain (stream_start : Int) : State → List Iter → IterResult
  | s, [] => { state := s, effects := [], exit := none }
  | s, it :: rest =>
    let r := iteration stream_start s it
    match r.exit with
    | some ret => { state := r.state, effects := r.effects, exit := some ret }
    | none =>
      let r2 := ThreadMain stream_start r.state rest
      { state := r2.state, effects := r.effects ++ r2.effects, exit := r2.exit }

/-- The packets passed to `av_write_frame`, in order. -/
def written : List Effect → List AVPacket
  | [] => []
  | Effect.write_frame pkt :: es => pkt :: written es
  | _ :: es => written es

/-- Whether an action is a call of `av_write_frame`. -/
def Effect.is_write : Effect → Bool
  | Effect.write_frame _ => true
  | _ => false

/-- Whether an action is the warning that `next_expected_pts` is too far ahead
of `now_pts` (line 119). -/
def Effect.is_too_far_warning : Effect → Bool
  | Effect.warn_too_far_ahead _ _ => true
  | _ => false

/-- Reading of a trace against the spacing rule `a.pts + a.duration <= b.pts`.
`pending` is the end `pts + duration` of the latest written packet, or `none`
when nothing has been written yet or the too-far-ahead warning has been logged
since.  The trace is well spaced when every written packet starts at or after
the pending end. -/
def well_spaced : Option Int → List Effect → Prop
  | _, [] => True
  | pending, Effect.write_frame b :: es =>
    (∀ v, pending = some v → v ≤ b.pts) ∧ well_spaced (some (b.pts + b.duration)) es
  | _, Effect.warn_too_far_ahead _ _ :: es => well_spaced none es
  | pending, Effect.log_reset _ _ _ _ :: es => well_spaced pending es
  | pending, Effect.usleep _ :: es => well_spaced pending es
  | pending, Effect.warn_drop _ _ :: es => well_spaced pending es
  | pending, Effect.log_write_failed _ :: es => well_spaced pending es
  | pending, Effect.write_trailer :: es => well_spaced pending es

/-- The pending end after a trace (see `well_spaced`). -/
def pending_after : Option Int → List Effect → Option Int
  | pending, [] => pending
  | _, Effect.write_frame b :: es => pending_after (some (b.pts + b.duration)) es
  | _, Effect.warn_too_far_ahead _ _ :: es => pending_after none es
  | pending, Effect.log_reset _ _ _ _ :: es => pending_after pending es
  | pending, Effect.usleep _ :: es => pending_after pending es
  | pending, Effect.warn_drop _ _ :: es => pending_after pending es
  | pending, Effect.log_write_failed _ :: es => pending_after pending es
  | pending, Effect.write_trailer :: es => pending_after pending es

/-- A pass that receives the packet `pkt` at monotonic time `now`, with a
successful write. -/
def packet_at (pkt : AVPacket) (now : Int) : Iter :=
  { recv_ret := 0, msg := ThreadMessage.POST_PACKET pkt, now := now, write_ret := 0 }

/-- A stereo Opus packet as the encoder posts it: `pts == dts`, the given
duration, no payload detail. -/
def opus_frame (pts duration : Int) : AVPacket :=
  { data := some [0xFC], pts := pts, dts := pts, duration := duration, stream_index := 0 }

/-- A pass whose message, when it is a packet, carries a valid packet: a
non-negative input pts and a positive duration. -/
def valid_input (it : Iter) : Prop :=
  match it.msg with
  | ThreadMessage.POST_PACKET pkt => 0 ≤ pkt.pts ∧ 0 < pkt.duration
  | _ => True

instance (it : Iter) : Decidable (valid_input it) := by
  unfold valid_input
  split <;> infer_instance

end Producer

/-! ## audio_decode_thread.cc -/

/-- The constant `OUTPUT_SAMPLE_RATE` of audio_decode_thread.cc. -/
def OUTPUT_SAMPLE_RATE : Int := 48000

/-- The constant `OPUS_FRAME_DURATION_MS` of audio_decode_thread.cc. -/
def OPUS_FRAME_DURATION_MS : Int := 20

/-- The constant `OPUS_MAX_FRAME_SIZE` of audio_decode_thread.cc. -/
def OPUS_MAX_FRAME_SIZE : Int := 960 * 6

/-- The function `ff_opus_error_to_averror` with the libopus error codes
(`OPUS_BAD_ARG = -1` to `OPUS_ALLOC_FAIL = -7`) and the Linux errno values. -/
def ff_opus_error_to_averror (err : Int) : Int :=
  if err = -1 then -22
  else if err = -2 then -1313558101
  else if err = -3 then -14
  else if err = -4 then AVERROR_INVALIDDATA
  else if err = -5 then -38
  else if err = -6 then -1313558101
  else if err = -7 then -12
  else -22

namespace Decoder

/-- The arguments of one call `opus_decode(decoder, data, len, pcm, frame_size,
decode_fec)`; `data` is `none` for a NULL pointer. -/
structure DecodeCall where
  data : Option (List Byte)
  len : Int
  frame_size : Int
  decode_fec : Int
deriving DecidableEq, Repr

/-- The codec as a black box: the value that the `n`-th call of `opus_decode`
made by the thread returns, given the arguments of the call. -/
abbrev OpusCodec := Nat → DecodeCall → Int

/-- The struct `AudioBuffer` handed to `send_callback_for_many`: the byte
length of the copy of the decoder output, and the pts. -/
structure AudioBuffer where
  len : Int
  pts : Int
deriving DecidableEq, Repr

/-- Observable actions of the decoder loop, in program order. -/
inductive Effect where
  | opus_decode (call : DecodeCall) (ret : Int)
  | log_plc_error (ret : Int)
  | log_decode_error (ret : Int)
  | send_callback (buf : AudioBuffer)
  | log_create_failed (opus_err : Int)
deriving DecidableEq, Repr

/-- The parameters of the thread: `thread_data.sampleRate`,
`thread_data.channels`, and whether `buffer_ready_async` is not NULL. -/
structure Params where
  sampleRate : Int
  channels : Int
  buffer_ready_async : Bool
deriving DecidableEq, Repr

/-- The constant `opus_samples_per_frame` (line 57). -/
def Params.opus_samples_per_frame (p : Params) : Int :=
  Int.tdiv (p.sampleRate * OPUS_FRAME_DURATION_MS) 1000

/-- The constant `pts_scale` (line 58). -/
def Params.pts_scale (p : Params) : Int := Int.tdiv OUTPUT_SAMPLE_RATE p.sampleRate

/-- The decoder variables of `ThreadMain` (lines 62-78).  `opus_decoder` tells
whether the decoder has been created; `calls` counts the `opus_decode` calls
made so far. -/
structure State where
  opus_decoder : Bool
  expected_pts : Int
  total_samples_decoded : Int
  total_packets_decoded : Int
  total_missing_frames : Int
  last_frame_size : Int
  start_time_realtime : Int
  start_time_localtime : Int
  calls : Nat
deriving DecidableEq, Repr

/-- The values the variables are initialised with. -/
def State.init (p : Params) : State :=
  { opus_decoder := false, expected_pts := AV_NOPTS_VALUE, total_samples_decoded := 0,
    total_packets_decoded := 0, total_missing_frames := 0,
    last_frame_size := p.opus_samples_per_frame, start_time_realtime := AV_NOPTS_VALUE,
    start_time_localtime := 0, calls := 0 }

/-- Lines 164-174 and 197-206: the decoded frame is copied into a fresh buffer
of `frame_size * sizeof(int16_t)` bytes and handed to the callback, when there
is one (the allocation is taken to succeed). -/
def send_frame (p : Params) (frame_size pts : Int) : List Effect :=
  if p.buffer_ready_async then [Effect.send_callback { len := frame_size * 2, pts := pts }]
  else []

/-- Lines 149-155: the arguments of the recovery decode for missing frame `i`:
FEC on the bytes of the current packet for the last missing frame, PLC (NULL
packet) for the earlier ones, both requesting `last_frame_size` samples. -/
def recovery_call (pkt : AVPacket) (last_frame_size missing_frames i : Int) : DecodeCall :=
  if i = missing_frames - 1 then
    { data := pkt.data, len := pkt.size, frame_size := last_frame_size, decode_fec := 1 }
  else { data := none, len := 0, frame_size := last_frame_size, decode_fec := 0 }

/-- Line 171: the product `i * last_frame_size * pts_scale`, taken left to
right on three `int` operands, each product an `int` (two's complement
wrap) before it is added to the 64-bit `expected_pts`. -/
def recovered_offset (i last_frame_size pts_scale : Int) : Int :=
  toInt32 (toInt32 (i * last_frame_size) * pts_scale)

/-- Lines 147-175: the loop `for (int i = 0; i < missing_frames; i++)`, from
index `i` with `n` passes left.  Returns the actions and the samples added to
`total_samples_decoded`; `calls` is the number of `opus_decode` calls made
before the pass. -/
def plc_loop (p : Params) (codec : OpusCodec) (pkt : AVPacket)
    (expected_pts last_frame_size missing_frames : Int) :
    Nat → Int → Nat → List Effect × Int
  | 0, _, _ => ([], 0)
  | n + 1, i, calls =>
    let call := recovery_call pkt last_frame_size missing_frames i
    let frame_size := codec calls call
    let rest := plc_loop p codec pkt expected_pts last_frame_size missing_frames n (i + 1)
      (calls + 1)
    if frame_size < 0 then
      (Effect.opus_decode call frame_size :: Effect.log_plc_error frame_size :: rest.1, rest.2)
    else
      (Effect.opus_decode call frame_size ::
          (send_frame p frame_size
            (expected_pts + recovered_offset i last_frame_size p.pts_scale) ++ rest.1),
        frame_size + rest.2)

/-- The value of `missing_frames` (lines 139-141): the pts gap divided by the
pts length of a frame, converted to `int`. -/
def missing_frames (p : Params) (s : State) (pkt_pts : Int) : Int :=
  toInt32 (Int.tdiv (pkt_pts - s.expected_pts) (s.last_frame_size * p.pts_scale))

/-- Lines 136-177: gap detection and the recovery decodes.  Returns the
variables and the actions. -/
def conceal (p : Params) (codec : OpusCodec) (s : State) (pkt : AVPacket) :
    State × List Effect :=
  if s.expected_pts ≠ AV_NOPTS_VALUE ∧ pkt.pts > s.expected_pts then
    if missing_frames p s pkt.pts > 0 then
      let r := plc_loop p codec pkt s.expected_pts s.last_frame_size
        (missing_frames p s pkt.pts) (missing_frames p s pkt.pts).toNat 0 s.calls
      ({ s with total_missing_frames := s.total_missing_frames + missing_frames p s pkt.pts,
                total_samples_decoded := s.total_samples_decoded + r.2,
                calls := s.calls + (missing_frames p s pkt.pts).toNat }, r.1)
    else (s, [])
  else (s, [])

/-- Lines 179-208: the decode of the packet itself. -/
def decode_actual (p : Params) (codec : OpusCodec) (s : State) (pkt : AVPacket) :
    State × List Effect :=
  let call : DecodeCall :=
    { data := pkt.data, len := pkt.size, frame_size := OPUS_MAX_FRAME_SIZE, decode_fec := 0 }
  let frame_size := codec s.calls call
  if frame_size < 0 then
    ({ s with calls := s.calls + 1 },
      [Effect.opus_decode call frame_size, Effect.log_decode_error frame_size])
  else
    ({ s with last_frame_size := frame_size,
              total_samples_decoded := s.total_samples_decoded + frame_size,
              total_packets_decoded := s.total_packets_decoded + 1,
              expected_pts := pkt.pts + frame_size * p.pts_scale,
              calls := s.calls + 1 },
      Effect.opus_decode call frame_size :: send_frame p frame_size pkt.pts)

/-- Lines 124-208: the handling of a `POST_PACKET` message. -/
def handle_packet (p : Params) (codec : OpusCodec) (s : State) (pkt : AVPacket) :
    State × List Effect :=
  if s.opus_decoder = false then (s, [])
  else
    let r1 := conceal p codec s pkt
    let r2 := decode_actual p codec r1.1 pkt
    (r2.1, r1.2 ++ r2.2)

/-- What one pass through the body of `while (true)` in `ThreadMain` receives
from outside: the result of `av_thread_message_queue_recv` and the message, and
the error code that `opus_decoder_create` reports when the pass calls it (0 is
`OPUS_OK`). -/
structure Iter where
  recv_ret : Int
  msg : ThreadMessage
  opus_err : Int
deriving DecidableEq, Repr

/-- Result of one pass: the variables, the actions, and `some thread_ret` when
the pass left the loop through `goto cleanup_thread`. -/
structure IterResult where
  state : State
  effects : List Effect
  exit : Option Int
deriving DecidableEq, Repr

/-- One pass through the body of `while (true)` (lines 99-213). -/
def iteration (p : Params) (codec : OpusCodec) (s : State) (it : Iter) : IterResult :=
  if it.recv_ret < 0 then
    if it.recv_ret = AVERROR_EOF then { state := s, effects := [], exit := some 0 }
    else { state := s, effects := [], exit := some it.recv_ret }
  else
    match it.msg with
    | ThreadMessage.POST_CODEC_PARAMETERS =>
      if s.opus_decoder = false then
        if it.opus_err ≠ 0 then
          { state := s, effects := [Effect.log_create_failed it.opus_err],
            exit := some (ff_opus_error_to_averror it.opus_err) }
        else { state := { s with opus_decoder := true }, effects := [], exit := none }
      else { state := s, effects := [], exit := none }
    | ThreadMessage.POST_PACKET pkt =>
      { state := (handle_packet p codec s pkt).1, effects := (handle_packet p codec s pkt).2,
        exit := none }
    | ThreadMessage.POST_START_TIME_REALTIME t =>
      { state := { s with start_time_realtime := t }, effects := [], exit := none }
    | ThreadMessage.POST_START_TIME_LOCALTIME t =>
      { state := { s with start_time_localtime := t }, effects := [], exit := none }
    | _ => { state := s, effects := [], exit := none }

/-- The loop `while (true)` of `ThreadMain` (lines 98-214), run over the given
passes.  It stops at the first pass that leaves the loop; when the passes run
out first, `exit` is `none` (the thread is blocked in the next receive). -/
def ThreadMain (p : Params) (codec : OpusCodec) : State → List Iter → IterResult
  | s, [] => { state := s, effects := [], exit := none }
  | s, it :: rest =>
    let r := iteration p codec s it
    match r.exit with
    | some ret => { state := r.state, effects := r.effects, exit := some ret }
    | none =>
      let r2 := ThreadMain p codec r.state rest
      { state := r2.state, effects := r.effects ++ r2.effects, exit := r2.exit }

/-- The buffers handed to `send_callback_for_many`, in order. -/
def emitted : List Effect → List AudioBuffer
  | [] => []
  | Effect.send_callback buf :: es => buf :: emitted es
  | _ :: es => emitted es

/-- The recovery actions for missing frame `i` as the specification lists
them: one decode requesting `last_frame_size` samples, PLC (no input data)
for `i < missing - 1` and FEC on the packet's bytes for `i = missing - 1`;
then the recovered frame, when the decode returned one, with
`pts = expected_pts + i * last_frame_size * pts_scale`. -/
def recovery_of_frame (p : Params) (codec : OpusCodec) (s : State) (pkt : AVPacket)
    (missing : Int) (i : Nat) : List Effect :=
  let call : DecodeCall :=
    if (i : Int) < missing - 1 then
      { data := none, len := 0, frame_size := s.last_frame_size, decode_fec := 0 }
    else { data := pkt.data, len := pkt.size, frame_size := s.last_frame_size, decode_fec := 1 }
  let ret := codec (s.calls + i) call
  if ret < 0 then [Effect.opus_decode call ret, Effect.log_plc_error ret]
  else Effect.opus_decode call ret ::
    send_frame p ret (s.expected_pts + (i : Int) * s.last_frame_size * p.pts_scale)

/-- A pass that receives the message `msg`, with a successful decoder
creation when the pass creates one. -/
def receive (msg : ThreadMessage) : Iter :=
  { recv_ret := 0, msg := msg, opus_err := 0 }

/-- A codec whose every `opus_decode` call returns 480 samples. -/
def codec_480 : OpusCodec := fun _ _ => 480

/-- The parameters of scenario S2: decoding at 24 kHz, mono, with a
callback. -/
def params_24k : Params := { sampleRate := 24000, channels := 1, buffer_ready_async := true }

/-- An RTP packet of scenario S2 with the given pts: one payload byte, 20 ms. -/
def rtp_packet (pts : Int) : AVPacket :=
  { data := some [0xF8], pts := pts, dts := pts, duration := 960, stream_index := 0 }

end Decoder

namespace Decoder

/-- The passes that deliver the packets `pkts`, in order, as `POST_PACKET`
messages. -/
def feed (pkts : List AVPacket) : List Iter :=
  pkts.map (fun pkt => receive (ThreadMessage.POST_PACKET pkt))

/-- The arguments of the normal decode of a packet (lines 180-181): the bytes
of the packet, room for `OPUS_MAX_FRAME_SIZE` samples, no FEC. -/
def normal_call (pkt : AVPacket) : DecodeCall :=
  { data := pkt.data, len := pkt.size, frame_size := OPUS_MAX_FRAME_SIZE, decode_fec := 0 }

/-- A gap-free input, in the words of the specification: every packet is
decoded successfully and has a pts equal to the current `expected_pts` (or
`expected_pts` is still unknown), where a decoded packet with pts `P` and
`frame_size` samples moves `expected_pts` to `P + frame_size * pts_scale`.
`calls` is the number of `opus_decode` calls made before. -/
def gap_free (p : Params) (codec : OpusCodec) : Nat → Int → List AVPacket → Bool
  | _, _, [] => true
  | calls, expected, pkt :: rest =>
    decide (expected = AV_NOPTS_VALUE ∨ pkt.pts = expected) &&
      decide (0 ≤ codec calls (normal_call pkt)) &&
      gap_free p codec (calls + 1) (pkt.pts + codec calls (normal_call pkt) * p.pts_scale) rest

/-- One normal decode and one buffer with the pts of the packet, per packet:
the actions the specification lists for a gap-free input. -/
def straight_trace (codec : OpusCodec) : Nat → List AVPacket → List Effect
  | _, [] => []
  | calls, pkt :: rest =>
    Effect.opus_decode (normal_call pkt) (codec calls (normal_call pkt)) ::
      Effect.send_callback { len := codec calls (normal_call pkt) * 2, pts := pkt.pts } ::
      straight_trace codec (calls + 1) rest

/-- One buffer per packet, with the pts of the packet and the bytes of the
samples its decode returned. -/
def straight_buffers (codec : OpusCodec) : Nat → List AVPacket → List AudioBuffer
  | _, [] => []
  | calls, pkt :: rest =>
    { len := codec calls (normal_call pkt) * 2, pts := pkt.pts } ::
      straight_buffers codec (calls + 1) rest

/-- The value of `expected_pts` after a gap-free input: `P + frame_size *
pts_scale` of its last packet. -/
def straight_expected (p : Params) (codec : OpusCodec) : Nat → Int → List AVPacket → Int
  | _, expected, [] => expected
  | calls, _, pkt :: rest =>
    straight_expected p codec (calls + 1)
      (pkt.pts + codec calls (normal_call pkt) * p.pts_scale) rest

end Decoder

namespace Decoder

/-- The number of 16-bit samples in the buffers handed to the callback: each
buffer holds `len / sizeof(int16_t)` samples. -/
def emitted_samples (es : List Effect) : Int :=
  ((emitted es).map (fun b => b.len / 2)).sum

/-- The summed duration of the received packets (`D_real`). -/
def total_duration (pkts : List AVPacket) : Int :=
  (pkts.map (fun pkt => pkt.duration)).sum

/-- The sum over the gaps of `missing * last_frame_size`, in the words of the
specification: a packet with pts `P` arriving while `expected_pts` is known and
below `P` is a gap with `missing = (P - expected_pts) / (last_frame_size *
pts_scale)`; after a packet, `expected_pts` is `P + duration` and
`last_frame_size` is `duration / pts_scale`. -/
def recovered_samples (pts_scale : Int) : Int → Int → List AVPacket → Int
  | _, _, [] => 0
  | expected, last_frame_size, pkt :: rest =>
    (if expected ≠ AV_NOPTS_VALUE ∧ pkt.pts > expected then
        (pkt.pts - expected) / (last_frame_size * pts_scale) * last_frame_size
      else 0) +
      recovered_samples pts_scale (pkt.pts + pkt.duration) (pkt.duration / pts_scale) rest

/-- Every gap of the input is below `2^31` pts units, so that the count of
missing frames fits the `int` it is stored in. -/
def gaps_fit_int : Int → List AVPacket → Bool
  | _, [] => true
  | expected, pkt :: rest =>
    decide (expected = AV_NOPTS_VALUE ∨ pkt.pts - expected < 2147483648) &&
      gaps_fit_int (pkt.pts + pkt.duration) rest

end Decoder

namespace Decoder

/-- A codec meeting the codec assumption for 20 ms packets decoded at 24 kHz:
a PLC or FEC decode returns the number of samples requested, a normal decode
returns 480 samples. -/
def codec_20ms : OpusCodec := fun _ call =>
  if call.decode_fec = 1 ∨ call.data = none then call.frame_size else 480

end Decoder

namespace Demuxer

/-- What one call of `av_thread_message_queue_recv` on the input queue of the
file demuxer yields: the return value and, when it is not negative, the
message. -/
structure Recv where
  ret : Int
  msg : ThreadMessage
deriving DecidableEq, Repr

/-- What a call of the read hook leaves behind: the return value, the bytes of
the caller's buffer, the flag `thread_data->should_reset`, and the receives it
has not made. -/
structure HookResult where
  ret : Int
  buf : List Byte
  should_reset : Bool
  queue : List Recv
deriving DecidableEq, Repr

/-- The function `read_packet(opaque, buf, buf_size)` of demuxer.cc (lines
275-329), the AVIO read hook of the file demuxer, run on the receives the input
queue will yield.  The result is `none` when the receives run out: the hook is
then blocked in `av_thread_message_queue_recv`.  `memcpy` overwrites the first
`size` bytes of the caller's buffer; the return value `size` is at most
`buf_size`, an `int`. -/
def read_packet (should_reset : Bool) (buf : List Byte) (buf_size : Int) :
    List Recv → Option HookResult
  | [] => none
  | r :: queue =>
    if r.ret < 0 then
      some { ret := r.ret, buf := buf, should_reset := should_reset, queue := queue }
    else
      match r.msg with
      | ThreadMessage.OGG_RESET_DEMUXER =>
        if should_reset then read_packet should_reset buf buf_size queue
        else some { ret := 0, buf := buf, should_reset := true, queue := queue }
      | ThreadMessage.OGG_BUFFER b =>
        if buf_size < 0 ∨ (b.length : Int) > buf_size then
          some { ret := AVERROR_INVALIDDATA, buf := buf, should_reset := should_reset,
                 queue := queue }
        else
          some { ret := (b.length : Int), buf := b ++ buf.drop b.length,
                 should_reset := should_reset, queue := queue }
      | _ =>
        some { ret := AVERROR_INVALIDDATA, buf := buf, should_reset := should_reset,
               queue := queue }

end Demuxer

namespace Demuxer

/-- What a call of `initInputFormatContext` (lines 421-456) yields: its return
value, 0 on success, and the value it stores in `*stream_idx` then. -/
structure OpenResult where
  ret : Int
  stream_idx : Int
deriving DecidableEq, Repr

/-- What one pass through the body of `while (true)` in `ThreadMain` (lines
501-523) receives from outside: the flag `thread_data->shutdown` as read at
line 502, the passes of the call of `readAndWritePacket`, and the result of
the re-open when the pass makes one. -/
structure Turn where
  shutdown : Bool
  reads : List ReadIter
  reopen : OpenResult
deriving DecidableEq, Repr

/-- Observable actions of `ThreadMain`, in program order: the calls of
`initInputFormatContext` with their return value, of
`post_codec_parameters_to_thread` with its return value, the actions of
`readAndWritePacket`, the calls of `custom_io_close_input` on an open input,
and the closing of the receive side of the output queue
(`av_thread_message_queue_set_err_recv`). -/
inductive ThreadEffect where
  | open_input (ret : Int)
  | post_codec_parameters (ret : Int)
  | read (e : Effect)
  | close_input
  | set_err_recv_eof
deriving DecidableEq, Repr

/-- Result of `ThreadMain`: the actions, the return value of the thread
(`none` while it is still running) and the variable `pts_offset`. -/
structure ThreadResult where
  effects : List ThreadEffect
  ret : Option Int
  pts_offset : Int
deriving DecidableEq, Repr

/-- The flag `thread_data->should_reset` when `readAndWritePacket` has returned
0: the flag as the pass that left the loop saw it, which is the first pass with
`shutdown` or `should_reset` set (only the demuxer thread itself writes the
flag, lines 320, 483, 491, 521). -/
def reset_pending : List ReadIter → Bool
  | [] => false
  | it :: rest => if it.shutdown || it.should_reset then it.should_reset else reset_pending rest

/-- Whether the pass that left the loop of `readAndWritePacket` with 0 saw
`thread_data->shutdown` set. -/
def shutdown_seen : List ReadIter → Bool
  | [] => false
  | it :: rest => if it.shutdown || it.should_reset then it.shutdown else shutdown_seen rest

/-- The label `cleanup` of `ThreadMain` (lines 525-541): the input is closed
when it is open, in RTP mode the receive side of the output queue is closed,
and `AVERROR_EOF` is turned into the return value 0. -/
def cleanup (mode : DemuxerThreadMode) (input_open : Bool) (ret : Int) :
    List ThreadEffect × Int :=
  ((if input_open then [ThreadEffect.close_input] else []) ++
      (if mode = DemuxerThreadMode.DEMUXER_MODE_RTP then [ThreadEffect.set_err_recv_eof]
       else []),
    if ret = AVERROR_EOF then 0 else ret)

/-- The loop `while (true)` of `ThreadMain` (lines 501-523), run over the given
turns, from the values of `ret`, `stream_idx` and `pts_offset`.  The flag
`shutdown` is set by `stop_rtp_demuxer` and never cleared, so line 502 finds it
set when the previous call of `readAndWritePacket` saw it set (`seen`);
otherwise line 502 reads the value the turn supplies.  When the turns or the
passes of a call run out the thread is still running. -/
def main_loop (mode : DemuxerThreadMode) :
    Int → Bool → Int → Int → List Turn → ThreadResult
  | ret, true, _, pts_offset, _ =>
    { effects := (cleanup mode true ret).1, ret := some (cleanup mode true ret).2,
      pts_offset := pts_offset }
  | _, false, _, pts_offset, [] => { effects := [], ret := none, pts_offset := pts_offset }
  | ret, false, stream_idx, pts_offset, t :: rest =>
    if t.shutdown then
      { effects := (cleanup mode true ret).1, ret := some (cleanup mode true ret).2,
        pts_offset := pts_offset }
    else
      let r := readAndWritePacket mode stream_idx pts_offset t.reads
      match r.ret with
      | none =>
        { effects := r.effects.map ThreadEffect.read, ret := none, pts_offset := r.pts_offset }
      | some v =>
        if v < 0 then
          { effects := r.effects.map ThreadEffect.read ++ (cleanup mode true v).1,
            ret := some (cleanup mode true v).2, pts_offset := r.pts_offset }
        else if reset_pending t.reads then
          if t.reopen.ret ≠ 0 then
            { effects := r.effects.map ThreadEffect.read ++
                ThreadEffect.close_input :: ThreadEffect.open_input t.reopen.ret ::
                  (cleanup mode false t.reopen.ret).1,
              ret := some (cleanup mode false t.reopen.ret).2, pts_offset := r.pts_offset }
          else
            let r2 := main_loop mode 0 (shutdown_seen t.reads) t.reopen.stream_idx
              r.pts_offset rest
            { effects := r.effects.map ThreadEffect.read ++
                ThreadEffect.close_input :: ThreadEffect.open_input 0 :: r2.effects,
              ret := r2.ret, pts_offset := r2.pts_offset }
        else
          let r2 := main_loop mode v (shutdown_seen t.reads) stream_idx r.pts_offset rest
          { effects := r.effects.map ThreadEffect.read ++ r2.effects, ret := r2.ret,
            pts_offset := r2.pts_offset }

/-- The function `ThreadMain` of demuxer.cc (lines 474-542): the initial open,
the post of the codec parameters, the loop, and the cleanup.  `first` is the
result of the initial `initInputFormatContext` and `post_ret` the value
`post_codec_parameters_to_thread` returns. -/
def ThreadMain (mode : DemuxerThreadMode) (first : OpenResult) (post_ret : Int)
    (turns : List Turn) : ThreadResult :=
  if first.ret ≠ 0 then
    { effects := ThreadEffect.open_input first.ret :: (cleanup mode false first.ret).1,
      ret := some (cleanup mode false first.ret).2, pts_offset := 0 }
  else if post_ret < 0 then
    { effects := ThreadEffect.open_input 0 :: ThreadEffect.post_codec_parameters post_ret ::
        (cleanup mode true post_ret).1,
      ret := some (cleanup mode true post_ret).2, pts_offset := 0 }
  else
    let r := main_loop mode post_ret false first.stream_idx 0 turns
    { effects := ThreadEffect.open_input 0 :: ThreadEffect.post_codec_parameters post_ret ::
        r.effects,
      ret := r.ret, pts_offset := r.pts_offset }

/-- The number of `CodecParams` messages put on the output queue: the calls of
`post_codec_parameters_to_thread` that did not fail. -/
def codec_params_posted : List ThreadEffect → Nat
  | [] => 0
  | ThreadEffect.post_codec_parameters ret :: es =>
    (if ret < 0 then 0 else 1) + codec_params_posted es
  | _ :: es => codec_params_posted es

/-- A pass of `readAndWritePacket` that finds `should_reset` set (the read hook
received a reset marker). -/
def reset_pass : ReadIter :=
  { ret := 0, pkt := { data := none, pts := 0, dts := 0, duration := 0, stream_index := 0 },
    should_tick := false, shutdown := false, should_reset := true, gettime := 0,
    start_time_realtime := AV_NOPTS_VALUE, post_ret := 0 }

/-- A pass of `readAndWritePacket` that finds `shutdown` set, `av_read_frame`
having returned `ret`. -/
def shutdown_pass (ret : Int) : ReadIter :=
  { ret := ret, pkt := { data := none, pts := 0, dts := 0, duration := 0, stream_index := 0 },
    should_tick := false, shutdown := true, should_reset := false, gettime := 0,
    start_time_realtime := AV_NOPTS_VALUE, post_ret := 0 }

end Demuxer

/-! ## audio_encode_thread.cc -/

/-- The constant `FRAME_SIZE_OUTPUT` of audio_encode_thread.cc: 20 ms at
48 kHz. -/
def FRAME_SIZE_OUTPUT : Int := 960

/-- The constant `MAX_FRAME_SIZE_INPUT` of audio_encode_thread.cc. -/
def MAX_FRAME_SIZE_INPUT : Nat := 960

/-- The constant `MAX_OPUS_FRAME_SIZE` of audio_encode_thread.cc. -/
def MAX_OPUS_FRAME_SIZE : Int := 1275

namespace Encoder

/-- Modelled from the spec: the message types `FLUSH_OPUS_ENCODER` and
`CLEAR_PRODUCER_QUEUE`, which `ThreadMain` of audio_encode_thread.cc tests
(lines 204 and 239) but the enum `ThreadMessageType` of thread_messages.h does
not declare; they are the `FlushEncoder` and `ClearProducerQueue` variants of
the specification's `ControlMessage`, and carry no parameter.  `declared` is a
message of a declared type. -/
inductive Message where
  | declared (m : ThreadMessage)
  | FLUSH_OPUS_ENCODER
  | CLEAR_PRODUCER_QUEUE
deriving DecidableEq, Repr

/-- The parameters of the thread that the loop uses: `params.sampleRate` (read
at line 55; the declaration of `AudioEncodeThreadParams` in
audio_encode_thread.h does not list the field), and whether `drain_async` is
not NULL. -/
structure Params where
  sampleRate : Int
  drain_async : Bool
deriving DecidableEq, Repr

/-- The constant `frame_size_input` (line 56): the samples of a 20 ms frame at
the input rate. -/
def Params.frame_size_input (p : Params) : Int := Int.tdiv (p.sampleRate * 20) 1000

/-- What a call of `opus_encode` yields: the return value (the length of the
encoded packet, or a negative error) and the bytes it left in `opus_data`. -/
structure EncodeResult where
  ret : Int
  opus_data : List Byte
deriving DecidableEq, Repr

/-- The encoder as a black box: what the `n`-th call of `opus_encode` made by
the thread yields, given the stereo frame and the frame size. -/
abbrev OpusEncoder := Nat → List Int → Int → EncodeResult

/-- The producer queue as a black box: the value that the `n`-th call of
`post_packet_to_thread` made by the thread returns. -/
abbrev PostResults := Nat → Int

/-- The variables of `ThreadMain` (lines 64-71): the accumulator and its fill
level, the pts of the next packet, the totals; `calls` and `posts` count the
calls of `opus_encode` and of `post_packet_to_thread` made so far. -/
structure State where
  mono_accum : List Int
  accum_pos : Int
  pts : Int
  total_samples_encoded : Int
  total_frames_encoded : Int
  calls : Nat
  posts : Nat
deriving DecidableEq, Repr

/-- The values the variables are initialised with.  The array `mono_accum` is
not initialised by the code; no element of it is read before it is written, and
it is taken to hold zeros. -/
def State.init : State :=
  { mono_accum := List.replicate MAX_FRAME_SIZE_INPUT 0, accum_pos := 0, pts := 0,
    total_samples_encoded := 0, total_frames_encoded := 0, calls := 0, posts := 0 }

/-- Observable actions of the encoder loop, in program order. -/
inductive Effect where
  | drain_async_send
  | opus_encode (frame : List Int) (frame_size : Int) (ret : Int)
  | log_encode_error (ret : Int)
  | post_packet (pkt : AVPacket) (flags : Int) (ret : Int)
  | log_post_failed (ret : Int)
  | log_flush_post_failed (ret : Int)
  | drain_producer_queue
  | set_bitrate (value : Int)
  | set_inband_fec (value : Int)
  | set_packet_loss_perc (value : Int)
  | log_producer_start_failed (ret : Int)
  | log_create_failed (opus_err : Int)
deriving DecidableEq, Repr

/-- The 16-bit samples of a PCM buffer read through `(int16_t *)data`
(little-endian); a trailing odd byte belongs to no sample. -/
def pcm_samples : List Byte → List Int
  | lo :: hi :: rest =>
    (if hi.val < 128 then (lo.val : Int) + 256 * (hi.val : Int)
     else (lo.val : Int) + 256 * (hi.val : Int) - 65536) :: pcm_samples rest
  | _ => []

/-- The calls `memcpy(mono_accum + pos, src, n * sizeof(int16_t))` and
`memset(mono_accum + pos, 0, ...)`: the elements from `pos` on are
overwritten with `src`. -/
def write_at (buf : List Int) (pos : Nat) (src : List Int) : List Int :=
  buf.take pos ++ src ++ buf.drop (pos + src.length)

/-- Lines 151-154 and 211-214: every mono sample is written to the left and to
the right channel. -/
def stereo_frame (frame_size : Int) (mono : List Int) : List Int :=
  (mono.take frame_size.toNat).flatMap (fun x => [x, x])

/-- The bytes `memcpy(pkt->data, opus_data, encoded_len)` puts into the packet
of `encoded_len` bytes. -/
def packet_bytes (opus_data : List Byte) (encoded_len : Int) : List Byte :=
  (List.range encoded_len.toNat).map (fun i => opus_data.getD i 0)

/-- Lines 166-185 and 218-224: the packet of an encoded frame (the allocations
are taken to succeed). -/
def frame_packet (r : EncodeResult) (pts : Int) : AVPacket :=
  { data := some (packet_bytes r.opus_data r.ret), pts := pts, dts := pts,
    duration := FRAME_SIZE_OUTPUT, stream_index := 0 }

/-- Result of the loop over a PCM buffer: the variables, the actions, and
whether the loop was left (`remaining` reached 0). -/
structure PcmResult where
  state : State
  effects : List Effect
  finished : Bool
deriving DecidableEq, Repr

/-- Lines 138-141: the number of samples copied in one pass, at most what the
accumulator still takes. -/
def to_copy (p : Params) (s : State) (remaining : Int) : Int :=
  if remaining > p.frame_size_input - s.accum_pos then p.frame_size_input - s.accum_pos
  else remaining

/-- Lines 143-144: the samples are copied into the accumulator. -/
def copy_in (p : Params) (s : State) (input : List Int) (remaining : Int) : State :=
  { s with mono_accum :=
             write_at s.mono_accum s.accum_pos.toNat (input.take (to_copy p s remaining).toNat),
           accum_pos := s.accum_pos + to_copy p s remaining }

/-- Lines 159-163: after a failed encode the accumulator is emptied. -/
def after_error (s : State) : State :=
  { s with accum_pos := 0, calls := s.calls + 1 }

/-- Lines 188-198: after the post of a frame the pts moves on by
`FRAME_SIZE_OUTPUT`, the accumulator is emptied and the totals are updated. -/
def after_frame (p : Params) (s : State) : State :=
  { s with accum_pos := 0, pts := s.pts + FRAME_SIZE_OUTPUT,
           total_samples_encoded := s.total_samples_encoded + p.frame_size_input,
           total_frames_encoded := s.total_frames_encoded + 1,
           calls := s.calls + 1, posts := s.posts + 1 }

/-- The loop `while (remaining > 0)` (lines 136-200) with `fuel` passes
allowed.  `input` are the samples not yet copied. -/
def pcm_loop (p : Params) (codec : OpusEncoder) (post : PostResults) :
    Nat → State → List Int → Int → PcmResult
  | 0, s, _, remaining => { state := s, effects := [], finished := decide (remaining ≤ 0) }
  | fuel + 1, s, input, remaining =>
    if remaining ≤ 0 then { state := s, effects := [], finished := true }
    else
      let s1 := copy_in p s input remaining
      let input1 := input.drop (to_copy p s remaining).toNat
      let remaining1 := remaining - to_copy p s remaining
      if s1.accum_pos ≥ p.frame_size_input then
        let frame := stereo_frame p.frame_size_input s1.mono_accum
        let r := codec s1.calls frame p.frame_size_input
        if r.ret < 0 then
          let rest := pcm_loop p codec post fuel (after_error s1) input1 remaining1
          { state := rest.state,
            effects := Effect.opus_encode frame p.frame_size_input r.ret ::
              Effect.log_encode_error r.ret :: rest.effects,
            finished := rest.finished }
        else
          let post_ret := post s1.posts
          let rest := pcm_loop p codec post fuel (after_frame p s1) input1 remaining1
          { state := rest.state,
            effects := Effect.opus_encode frame p.frame_size_input r.ret ::
              Effect.post_packet (frame_packet r s1.pts) 0 post_ret ::
              ((if post_ret < 0 then [Effect.log_post_failed post_ret] else []) ++ rest.effects),
            finished := rest.finished }
      else pcm_loop p codec post fuel s1 input1 remaining1

/-- Lines 204-238: the handling of `FLUSH_OPUS_ENCODER`. -/
def flush (p : Params) (codec : OpusEncoder) (post : PostResults) (s : State) :
    State × List Effect :=
  if s.accum_pos > 0 then
    let mono := write_at s.mono_accum s.accum_pos.toNat
      (List.replicate (p.frame_size_input - s.accum_pos).toNat 0)
    let frame := stereo_frame p.frame_size_input mono
    let r := codec s.calls frame p.frame_size_input
    if r.ret > 0 then
      let post_ret := post s.posts
      ({ s with mono_accum := mono, accum_pos := 0, pts := 0, calls := s.calls + 1,
                posts := s.posts + 1 },
        Effect.opus_encode frame p.frame_size_input r.ret ::
          Effect.post_packet (frame_packet r s.pts) 0 post_ret ::
          (if post_ret < 0 then [Effect.log_flush_post_failed post_ret] else []))
    else
      ({ s with mono_accum := mono, accum_pos := 0, pts := 0, calls := s.calls + 1 },
        [Effect.opus_encode frame p.frame_size_input r.ret])
  else ({ s with pts := 0 }, [])

/-- What one pass through the body of `while (true)` in `ThreadMain` receives
from outside: the result of `av_thread_message_queue_recv` and the message. -/
structure Iter where
  recv_ret : Int
  msg : Message
deriving DecidableEq, Repr

/-- Result of one pass, or of the loop: the variables, the actions,
`some ret` when the loop was left through `goto cleanup`, and `stuck` when the
loop over a PCM buffer was not left within its passes. -/
structure IterResult where
  state : State
  effects : List Effect
  exit : Option Int
  stuck : Bool
deriving DecidableEq, Repr

/-- One pass through the body of `while (true)` (lines 120-260).  The loop
over a PCM buffer is given one pass per sample, which is enough whenever it
copies at least one sample per pass. -/
def iteration (p : Params) (codec : OpusEncoder) (post : PostResults) (s : State)
    (it : Iter) : IterResult :=
  if it.recv_ret < 0 then
    if it.recv_ret = AVERROR_EOF then { state := s, effects := [], exit := some 0, stuck := false }
    else { state := s, effects := [], exit := some it.recv_ret, stuck := false }
  else
    let drain : List Effect := if p.drain_async then [Effect.drain_async_send] else []
    match it.msg with
    | Message.declared (ThreadMessage.POST_PCM_BUFFER buf) =>
      let r := pcm_loop p codec post (buf.length / 2) s (pcm_samples buf)
        ((buf.length / 2 : Nat) : Int)
      { state := r.state, effects := drain ++ r.effects, exit := none, stuck := !r.finished }
    | Message.FLUSH_OPUS_ENCODER =>
      { state := (flush p codec post s).1, effects := drain ++ (flush p codec post s).2,
        exit := none, stuck := false }
    | Message.CLEAR_PRODUCER_QUEUE =>
      { state := s, effects := drain ++ [Effect.drain_producer_queue], exit := none,
        stuck := false }
    | Message.declared (ThreadMessage.SET_ENCODER_BITRATE v) =>
      { state := s, effects := drain ++ [Effect.set_bitrate (if v > 0 then v else -1000)],
        exit := none, stuck := false }
    | Message.declared (ThreadMessage.SET_ENCODER_FEC v) =>
      { state := s, effects := drain ++ [Effect.set_inband_fec v], exit := none,
        stuck := false }
    | Message.declared (ThreadMessage.SET_ENCODER_PACKET_LOSS_PERC v) =>
      { state := s, effects := drain ++ [Effect.set_packet_loss_perc v], exit := none,
        stuck := false }
    | _ => { state := s, effects := drain, exit := none, stuck := false }

/-- The loop `while (true)` of `ThreadMain` (lines 119-261), run over the given
passes.  It stops at the first pass that leaves the loop or gets stuck; when
the passes run out first, `exit` is `none` (the thread is blocked in the next
receive). -/
def main_loop (p : Params) (codec : OpusEncoder) (post : PostResults) :
    State → List Iter → IterResult
  | s, [] => { state := s, effects := [], exit := none, stuck := false }
  | s, it :: rest =>
    let r := iteration p codec post s it
    match r.exit with
    | some ret => { state := r.state, effects := r.effects, exit := some ret, stuck := false }
    | none =>
      if r.stuck then r
      else
        let r2 := main_loop p codec post r.state rest
        { state := r2.state, effects := r.effects ++ r2.effects, exit := r2.exit,
          stuck := r2.stuck }

/-- The function `ThreadMain` of audio_encode_thread.cc (lines 52-282):
`start_ret` is the value `start_producer_thread_raw` returns and `opus_err` the
error code of `opus_encoder_create` (0 is `OPUS_OK`).  The return value of the
producer thread is only logged at `cleanup`. -/
def ThreadMain (p : Params) (codec : OpusEncoder) (post : PostResults) (start_ret opus_err : Int)
    (iters : List Iter) : IterResult :=
  if start_ret ≠ 0 then
    { state := State.init, effects := [Effect.log_producer_start_failed start_ret],
      exit := some start_ret, stuck := false }
  else if opus_err ≠ 0 then
    { state := State.init, effects := [Effect.log_create_failed opus_err],
      exit := some (ff_opus_error_to_averror opus_err), stuck := false }
  else main_loop p codec post State.init iters

/-- The packets handed to `post_packet_to_thread`, in order. -/
def posted : List Effect → List AVPacket
  | [] => []
  | Effect.post_packet pkt _ _ :: es => pkt :: posted es
  | _ :: es => posted es

/-- The return values of the calls of `opus_encode` that produced a packet
(a positive length), in order. -/
def encoded : List Effect → List Int
  | [] => []
  | Effect.opus_encode _ _ ret :: es => if ret > 0 then ret :: encoded es else encoded es
  | _ :: es => encoded es

/-- A pass that receives the message `msg`. -/
def receive (msg : Message) : Iter := { recv_ret := 0, msg := msg }

/-- A pass that receives a PCM buffer of `n` samples of silence. -/
def silence (n : Nat) : Iter :=
  receive (Message.declared (ThreadMessage.POST_PCM_BUFFER (List.replicate (2 * n) 0)))

/-- An encoder whose every call returns a three-byte packet. -/
def codec_3 : OpusEncoder := fun _ _ _ => { ret := 3, opus_data := [0xF8, 0xFF, 0xFE] }

/-- The parameters of scenario S6: 24 kHz input, no drain callback. -/
def params_24k : Params := { sampleRate := 24000, drain_async := false }

end Encoder

namespace Encoder

/-- A pass that receives a PCM buffer of `n` samples of value 1. -/
def ones (n : Nat) : Iter :=
  receive (Message.declared (ThreadMessage.POST_PCM_BUFFER
    ((List.replicate n [(1 : Byte), 0]).flatten)))

end Encoder

namespace Encoder

/-- The numbering of the specification: the packets have `pts = dts = b`,
`b + 960`, `b + 2 * 960`, and so on, and duration 960. -/
def numbered_from : Int → List AVPacket → Prop
  | _, [] => True
  | b, pkt :: rest =>
    pkt.pts = b ∧ pkt.dts = b ∧ pkt.duration = 960 ∧ numbered_from (b + 960) rest

end Encoder

namespace Decoder

/-- The end of `ThreadMain` of audio_decode_thread.cc (lines 239-244): the
thread returns the value of `stop_rtp_demuxer` (the exit status of the demuxer
thread) when that is not 0, and the value `thread_ret` of its own loop
otherwise. -/
def thread_status (thread_ret demux_ret : Int) : Int :=
  if demux_ret ≠ 0 then demux_ret else thread_ret

/-- The exit status of the decoder thread whose loop runs over the given
passes (the allocations and the start of the demuxer thread having succeeded),
`demux_ret` being the value `stop_rtp_demuxer` returns; `none` while the loop is
still running. -/
def run (p : Params) (codec : OpusCodec) (iters : List Iter) (demux_ret : Int) : Option Int :=
  (ThreadMain p codec (State.init p) iters).exit.map (fun r => thread_status r demux_ret)

end Decoder

/-! ## time_util.cc -/

/-- The constant `NTP_OFFSET` of time_util.h: the seconds between the NTP epoch
(1900) and the Unix epoch (1970). -/
def NTP_OFFSET : Int := 2208988800

/-- The constant `NTP_OFFSET_US` of time_util.h. -/
def NTP_OFFSET_US : Int := NTP_OFFSET * 1000000

/-- The constant `INT64_MAX`. -/
def INT64_MAX : Int := 9223372036854775807

/-- Conversion of an unsigned 64-bit value to `int64_t` (two's complement). -/
def toInt64 (x : Int) : Int := (x + 9223372036854775808) % 18446744073709551616 - 9223372036854775808

/-- The function `ntp_to_realtime(ntp_timestamp)` of time_util.cc (lines 7-13).
The argument is a `uint64_t`; the subtractions are made in `uint64_t` (modulo
`2^64`) and their results converted to `int64_t`, for the first argument of
`av_rescale` in the first branch and for the return value in the second. -/
def ntp_to_realtime (ntp_timestamp : Int) : Int :=
  if ntp_timestamp > INT64_MAX then
    av_rescale (toInt64 ((ntp_timestamp - NTP_OFFSET * 4294967296) % 18446744073709551616))
      MICROSECONDS 4294967296
  else
    toInt64 ((av_rescale ntp_timestamp MICROSECONDS 4294967296 - NTP_OFFSET_US) %
      18446744073709551616)

/-- The integer `r` is `x / 2^32` rounded to the nearest integer: it is at most
one half away from the quotient. -/
def nearest_to_quotient (r x : Int) : Prop :=
  2 * (r * 4294967296 - x) ≤ 4294967296 ∧ 2 * (x - r * 4294967296) ≤ 4294967296

namespace Decoder

/-- A codec whose call number 3 fails with `OPUS_INVALID_PACKET` and whose
other calls return 480 samples. -/
def codec_fail_3 : OpusCodec := fun n _ => if n = 3 then -4 else 480

end Decoder

namespace Decoder

/-- The parameters of a decoder configured for stereo output at 24 kHz, with a
callback. -/
def params_stereo : Params := { sampleRate := 24000, channels := 2, buffer_ready_async := true }

end Decoder

/-! ## thread_messages.cc: posting byte buffers -/

namespace Messages

/-- Observable actions of `post_ogg_buffer_to_thread`: the call
`av_thread_message_queue_send(queue, &msg, flags)` with the value it returned,
the warning, and the release of the buffer. -/
inductive Effect where
  | queue_send (msg : ThreadMessage) (flags : Int) (ret : Int)
  | warn_dropping_buffer
  | buffer_unref
deriving DecidableEq, Repr

/-- The return value and the actions of a post function. -/
structure PostResult where
  ret : Int
  effects : List Effect
deriving DecidableEq, Repr

/-- The function `post_ogg_buffer_to_thread(queue, buffer, buffer_length)` of
thread_messages.cc (lines 27-53), which the host calls to feed the file
demuxer.  `alloc_ok` tells whether `av_buffer_alloc` succeeded (`-12` is
`AVERROR(ENOMEM)`), `send_ret` is the value the send returns. -/
def post_ogg_buffer_to_thread (buffer : List Byte) (alloc_ok : Bool) (send_ret : Int) :
    PostResult :=
  if alloc_ok = false then { ret := -12, effects := [] }
  else if send_ret ≠ 0 then
    { ret := send_ret,
      effects := Effect.queue_send (ThreadMessage.OGG_BUFFER buffer) AV_THREAD_MESSAGE_NONBLOCK
          send_ret ::
        ((if send_ret = AVERROR_EAGAIN then [Effect.warn_dropping_buffer] else []) ++
          [Effect.buffer_unref]) }
  else
    { ret := send_ret,
      effects := [Effect.queue_send (ThreadMessage.OGG_BUFFER buffer) AV_THREAD_MESSAGE_NONBLOCK
        send_ret] }

end Messages

namespace Encoder

/-- The passes that deliver the PCM buffers `bufs`, in order, as
`POST_PCM_BUFFER` messages. -/
def feed_pcm (bufs : List (List Byte)) : List Iter :=
  bufs.map (fun buf => receive (Message.declared (ThreadMessage.POST_PCM_BUFFER buf)))

/-- The number of 16-bit samples in the buffers: `size / sizeof(int16_t)` of
each. -/
def total_samples (bufs : List (List Byte)) : Int :=
  (bufs.map (fun buf => ((buf.length / 2 : Nat) : Int))).sum

end Encoder

/-! ## Theorems -/

theorem toInt32_of_small (n : Nat) (h : n < 2147483648) :
    toInt32 ((n % 4294967296 : Nat) : Int) = (n : Int) := by
  unfold toInt32
  have h1 : n % 4294967296 = n := Nat.mod_eq_of_lt (by omega)
  rw [h1]
  omega

theorem frame_size_table (c : Fin 32) :
    (if c.val < 12 then max 480 (960 * (c.val &&& 3))
      else if c.val < 16 then 480 <<< (c.val &&& 1)
      else 120 <<< (c.val &&& 3)) = rfc6716_frame_size c.val := by
  revert c
  decide

theorem and_three_eq_mod (x : Nat) : x &&& 3 = x % 4 := by
  have h := Nat.and_pow_two_sub_one_eq_mod x 2
  simpa using h

theorem and_63_eq_mod (x : Nat) : x &&& 0x3F = x % 64 := by
  have h := Nat.and_pow_two_sub_one_eq_mod x 6
  simpa using h

theorem toc_config_lt (b : Byte) : b.val >>> 3 < 32 := by
  rw [Nat.shiftRight_eq_div_pow]
  have := b.isLt
  omega

theorem rfc6716_frame_size_le (c : Fin 32) : rfc6716_frame_size c.val ≤ 2880 := by
  revert c
  decide

/-- The value `opus_duration` computes, with the frame size and frame count
written as the two tables: an error for count code 3 without a second byte,
the product of the table entries otherwise. -/
theorem opus_duration_eq (src : List Byte) (size : Int) :
    opus_duration src size =
      if (src.getD 0 0).val % 4 = 3 ∧ size < 2 then AVERROR_INVALIDDATA
      else ((rfc6716_frame_size ((src.getD 0 0).val >>> 3) * rfc6716_frame_count src : Nat) : Int) := by
  have hc := toc_config_lt (src.getD 0 0)
  have htab := frame_size_table ⟨(src.getD 0 0).val >>> 3, hc⟩
  have hle := rfc6716_frame_size_le ⟨(src.getD 0 0).val >>> 3, hc⟩
  simp only at htab hle
  have h4 : (src.getD 0 0).val % 4 < 4 := Nat.mod_lt _ (by norm_num)
  have h64 : (src.getD 1 0).val % 64 < 64 := Nat.mod_lt _ (by norm_num)
  unfold opus_duration
  simp only [htab]
  simp only [and_three_eq_mod, and_63_eq_mod]
  by_cases h3 : (src.getD 0 0).val % 4 = 3
  · by_cases hs : size < 2
    · rw [if_pos h3, if_pos hs, if_pos ⟨h3, hs⟩]
    · have hcnt : rfc6716_frame_count src = (src.getD 1 0).val % 64 := by
        unfold rfc6716_frame_count
        rw [h3]
      have hn : ¬ ((src.getD 0 0).val % 4 = 3 ∧ size < 2) := fun h => hs h.2
      rw [if_pos h3, if_neg hs, if_neg hn, hcnt]
      apply toInt32_of_small
      calc rfc6716_frame_size ((src.getD 0 0).val >>> 3) * ((src.getD 1 0).val % 64)
          ≤ 2880 * 64 := Nat.mul_le_mul hle (le_of_lt h64)
        _ < 2147483648 := by norm_num
  · have hn : ¬ ((src.getD 0 0).val % 4 = 3 ∧ size < 2) := fun h => h3 h.1
    by_cases h0 : (src.getD 0 0).val % 4 = 0
    · have hcnt : rfc6716_frame_count src = 1 := by
        unfold rfc6716_frame_count
        rw [h0]
      rw [if_neg h3, if_neg hn, if_neg (not_not.mpr h0), hcnt]
      apply toInt32_of_small
      omega
    · have hcnt : rfc6716_frame_count src = 2 := by
        unfold rfc6716_frame_count
        have h12 : (src.getD 0 0).val % 4 = 1 ∨ (src.getD 0 0).val % 4 = 2 := by omega
        rcases h12 with h | h <;> rw [h]
      rw [if_neg h3, if_neg hn, if_pos h0, hcnt]
      apply toInt32_of_small
      omega

/-- C6. For every non-empty packet that `opus_duration` accepts (its result is
not negative), the result is `frame_size * frame_count`, where `frame_size` is
the entry of the RFC 6716 configuration table for `config = toc >> 3` and
`frame_count` is 1 for count code 0, 2 for codes 1 and 2, and the low six bits
of the second byte for code 3. -/
theorem opus_duration_matches_rfc6716 (src : List Byte) (_hne : src ≠ [])
    (hacc : 0 ≤ opus_duration src (src.length : Int)) :
    opus_duration src (src.length : Int) =
      ((rfc6716_frame_size ((src.getD 0 0).val >>> 3) * rfc6716_frame_count src : Nat) : Int) := by
  rw [opus_duration_eq] at hacc ⊢
  split
  · rename_i h
    rw [if_pos h] at hacc
    exact absurd hacc (by decide)
  · rfl

/-- Witness of C6: the two-byte packet with TOC `0xFB` (configuration 31, count
code 3) and second byte 2 is accepted with duration `960 * 2`. -/
theorem opus_duration_matches_rfc6716_witness :
    opus_duration [0xFB, 2] 2 = ((960 * 2 : Nat) : Int) :=
  opus_duration_matches_rfc6716 [0xFB, 2] (by decide) (by decide)

/-! ### demuxer.cc: malformed packets -/

/-- C7, counterexample.  The packet with TOC 3 (count code 3) and second byte 0
has a frame count of 0, and the packet with TOC `0x1B` and second byte 3 lasts
`2880 * 3 = 8640` samples: both are malformed in the sense of the claim, yet
`opus_duration` returns 0 and 8640, not an error, and `readAndWritePacket`
puts the first on the output queue. -/
theorem opus_duration_accepts_malformed :
    rfc6716_malformed [3, 0] ∧ opus_duration [3, 0] 2 = 0 ∧
    rfc6716_malformed [0x1B, 3] ∧ opus_duration [0x1B, 3] 2 = 8640 ∧
    Demuxer.enqueued (Demuxer.readAndWritePacket DemuxerThreadMode.DEMUXER_MODE_RTP 0 0
      [{ ret := 0, pkt := { data := some [3, 0], pts := 100, dts := 100, duration := 0,
                            stream_index := 0 },
         should_tick := false, shutdown := false, should_reset := false, gettime := 1,
         start_time_realtime := AV_NOPTS_VALUE, post_ret := 0 }]).effects =
      [{ data := some [3, 0], pts := 100, dts := 100, duration := 0, stream_index := 0 }] := by
  refine ⟨by decide, by decide, by decide, by decide, by decide⟩

/-- C7, amended.  For every non-empty packet, `opus_duration` returns an error
exactly when the TOC has count code 3 and the packet has no second byte; the
duration repair of the demuxer then drops a packet that has no duration: the
pass posts nothing and leaves the variables unchanged. -/
theorem opus_duration_rejects_iff (src : List Byte) (_hne : src ≠ []) :
    (opus_duration src (src.length : Int) < 0 ↔
      ((src.getD 0 0).val % 4 = 3 ∧ src.length < 2)) ∧
    (opus_duration src (src.length : Int) < 0 →
      ∀ (pkt : AVPacket) (mode : DemuxerThreadMode) (stream_idx pts_offset post_ret : Int)
        (st : Demuxer.ReadState) (pre : List Demuxer.Effect),
        pkt.data = some src → pkt.duration = 0 →
        Demuxer.filter_packet mode stream_idx pts_offset st pkt post_ret pre =
          { state := st, effects := pre, exit := none }) := by
  constructor
  · rw [opus_duration_eq]
    constructor
    · intro h
      split at h
      · rename_i hc
        exact ⟨hc.1, by omega⟩
      · exact absurd h (by omega)
    · intro h
      rw [if_pos ⟨h.1, by omega⟩]
      decide
  · intro hneg pkt mode stream_idx pts_offset post_ret st pre hdata hdur
    have hsize : pkt.size = (src.length : Int) := by
      unfold AVPacket.size
      rw [hdata]
    have hrep : Demuxer.repair_duration pkt = none := by
      unfold Demuxer.repair_duration
      rw [hdata]
      simp only [hdur, if_true, hsize, hneg]
    unfold Demuxer.filter_packet
    rw [hrep]
    split <;> rfl

/-- Witness of C7 (amended): the one-byte packet with TOC 3 is rejected. -/
theorem opus_duration_rejects_iff_witness : opus_duration [3] 1 < 0 :=
  (opus_duration_rejects_iff [3] (by decide)).1.2 ⟨by decide, by decide⟩


namespace Demuxer

theorem posted_append (a b : List Effect) : posted (a ++ b) = posted a ++ posted b := by
  induction a with
  | nil => rfl
  | cons e es ih => cases e <;> simp [posted, ih]

theorem enqueued_append (a b : List Effect) : enqueued (a ++ b) = enqueued a ++ enqueued b := by
  induction a with
  | nil => rfl
  | cons e es ih =>
    cases e <;> simp [enqueued, ih]
    split <;> simp

theorem enqueued_sublist_posted (a : List Effect) : (enqueued a).Sublist (posted a) := by
  induction a with
  | nil => exact List.Sublist.slnil
  | cons e es ih =>
    cases e <;> simp [enqueued, posted, ih]
    split
    · exact List.Sublist.cons₂ _ ih
    · exact List.Sublist.cons _ ih

theorem enqueued_nil_of_posted_nil (a : List Effect) (h : posted a = []) : enqueued a = [] := by
  have hs := enqueued_sublist_posted a
  rw [h] at hs
  exact List.sublist_nil.mp hs

theorem repair_duration_fields (pkt q : AVPacket) (h : repair_duration pkt = some q) :
    q.pts = pkt.pts ∧ q.dts = pkt.dts ∧ q.data = pkt.data ∧ q.stream_index = pkt.stream_index := by
  unfold repair_duration at h
  split at h
  · split at h
    · split at h
      · exact absurd h (by simp)
      · cases h
        exact ⟨rfl, rfl, rfl, rfl⟩
    · cases h
      exact ⟨rfl, rfl, rfl, rfl⟩
  · cases h
    exact ⟨rfl, rfl, rfl, rfl⟩

theorem note_start_times_fields (st : ReadState) (it : ReadIter) :
    (note_start_times st it).1.prev_pts = st.prev_pts ∧
    (note_start_times st it).1.pts_correction = st.pts_correction ∧
    (note_start_times st it).1.next_expected_pts = st.next_expected_pts ∧
    (note_start_times st it).1.warning_count = st.warning_count ∧
    posted (note_start_times st it).2 = [] := by
  unfold note_start_times
  simp only
  split <;> split <;> simp [posted]

theorem posted_tick (b : Bool) : posted (if b then [Effect.post_tick] else []) = [] := by
  cases b <;> rfl

theorem next_correction_nonneg (st : ReadState) (pkt : AVPacket)
    (h : st.pts_correction = AV_NOPTS_VALUE) :
    0 ≤ next_correction st pkt ∧ 0 ≤ pkt.pts + next_correction st pkt := by
  unfold next_correction
  rw [if_pos h]
  split <;> omega

theorem next_correction_of_set (st : ReadState) (pkt : AVPacket)
    (h : st.pts_correction ≠ AV_NOPTS_VALUE) : next_correction st pkt = st.pts_correction := by
  unfold next_correction
  rw [if_neg h]

theorem next_correction_ne (st : ReadState) (pkt : AVPacket) :
    next_correction st pkt ≠ AV_NOPTS_VALUE := by
  by_cases h : st.pts_correction = AV_NOPTS_VALUE
  · have := (next_correction_nonneg st pkt h).1
    unfold AV_NOPTS_VALUE
    omega
  · rw [next_correction_of_set st pkt h]
    exact h

/-- What `correct_and_post` leaves behind: the locals, the packet handed to the
queue, and whether the loop goes on. -/
theorem correct_and_post_spec (mode : DemuxerThreadMode) (off : Int) (st : ReadState)
    (q : AVPacket) (post_ret : Int) (pre : List Effect) :
    (correct_and_post mode off st q post_ret pre).state =
        { st with pts_correction := next_correction st q,
                  next_expected_pts := q.pts + next_correction st q + off + q.duration } ∧
    posted (correct_and_post mode off st q post_ret pre).effects =
        posted pre ++ [shift_pts (next_correction st q) off q] ∧
    enqueued (correct_and_post mode off st q post_ret pre).effects =
        enqueued pre ++ (if post_ret = 0 then [shift_pts (next_correction st q) off q] else []) ∧
    ((correct_and_post mode off st q post_ret pre).exit = none ↔
        (0 ≤ post_ret ∨ post_ret = AVERROR_EAGAIN)) := by
  unfold correct_and_post
  simp only
  by_cases h1 : post_ret < 0
  · have h0 : post_ret ≠ 0 := by omega
    have h3 : ¬ 0 ≤ post_ret := by omega
    rw [if_pos h1, if_neg h0]
    by_cases h2 : post_ret = AVERROR_EAGAIN
    · rw [if_pos h2]
      simp [h2, h3, posted_append, enqueued_append, posted, enqueued, shift_pts]
      intro h
      exact absurd h (by decide)
    · rw [if_neg h2]
      simp [h2, h3, h0, posted_append, enqueued_append, posted, enqueued, shift_pts]
  · have h3 : 0 ≤ post_ret := by omega
    rw [if_neg h1]
    simp [h3, posted_append, enqueued_append, posted, enqueued, shift_pts]


/-- What one pass does to the order-check state and to the queue: either it
posts nothing, keeps `pts_correction` and leaves `prev_pts` alone or moves it
up to the pts of its packet; or its packet passed the order check and is
posted with the correction and the offset added. -/
theorem read_iteration_cases (mode : DemuxerThreadMode) (idx off : Int) (st : ReadState)
    (it : ReadIter) :
    (posted (read_iteration mode idx off st it).effects = [] ∧
      (read_iteration mode idx off st it).state.pts_correction = st.pts_correction ∧
      (read_iteration mode idx off st it).state.next_expected_pts = st.next_expected_pts ∧
      ((read_iteration mode idx off st it).state.prev_pts = st.prev_pts ∨
        ((st.prev_pts = AV_NOPTS_VALUE ∨ st.prev_pts ≤ it.pkt.pts) ∧
          (read_iteration mode idx off st it).state.prev_pts = it.pkt.pts))) ∨
    (∃ q, repair_duration it.pkt = some q ∧
      (st.prev_pts = AV_NOPTS_VALUE ∨ st.prev_pts ≤ it.pkt.pts) ∧
      (read_iteration mode idx off st it).state.prev_pts = it.pkt.pts ∧
      (read_iteration mode idx off st it).state.pts_correction = next_correction st it.pkt ∧
      (read_iteration mode idx off st it).state.next_expected_pts =
        it.pkt.pts + next_correction st it.pkt + off + q.duration ∧
      posted (read_iteration mode idx off st it).effects =
        [shift_pts (next_correction st it.pkt) off q] ∧
      enqueued (read_iteration mode idx off st it).effects =
        (if it.post_ret = 0 then [shift_pts (next_correction st it.pkt) off q] else [])) := by
  obtain ⟨hn1, hn2, hn3, hn4, hn5⟩ := note_start_times_fields st it
  unfold read_iteration
  simp only
  split
  · left; simp [posted_tick, posted]
  split
  · left; simp [posted_tick, posted]
  split
  · left
    split
    · simp [posted_tick]
    · split <;> simp [posted_tick, posted_append, posted]
  unfold filter_packet
  split
  · left; simp [posted_append, posted_tick, hn1, hn2, hn3, hn5]
  split
  · left; simp [posted_append, posted_tick, hn1, hn2, hn3, hn5]
  rename_i q hq
  obtain ⟨hq1, hq2, hq3, hq4⟩ := repair_duration_fields _ _ hq
  split
  · left; simp [posted_append, posted_tick, hn1, hn2, hn3, hn5]
  split
  · left
    split <;> simp [posted_append, posted_tick, posted, hn1, hn2, hn3, hn5]
  rename_i hord
  have hord2 : st.prev_pts = AV_NOPTS_VALUE ∨ st.prev_pts ≤ it.pkt.pts := by
    rw [hn1, hq1] at hord
    by_cases h : st.prev_pts = AV_NOPTS_VALUE
    · exact Or.inl h
    · right
      by_contra hc
      exact hord ⟨h, by omega⟩
  split
  · left
    split <;> simp [posted_append, posted_tick, posted, hn1, hn2, hn3, hn5, hq1, hord2]
  · right
    refine ⟨q, hq, hord2, ?_⟩
    obtain ⟨hs, hp, he, _⟩ := correct_and_post_spec mode off
      { (note_start_times st it).1 with prev_pts := q.pts } q it.post_ret
      ((if it.should_tick then [Effect.post_tick] else []) ++ (note_start_times st it).2)
    have hnc : next_correction { (note_start_times st it).1 with prev_pts := q.pts } q =
        next_correction st it.pkt := by
      unfold next_correction
      simp only [hn2, hq1]
    rw [hnc] at hs hp he
    rw [hs, hp, he]
    have hpre : posted ((if it.should_tick then [Effect.post_tick] else []) ++
        (note_start_times st it).2) = [] := by
      rw [posted_append, posted_tick, hn5]
      rfl
    have hpre2 := enqueued_nil_of_posted_nil _ hpre
    rw [hpre, hpre2]
    simp [hq1]


theorem read_loop_cons (mode : DemuxerThreadMode) (idx off : Int) (st : ReadState)
    (it : ReadIter) (rest : List ReadIter) :
    read_loop mode idx off st (it :: rest) =
      match (read_iteration mode idx off st it).exit with
      | some ret =>
        { state := (read_iteration mode idx off st it).state,
          effects := (read_iteration mode idx off st it).effects, exit := some ret }
      | none =>
        { state := (read_loop mode idx off (read_iteration mode idx off st it).state rest).state,
          effects := (read_iteration mode idx off st it).effects ++
            (read_loop mode idx off (read_iteration mode idx off st it).state rest).effects,
          exit := (read_loop mode idx off (read_iteration mode idx off st it).state rest).exit } := by
  rfl

/-- The packets posted by the loop are those of the first pass followed, when
the first pass did not leave the loop, by those of the remaining passes. -/
theorem posted_read_loop_cons (mode : DemuxerThreadMode) (idx off : Int) (st : ReadState)
    (it : ReadIter) (rest : List ReadIter) :
    posted (read_loop mode idx off st (it :: rest)).effects =
      posted (read_iteration mode idx off st it).effects ++
        (if (read_iteration mode idx off st it).exit = none then
          posted (read_loop mode idx off (read_iteration mode idx off st it).state rest).effects
        else []) := by
  rw [read_loop_cons]
  cases h : (read_iteration mode idx off st it).exit with
  | none => simp [posted_append]
  | some ret => simp

/-- Once `pts_correction` is set, every packet posted later has a pts of at
least `prev_pts + pts_correction + pts_offset`, and the posted pts never
decrease. -/
theorem posted_sorted_of_set (mode : DemuxerThreadMode) (idx off : Int) :
    ∀ (iters : List ReadIter) (st : ReadState),
      st.pts_correction ≠ AV_NOPTS_VALUE →
      (∀ it ∈ iters, AV_NOPTS_VALUE ≤ it.pkt.pts) →
      (∀ out ∈ posted (read_loop mode idx off st iters).effects,
        st.prev_pts + st.pts_correction + off ≤ out.pts) ∧
      (posted (read_loop mode idx off st iters).effects).Pairwise (fun a b => a.pts ≤ b.pts) := by
  intro iters
  induction iters with
  | nil =>
    intro st _ _
    simp [read_loop, posted]
  | cons it rest ih =>
    intro st hc hr
    have hit : AV_NOPTS_VALUE ≤ it.pkt.pts := hr it (List.mem_cons_self _ _)
    have hrest : ∀ x ∈ rest, AV_NOPTS_VALUE ≤ x.pkt.pts :=
      fun x hx => hr x (List.mem_cons_of_mem _ hx)
    rw [posted_read_loop_cons]
    rcases read_iteration_cases mode idx off st it with
      ⟨hp, hcorr, _, hprev⟩ | ⟨q, hq, hord, hprev, hcorr, _, hp, _⟩
    · rw [hp, List.nil_append]
      split
      · have hc2 : (read_iteration mode idx off st it).state.pts_correction ≠ AV_NOPTS_VALUE := by
          rw [hcorr]; exact hc
        obtain ⟨hb, hs⟩ := ih _ hc2 hrest
        refine ⟨?_, hs⟩
        intro out hout
        have := hb out hout
        rw [hcorr] at this
        rcases hprev with h | ⟨h1, h2⟩
        · rw [h] at this
          exact this
        · rw [h2] at this
          rcases h1 with h1 | h1
          · rw [h1]; omega
          · omega
      · simp
    · obtain ⟨hq1, _, _, _⟩ := repair_duration_fields _ _ hq
      have hnc := next_correction_of_set st it.pkt hc
      have hout : (shift_pts (next_correction st it.pkt) off q).pts =
          it.pkt.pts + st.pts_correction + off := by
        simp [shift_pts, hq1, hnc]
      have hge : st.prev_pts + st.pts_correction + off ≤ it.pkt.pts + st.pts_correction + off := by
        rcases hord with h | h
        · rw [h]; omega
        · omega
      rw [hp]
      split
      · have hc2 : (read_iteration mode idx off st it).state.pts_correction ≠ AV_NOPTS_VALUE := by
          rw [hcorr, hnc]; exact hc
        obtain ⟨hb, hs⟩ := ih _ hc2 hrest
        rw [hprev, hcorr, hnc] at hb
        constructor
        · intro out ho
          rcases List.mem_append.mp ho with h | h
          · rw [List.mem_singleton] at h
            rw [h, hout]
            exact hge
          · have := hb out h
            omega
        · rw [List.singleton_append, List.pairwise_cons]
          refine ⟨?_, hs⟩
          intro b hb2
          rw [hout]
          exact hb b hb2
      · simp only [List.append_nil]
        constructor
        · intro out ho
          rw [List.mem_singleton] at ho
          rw [ho, hout]
          exact hge
        · exact List.pairwise_singleton _ _

/-- The pts of the packets handed to the output queue never decrease, whatever
the locals are when the loop starts. -/
theorem posted_sorted (mode : DemuxerThreadMode) (idx off : Int) :
    ∀ (iters : List ReadIter) (st : ReadState),
      (∀ it ∈ iters, AV_NOPTS_VALUE ≤ it.pkt.pts) →
      (posted (read_loop mode idx off st iters).effects).Pairwise (fun a b => a.pts ≤ b.pts) := by
  intro iters
  induction iters with
  | nil =>
    intro st _
    simp [read_loop, posted]
  | cons it rest ih =>
    intro st hr
    by_cases hc : st.pts_correction = AV_NOPTS_VALUE
    · have hrest : ∀ x ∈ rest, AV_NOPTS_VALUE ≤ x.pkt.pts :=
        fun x hx => hr x (List.mem_cons_of_mem _ hx)
      rw [posted_read_loop_cons]
      rcases read_iteration_cases mode idx off st it with
        ⟨hp, _, _, _⟩ | ⟨q, hq, _, hprev, hcorr, _, hp, _⟩
      · rw [hp, List.nil_append]
        split
        · exact ih _ hrest
        · exact List.Pairwise.nil
      · obtain ⟨hq1, _, _, _⟩ := repair_duration_fields _ _ hq
        rw [hp]
        split
        · have hc2 : (read_iteration mode idx off st it).state.pts_correction ≠ AV_NOPTS_VALUE := by
            rw [hcorr]; exact next_correction_ne st it.pkt
          obtain ⟨hb, hs⟩ := posted_sorted_of_set mode idx off rest _ hc2 hrest
          rw [hprev, hcorr] at hb
          rw [List.singleton_append, List.pairwise_cons]
          refine ⟨?_, hs⟩
          intro b hb2
          have := hb b hb2
          simp only [shift_pts, hq1]
          exact this
        · simp
    · exact (posted_sorted_of_set mode idx off (it :: rest) st hc hr).2


/-- A plain pass is stopped by the order check alone: when the pts is lower
than `prev_pts` nothing is posted and the locals of the check stay; otherwise
the packet is enqueued in its forwarded form and `prev_pts` moves to its pts. -/
theorem read_iteration_plain (mode : DemuxerThreadMode) (idx off : Int) (st : ReadState)
    (it : ReadIter) (hg : plain_pass idx it) :
    (read_iteration mode idx off st it).exit = none ∧
    (if st.prev_pts ≠ AV_NOPTS_VALUE ∧ it.pkt.pts < st.prev_pts then
      enqueued (read_iteration mode idx off st it).effects = [] ∧
      (read_iteration mode idx off st it).state.prev_pts = st.prev_pts ∧
      (read_iteration mode idx off st it).state.pts_correction = st.pts_correction
    else
      enqueued (read_iteration mode idx off st it).effects =
        [forwarded_form (next_correction st it.pkt) off it.pkt] ∧
      (read_iteration mode idx off st it).state.prev_pts = it.pkt.pts ∧
      (read_iteration mode idx off st it).state.pts_correction = next_correction st it.pkt) := by
  obtain ⟨h1, h2, h3, h4, h5, h6, h7, h8, _⟩ := hg
  obtain ⟨hn1, hn2, hn3, hn4, hn5⟩ := note_start_times_fields st it
  have hpre : posted ((if it.should_tick then [Effect.post_tick] else []) ++
      (note_start_times st it).2) = [] := by
    rw [posted_append, posted_tick, hn5]
    rfl
  have hpre2 := enqueued_nil_of_posted_nil _ hpre
  obtain ⟨q, hq⟩ := Option.ne_none_iff_exists'.mp h7
  obtain ⟨hq1, hq2, hq3, hq4⟩ := repair_duration_fields _ _ hq
  have hff : ∀ c, forwarded_form c off it.pkt = shift_pts c off q := by
    intro c
    unfold forwarded_form
    rw [hq]
  have hidx : ¬ (q.stream_index ≠ idx) := by
    rw [hq4, h5]; simp
  have hdts : ¬ (q.pts ≠ q.dts) := by
    rw [hq1, hq2, h6]; simp
  have hret : ¬ it.ret < 0 := by omega
  unfold read_iteration
  simp only [h1, h2, hret, if_false, Bool.false_eq_true]
  unfold filter_packet
  rw [if_neg h4, hq]
  simp only [if_neg hidx, if_neg hdts]
  simp only [hn1, hq1]
  have hpre3 : enqueued (if it.should_tick then [Effect.post_tick] else []) = [] ∧
      enqueued (note_start_times st it).2 = [] := by
    simpa [enqueued_append] using hpre2
  by_cases hord : st.prev_pts ≠ AV_NOPTS_VALUE ∧ it.pkt.pts < st.prev_pts
  · rw [if_pos hord, if_pos hord]
    split <;> simp [hpre3, hn1, hn2, enqueued_append, enqueued]
  · rw [if_neg hord, if_neg hord]
    obtain ⟨hs, hp, he, hx⟩ := correct_and_post_spec mode off
      { (note_start_times st it).1 with prev_pts := it.pkt.pts } q it.post_ret
      ((if it.should_tick then [Effect.post_tick] else []) ++ (note_start_times st it).2)
    have hnc : next_correction { (note_start_times st it).1 with prev_pts := it.pkt.pts } q =
        next_correction st it.pkt := by
      unfold next_correction
      simp only [hn2, hq1]
    rw [hnc] at hs hp he
    refine ⟨hx.mpr (Or.inl (by omega)), ?_, ?_, ?_⟩
    · rw [he, hpre2, h8, hff]
      simp
    · rw [hs]
    · rw [hs]


theorem enqueued_read_loop_cons (mode : DemuxerThreadMode) (idx off : Int) (st : ReadState)
    (it : ReadIter) (rest : List ReadIter) :
    enqueued (read_loop mode idx off st (it :: rest)).effects =
      enqueued (read_iteration mode idx off st it).effects ++
        (if (read_iteration mode idx off st it).exit = none then
          enqueued (read_loop mode idx off (read_iteration mode idx off st it).state rest).effects
        else []) := by
  rw [read_loop_cons]
  cases h : (read_iteration mode idx off st it).exit with
  | none => simp [enqueued_append]
  | some ret => simp

theorem exit_read_loop_cons (mode : DemuxerThreadMode) (idx off : Int) (st : ReadState)
    (it : ReadIter) (rest : List ReadIter)
    (h : (read_iteration mode idx off st it).exit = none) :
    (read_loop mode idx off st (it :: rest)).exit =
      (read_loop mode idx off (read_iteration mode idx off st it).state rest).exit := by
  rw [read_loop_cons, h]

theorem readAndWritePacket_effects (mode : DemuxerThreadMode) (idx off : Int)
    (iters : List ReadIter) :
    (readAndWritePacket mode idx off iters).effects =
      (read_loop mode idx off ReadState.init iters).effects := by
  unfold readAndWritePacket
  simp only
  split
  · split <;> rfl
  · rfl

/-- Over plain passes the loop enqueues exactly the packets that the order
check of the specification keeps, in their forwarded form, and never leaves. -/
theorem read_loop_plain (mode : DemuxerThreadMode) (idx off : Int) :
    ∀ (iters : List ReadIter) (st : ReadState) (o : Option Int),
      (o = none → st.prev_pts = AV_NOPTS_VALUE ∧ st.pts_correction = AV_NOPTS_VALUE) →
      (∀ v, o = some v → st.prev_pts = v ∧ st.pts_correction ≠ AV_NOPTS_VALUE) →
      (∀ it ∈ iters, plain_pass idx it) →
      (read_loop mode idx off st iters).exit = none ∧
      enqueued (read_loop mode idx off st iters).effects =
        (order_check_keeps o (iters.map (fun it => it.pkt))).map
          (forwarded_form
            (if st.pts_correction = AV_NOPTS_VALUE then
              first_correction (iters.map (fun it => it.pkt))
             else st.pts_correction) off) := by
  intro iters
  induction iters with
  | nil =>
    intro st o _ _ _
    cases o <;> simp [read_loop, enqueued, order_check_keeps]
  | cons it rest ih =>
    intro st o hRn hRs hg
    have hit : plain_pass idx it := hg it (List.mem_cons_self _ _)
    have hrest : ∀ x ∈ rest, plain_pass idx x := fun x hx => hg x (List.mem_cons_of_mem _ hx)
    have hrange : AV_NOPTS_VALUE ≤ it.pkt.pts := hit.2.2.2.2.2.2.2.2
    obtain ⟨hx, hcase⟩ := read_iteration_plain mode idx off st it hit
    rw [exit_read_loop_cons _ _ _ _ _ _ hx, enqueued_read_loop_cons, if_pos hx]
    cases o with
    | none =>
      obtain ⟨hp, hc⟩ := hRn rfl
      have hno : ¬ (st.prev_pts ≠ AV_NOPTS_VALUE ∧ it.pkt.pts < st.prev_pts) := fun h => h.1 hp
      rw [if_neg hno] at hcase
      obtain ⟨he, hprev, hcorr⟩ := hcase
      have hne := next_correction_ne st it.pkt
      have hR2 : ∀ w, some it.pkt.pts = some w →
          (read_iteration mode idx off st it).state.prev_pts = w ∧
          (read_iteration mode idx off st it).state.pts_correction ≠ AV_NOPTS_VALUE := by
        intro w hw
        cases hw
        exact ⟨hprev, by rw [hcorr]; exact hne⟩
      obtain ⟨hx2, he2⟩ := ih _ (some it.pkt.pts) (fun h => absurd h (by simp)) hR2 hrest
      refine ⟨hx2, ?_⟩
      rw [he, he2, hcorr, if_neg hne, if_pos hc]
      have hfc : first_correction (List.map (fun it => it.pkt) (it :: rest)) =
          next_correction st it.pkt := by
        simp [first_correction, next_correction, hc]
      rw [hfc]
      simp [order_check_keeps]
    | some v =>
      obtain ⟨hp, hc⟩ := hRs v rfl
      rw [if_neg hc]
      by_cases hlt : it.pkt.pts < v
      · have hyes : st.prev_pts ≠ AV_NOPTS_VALUE ∧ it.pkt.pts < st.prev_pts := by
          rw [hp]
          exact ⟨by omega, hlt⟩
        rw [if_pos hyes] at hcase
        obtain ⟨he, hprev, hcorr⟩ := hcase
        have hR2 : ∀ w, some v = some w →
            (read_iteration mode idx off st it).state.prev_pts = w ∧
            (read_iteration mode idx off st it).state.pts_correction ≠ AV_NOPTS_VALUE := by
          intro w hw
          cases hw
          exact ⟨by rw [hprev, hp], by rw [hcorr]; exact hc⟩
        obtain ⟨hx2, he2⟩ := ih _ (some v) (fun h => absurd h (by simp)) hR2 hrest
        refine ⟨hx2, ?_⟩
        rw [he, he2, hcorr, if_neg hc]
        simp [order_check_keeps, hlt]
      · have hno : ¬ (st.prev_pts ≠ AV_NOPTS_VALUE ∧ it.pkt.pts < st.prev_pts) := by
          rw [hp]
          exact fun h => hlt h.2
        rw [if_neg hno] at hcase
        obtain ⟨he, hprev, hcorr⟩ := hcase
        have hnc := next_correction_of_set st it.pkt hc
        have hR2 : ∀ w, some it.pkt.pts = some w →
            (read_iteration mode idx off st it).state.prev_pts = w ∧
            (read_iteration mode idx off st it).state.pts_correction ≠ AV_NOPTS_VALUE := by
          intro w hw
          cases hw
          exact ⟨hprev, by rw [hcorr, hnc]; exact hc⟩
        obtain ⟨hx2, he2⟩ := ih _ (some it.pkt.pts) (fun h => absurd h (by simp)) hR2 hrest
        refine ⟨hx2, ?_⟩
        rw [he, he2, hcorr, hnc, if_neg hc]
        simp [order_check_keeps, hlt]


/-- Running the loop over `pre ++ xs` when it is still running after `pre`:
the loop continues over `xs` from the locals that `pre` left. -/
theorem read_loop_append (mode : DemuxerThreadMode) (idx off : Int) (xs : List ReadIter) :
    ∀ (pre : List ReadIter) (st : ReadState),
      (read_loop mode idx off st pre).exit = none →
      read_loop mode idx off st (pre ++ xs) =
        { state := (read_loop mode idx off (read_loop mode idx off st pre).state xs).state,
          effects := (read_loop mode idx off st pre).effects ++
            (read_loop mode idx off (read_loop mode idx off st pre).state xs).effects,
          exit := (read_loop mode idx off (read_loop mode idx off st pre).state xs).exit } := by
  intro pre
  induction pre with
  | nil =>
    intro st _
    simp [read_loop]
  | cons it rest ih =>
    intro st h
    rw [read_loop_cons] at h
    rw [List.cons_append, read_loop_cons, read_loop_cons]
    cases hx : (read_iteration mode idx off st it).exit with
    | some ret =>
      rw [hx] at h
      simp at h
    | none =>
      rw [hx] at h
      simp only at h
      simp only
      rw [ih _ h]
      simp

/-- Once set, `pts_correction` keeps its value. -/
theorem pts_correction_stays (mode : DemuxerThreadMode) (idx off : Int) :
    ∀ (iters : List ReadIter) (st : ReadState),
      st.pts_correction ≠ AV_NOPTS_VALUE →
      (read_loop mode idx off st iters).state.pts_correction = st.pts_correction := by
  intro iters
  induction iters with
  | nil =>
    intro st _
    rfl
  | cons it rest ih =>
    intro st hc
    have hstep : (read_iteration mode idx off st it).state.pts_correction = st.pts_correction := by
      rcases read_iteration_cases mode idx off st it with
        ⟨_, hcorr, _, _⟩ | ⟨q, _, _, _, hcorr, _, _, _⟩
      · exact hcorr
      · rw [hcorr, next_correction_of_set st it.pkt hc]
    rw [read_loop_cons]
    cases hx : (read_iteration mode idx off st it).exit with
    | some ret => exact hstep
    | none =>
      simp only
      rw [ih _ (by rw [hstep]; exact hc), hstep]

/-- While `pts_correction` is still unset at the end, nothing was posted. -/
theorem posted_nil_of_unset (mode : DemuxerThreadMode) (idx off : Int) :
    ∀ (iters : List ReadIter) (st : ReadState),
      (read_loop mode idx off st iters).state.pts_correction = AV_NOPTS_VALUE →
      posted (read_loop mode idx off st iters).effects = [] := by
  intro iters
  induction iters with
  | nil =>
    intro st _
    rfl
  | cons it rest ih =>
    intro st h
    rw [posted_read_loop_cons]
    rw [read_loop_cons] at h
    rcases read_iteration_cases mode idx off st it with
      ⟨hp, _, _, _⟩ | ⟨q, _, _, _, hcorr, _, _, _⟩
    · rw [hp, List.nil_append]
      cases hx : (read_iteration mode idx off st it).exit with
      | some ret => simp
      | none =>
        rw [hx] at h
        simp only at h
        simp only [if_true]
        exact ih _ h
    · exfalso
      have hne := next_correction_ne st it.pkt
      cases hx : (read_iteration mode idx off st it).exit with
      | some ret =>
        rw [hx] at h
        simp only at h
        rw [hcorr] at h
        exact hne h
      | none =>
        rw [hx] at h
        simp only at h
        rw [pts_correction_stays mode idx off rest _ (by rw [hcorr]; exact hne), hcorr] at h
        exact hne h

/-- Once `pts_correction` is set, every posted packet is one of the packets
read, with `pts_correction + pts_offset` added to its `pts` and `dts`. -/
theorem posted_shifted_of_set (mode : DemuxerThreadMode) (idx off : Int) :
    ∀ (iters : List ReadIter) (st : ReadState),
      st.pts_correction ≠ AV_NOPTS_VALUE →
      ∀ out ∈ posted (read_loop mode idx off st iters).effects,
        ∃ x ∈ iters, out.pts = x.pkt.pts + st.pts_correction + off ∧
          out.dts = x.pkt.dts + st.pts_correction + off ∧ out.data = x.pkt.data := by
  intro iters
  induction iters with
  | nil =>
    intro st _ out hout
    simp [read_loop, posted] at hout
  | cons it rest ih =>
    intro st hc out hout
    rw [posted_read_loop_cons] at hout
    have hnc := next_correction_of_set st it.pkt hc
    have hstep : (read_iteration mode idx off st it).state.pts_correction = st.pts_correction := by
      rcases read_iteration_cases mode idx off st it with
        ⟨_, hcorr, _, _⟩ | ⟨q, _, _, _, hcorr, _, _, _⟩
      · exact hcorr
      · rw [hcorr, hnc]
    rcases List.mem_append.mp hout with h | h
    · rcases read_iteration_cases mode idx off st it with
        ⟨hp, _, _, _⟩ | ⟨q, hq, _, _, _, _, hp, _⟩
      · rw [hp] at h
        simp at h
      · obtain ⟨hq1, hq2, hq3, _⟩ := repair_duration_fields _ _ hq
        rw [hp, List.mem_singleton] at h
        refine ⟨it, List.mem_cons_self _ _, ?_⟩
        rw [h, hnc]
        simp [shift_pts, hq1, hq2, hq3]
    · split at h
      · obtain ⟨x, hx, hprop⟩ := ih _ (by rw [hstep]; exact hc) out h
        rw [hstep] at hprop
        exact ⟨x, List.mem_cons_of_mem _ hx, hprop⟩
      · simp at h

end Demuxer

/-! ### demuxer.cc: order check, monotonic output, negative-PTS correction -/

/-- C8, counterexample.  A one-byte packet with TOC 3 (count code 3, no second
byte) and no duration is a non-empty audio-stream packet with `pts == dts`
whose pts is not lower than any earlier one (the order check of the
specification keeps it), yet it is not forwarded: the duration repair drops
it before the order check. -/
theorem order_check_not_the_only_drop :
    (({ data := some [3], pts := 100, dts := 100, duration := 0, stream_index := 0 } :
        AVPacket).size ≠ 0) ∧
    order_check_keeps none
      [{ data := some [3], pts := 100, dts := 100, duration := 0, stream_index := 0 }] =
      [{ data := some [3], pts := 100, dts := 100, duration := 0, stream_index := 0 }] ∧
    Demuxer.posted (Demuxer.readAndWritePacket DemuxerThreadMode.DEMUXER_MODE_RTP 0 0
      [read_of { data := some [3], pts := 100, dts := 100, duration := 0, stream_index := 0 }
        0]).effects = [] := by
  refine ⟨by decide, by decide, by decide⟩

/-- C8, amended.  For every sequence of non-empty audio-stream packets with
`pts == dts` that pass the duration repair, read with no shutdown or reset
pending and with every post accepted by the output queue, a packet is dropped
exactly when its pts is lower than the pts of the latest packet that passed
the order check, and every other packet is enqueued (in its forwarded form),
in arrival order. -/
theorem order_check_forwards (mode : DemuxerThreadMode) (stream_idx pts_offset : Int)
    (iters : List Demuxer.ReadIter) (h : ∀ it ∈ iters, plain_pass stream_idx it) :
    Demuxer.enqueued (Demuxer.readAndWritePacket mode stream_idx pts_offset iters).effects =
      (order_check_keeps none (iters.map (fun it => it.pkt))).map
        (forwarded_form (first_correction (iters.map (fun it => it.pkt))) pts_offset) := by
  rw [Demuxer.readAndWritePacket_effects]
  have hinit := Demuxer.read_loop_plain mode stream_idx pts_offset iters Demuxer.ReadState.init none
    (fun _ => ⟨rfl, rfl⟩) (fun v hv => absurd hv (by simp)) h
  rw [hinit.2]
  simp [Demuxer.ReadState.init]

/-- Witness of C8 (amended), scenario S3: for the input pts 100, 90, 110 only
the packets with pts 100 and 110 are forwarded. -/
theorem order_check_forwards_witness :
    (Demuxer.enqueued (Demuxer.readAndWritePacket DemuxerThreadMode.DEMUXER_MODE_RTP 0 0
      [read_of (opus_packet 100) 0, read_of (opus_packet 90) 0,
        read_of (opus_packet 110) 0]).effects).map (fun p => p.pts) = [100, 110] := by
  rw [order_check_forwards DemuxerThreadMode.DEMUXER_MODE_RTP 0 0
    [read_of (opus_packet 100) 0, read_of (opus_packet 90) 0, read_of (opus_packet 110) 0]
    (by decide)]
  decide

namespace Producer

theorem well_spaced_append (a b : List Effect) :
    ∀ p, well_spaced p (a ++ b) ↔ well_spaced p a ∧ well_spaced (pending_after p a) b := by
  induction a with
  | nil => intro p; simp [well_spaced, pending_after]
  | cons e es ih =>
    intro p
    cases e <;> simp [well_spaced, pending_after, ih, and_assoc]

theorem pending_after_append (a b : List Effect) :
    ∀ p, pending_after p (a ++ b) = pending_after (pending_after p a) b := by
  induction a with
  | nil => intro p; rfl
  | cons e es ih =>
    intro p
    cases e <;> simp [pending_after, ih]

/-- In a well-spaced trace that starts with a pending end `v`, the next written
packet starts at or after `v` unless the too-far-ahead warning comes first. -/
theorem well_spaced_next_write (b : AVPacket) (post : List Effect) :
    ∀ (mid : List Effect) (v : Int),
      well_spaced (some v) (mid ++ Effect.write_frame b :: post) →
      (∀ e ∈ mid, e.is_write = false) →
      v ≤ b.pts ∨ ∃ e ∈ mid, e.is_too_far_warning = true := by
  intro mid
  induction mid with
  | nil =>
    intro v h _
    left
    exact h.1 v rfl
  | cons e es ih =>
    intro v h hm
    have hes : ∀ x ∈ es, x.is_write = false := fun x hx => hm x (List.mem_cons_of_mem _ hx)
    have he := hm e (List.mem_cons_self _ _)
    cases e with
    | write_frame p => simp [Effect.is_write] at he
    | warn_too_far_ahead n m =>
      right
      exact ⟨_, List.mem_cons_self _ _, rfl⟩
    | log_reset a1 a2 a3 a4 =>
      rcases ih v h hes with h1 | ⟨x, hx, hw⟩
      · exact Or.inl h1
      · exact Or.inr ⟨x, List.mem_cons_of_mem _ hx, hw⟩
    | usleep a1 =>
      rcases ih v h hes with h1 | ⟨x, hx, hw⟩
      · exact Or.inl h1
      · exact Or.inr ⟨x, List.mem_cons_of_mem _ hx, hw⟩
    | warn_drop a1 a2 =>
      rcases ih v h hes with h1 | ⟨x, hx, hw⟩
      · exact Or.inl h1
      · exact Or.inr ⟨x, List.mem_cons_of_mem _ hx, hw⟩
    | log_write_failed a1 =>
      rcases ih v h hes with h1 | ⟨x, hx, hw⟩
      · exact Or.inl h1
      · exact Or.inr ⟨x, List.mem_cons_of_mem _ hx, hw⟩
    | write_trailer =>
      rcases ih v h hes with h1 | ⟨x, hx, hw⟩
      · exact Or.inl h1
      · exact Or.inr ⟨x, List.mem_cons_of_mem _ hx, hw⟩

/-- Two packets written one after the other in a well-spaced trace. -/
theorem well_spaced_consecutive (p : Option Int) (pre mid post : List Effect) (a b : AVPacket)
    (h : well_spaced p (pre ++ Effect.write_frame a :: mid ++ Effect.write_frame b :: post))
    (hm : ∀ e ∈ mid, e.is_write = false) :
    a.pts + a.duration ≤ b.pts ∨ ∃ e ∈ mid, e.is_too_far_warning = true := by
  rw [List.append_assoc, well_spaced_append] at h
  have h2 := h.2
  rw [List.cons_append] at h2
  exact well_spaced_next_write b post mid _ h2.2 hm


theorem av_rescale_ge (a b c : Int) (ha : 0 ≤ a) : AV_NOPTS_VALUE ≤ av_rescale a b c := by
  unfold av_rescale
  split
  · exact le_refl _
  · rename_i h
    push_neg at h
    have hc : 0 < c := h.1
    have hb : 0 ≤ b := h.2
    rw [if_neg (by omega)]
    have h1 : 0 ≤ a * b + Int.tdiv c 2 := by
      have := mul_nonneg ha hb
      have h2 : 0 ≤ Int.tdiv c 2 := Int.tdiv_nonneg (by omega) (by norm_num)
      omega
    have h3 : 0 ≤ Int.tdiv (a * b + Int.tdiv c 2) c := Int.tdiv_nonneg h1 (by omega)
    unfold AV_NOPTS_VALUE
    omega

theorem well_spaced_sleep (p : Option Int) (c : Prop) [Decidable c] (x : Int)
    (es : List Effect) :
    well_spaced p ((if c then [Effect.usleep x] else []) ++ es) ↔ well_spaced p es := by
  split <;> simp [well_spaced]

theorem pending_after_sleep (p : Option Int) (c : Prop) [Decidable c] (x : Int)
    (es : List Effect) :
    pending_after p ((if c then [Effect.usleep x] else []) ++ es) = pending_after p es := by
  split <;> simp [pending_after]

/-- The handling of one packet keeps the trace well spaced: a dropped packet
leaves the pending end alone, a written packet starts at or after it unless
the too-far-ahead warning was logged. -/
theorem handle_packet_spaced (ss : Int) (s : State) (pkt : AVPacket) (now : Int)
    (p : Option Int) (hInv : AV_NOPTS_VALUE ≤ s.rebase_pts)
    (hlink : ∀ v, p = some v → s.next_expected_pts = v) (hpkt : 0 ≤ pkt.pts) :
    AV_NOPTS_VALUE ≤ (handle_packet ss s pkt now).state.rebase_pts ∧
    ((handle_packet ss s pkt now).dropped = true →
      well_spaced p (handle_packet ss s pkt now).effects ∧
      ∀ v, pending_after p (handle_packet ss s pkt now).effects = some v →
        (handle_packet ss s pkt now).state.next_expected_pts = v) ∧
    ((handle_packet ss s pkt now).dropped = false →
      well_spaced p ((handle_packet ss s pkt now).effects ++
        [Effect.write_frame (handle_packet ss s pkt now).pkt]) ∧
      (handle_packet ss s pkt now).state.next_expected_pts =
        (handle_packet ss s pkt now).pkt.pts + (handle_packet ss s pkt now).pkt.duration) := by
  have hnp := av_rescale_ge OPUS_SAMPLE_RATE (now - ss) MICROSECONDS (by decide)
  have hMF : MAX_FUTURE = 4800 := by decide
  have hN : AV_NOPTS_VALUE = -9223372036854775808 := rfl
  unfold handle_packet
  simp only
  generalize av_rescale OPUS_SAMPLE_RATE (now - ss) MICROSECONDS = np at hnp
  by_cases hreb : s.rebase_pts = AV_NOPTS_VALUE ∨ pkt.pts ≤ s.last_pts
  · simp only [if_pos hreb, ne_eq, not_true_eq_false, false_and, if_false]
    have hal : AV_NOPTS_VALUE ≤ aligned_now_pts s.next_expected_pts np := by
      unfold aligned_now_pts
      split
      · split <;> omega
      · exact hnp
    refine ⟨hal, by simp, ?_⟩
    intro _
    refine ⟨?_, trivial⟩
    rw [List.append_assoc, well_spaced_append, well_spaced_sleep]
    unfold rebase_log aligned_now_pts
    by_cases h1 : s.next_expected_pts ≠ AV_NOPTS_VALUE ∧ s.next_expected_pts > np
    · by_cases h2 : s.next_expected_pts > np + MAX_FUTURE
      · rw [if_pos ⟨h1.1, h1.2, h2⟩]
        simp [well_spaced, pending_after]
      · rw [if_neg (fun h => h2 h.2.2), if_pos h1, if_neg h2]
        simp only [List.nil_append, well_spaced, pending_after, true_and, and_true]
        intro v hv
        rw [← hlink v hv]
        omega
    · rw [if_neg (fun h => h1 ⟨h.1, h.2.1⟩), if_neg h1]
      simp only [List.nil_append, well_spaced, pending_after, true_and, and_true]
      intro v hv
      rw [← hlink v hv]
      by_cases h3 : s.next_expected_pts = AV_NOPTS_VALUE
      · rw [h3]; omega
      · have : ¬ s.next_expected_pts > np := fun h => h1 ⟨h3, h⟩
        omega
  · simp only [if_neg hreb, List.nil_append]
    have hr1 : s.rebase_pts ≠ AV_NOPTS_VALUE := fun h => hreb (Or.inl h)
    by_cases hd : s.next_expected_pts ≠ AV_NOPTS_VALUE ∧ pkt.pts + s.rebase_pts < s.next_expected_pts
    · rw [if_pos hd]
      refine ⟨hInv, ?_, by simp⟩
      intro _
      rw [well_spaced_sleep, pending_after_sleep]
      simp only [well_spaced, pending_after, true_and]
      exact fun v hv => hlink v hv
    · rw [if_neg hd]
      refine ⟨hInv, by simp, ?_⟩
      intro _
      refine ⟨?_, rfl⟩
      rw [well_spaced_sleep]
      simp only [well_spaced, and_true]
      intro v hv
      rw [← hlink v hv]
      by_cases h3 : s.next_expected_pts = AV_NOPTS_VALUE
      · rw [h3]; omega
      · have : ¬ pkt.pts + s.rebase_pts < s.next_expected_pts := fun h => hd ⟨h3, h⟩
        omega


/-- One pass of the loop keeps the trace well spaced and keeps the pending end
equal to `next_expected_pts`. -/
theorem iteration_spaced (ss : Int) (s : State) (it : Iter) (p : Option Int)
    (hInv : AV_NOPTS_VALUE ≤ s.rebase_pts)
    (hlink : ∀ v, p = some v → s.next_expected_pts = v)
    (hpkt : ∀ pkt, it.msg = ThreadMessage.POST_PACKET pkt → 0 ≤ pkt.pts) :
    AV_NOPTS_VALUE ≤ (iteration ss s it).state.rebase_pts ∧
    well_spaced p (iteration ss s it).effects ∧
    ∀ v, pending_after p (iteration ss s it).effects = some v →
      (iteration ss s it).state.next_expected_pts = v := by
  unfold iteration
  split
  · split
    · exact ⟨hInv, by simp [well_spaced], by simpa [pending_after] using hlink⟩
    · exact ⟨hInv, by simp [well_spaced], by simpa [pending_after] using hlink⟩
  · split
    · rename_i pkt hmsg
      obtain ⟨h1, h2, h3⟩ := handle_packet_spaced ss s pkt it.now p hInv hlink (hpkt pkt hmsg)
      simp only
      cases hd : (handle_packet ss s pkt it.now).dropped with
      | true =>
        simp only [if_true]
        exact ⟨h1, (h2 hd).1, (h2 hd).2⟩
      | false =>
        obtain ⟨hw, hn⟩ := h3 hd
        simp only [Bool.false_eq_true, if_false]
        split
        · refine ⟨h1, ?_, ?_⟩
          · rw [well_spaced_append] at hw ⊢
            refine ⟨hw.1, ?_⟩
            have := hw.2
            simp only [well_spaced, and_true] at this ⊢
            exact this
          · intro v hv
            rw [pending_after_append] at hv
            simp only [pending_after, Option.some.injEq] at hv
            rw [hn, hv]
        · refine ⟨h1, hw, ?_⟩
          intro v hv
          rw [pending_after_append] at hv
          simp only [pending_after, Option.some.injEq] at hv
          rw [hn, hv]
    · exact ⟨hInv, by simp [well_spaced], by simpa [pending_after] using hlink⟩

/-- The whole trace of the loop is well spaced. -/
theorem ThreadMain_spaced (ss : Int) :
    ∀ (iters : List Iter) (s : State) (p : Option Int),
      AV_NOPTS_VALUE ≤ s.rebase_pts →
      (∀ v, p = some v → s.next_expected_pts = v) →
      (∀ it ∈ iters, ∀ pkt, it.msg = ThreadMessage.POST_PACKET pkt → 0 ≤ pkt.pts) →
      well_spaced p (ThreadMain ss s iters).effects := by
  intro iters
  induction iters with
  | nil =>
    intro s p _ _ _
    simp [ThreadMain, well_spaced]
  | cons it rest ih =>
    intro s p hInv hlink hpkt
    obtain ⟨h1, h2, h3⟩ := iteration_spaced ss s it p hInv hlink
      (hpkt it (List.mem_cons_self _ _))
    have hrest : ∀ x ∈ rest, ∀ pkt, x.msg = ThreadMessage.POST_PACKET pkt → 0 ≤ pkt.pts :=
      fun x hx => hpkt x (List.mem_cons_of_mem _ hx)
    unfold ThreadMain
    simp only
    split
    · exact h2
    · simp only
      rw [well_spaced_append]
      exact ⟨h2, ih _ _ h1 h3 hrest⟩

end Producer

/-! ### producer_thread.cc: spacing of the written packets, rebase -/

/-- C4, counterexample.  After the packets pts 0 and pts 960 (both at time 0)
the producer has `rebase_pts = 0` (initialised) and `last_pts = 960`.  A
packet whose pts is again 960, not lower than `last_pts`, read at 100 ms
(`now_pts = 4800`) triggers a rebase: `rebase_pts` becomes 4800 and the output
pts is `960 + 4800 = 5760`, not `960 + 0`. -/
theorem producer_rebases_on_equal_pts :
    (Producer.ThreadMain 0 Producer.State.init
      [Producer.packet_at (Producer.opus_frame 0 960) 0,
        Producer.packet_at (Producer.opus_frame 960 960) 0]).state =
      { rebase_pts := 0, last_pts := 960, next_expected_pts := 1920 } ∧
    (Producer.handle_packet 0 { rebase_pts := 0, last_pts := 960, next_expected_pts := 1920 }
      (Producer.opus_frame 960 960) 100000).state.rebase_pts = 4800 ∧
    (Producer.handle_packet 0 { rebase_pts := 0, last_pts := 960, next_expected_pts := 1920 }
      (Producer.opus_frame 960 960) 100000).pkt.pts = 5760 ∧
    (Producer.handle_packet 0 { rebase_pts := 0, last_pts := 960, next_expected_pts := 1920 }
      (Producer.opus_frame 960 960) 100000).effects =
      [Producer.Effect.log_reset 0 4800 960 960] := by
  refine ⟨by decide, by decide, by decide, by decide⟩

/-- C4, amended.  For every producer state in which `rebase_pts` is initialised
and every incoming packet whose pts is strictly greater than `last_pts`, the
producer performs no rebase: `rebase_pts` is unchanged, nothing of the rebase
block is logged, and the output pts and dts of the packet are its input pts
and dts plus `rebase_pts` exactly. -/
theorem no_rebase_when_pts_increases (stream_start : Int) (s : Producer.State)
    (pkt : AVPacket) (now : Int) (hinit : s.rebase_pts ≠ AV_NOPTS_VALUE)
    (hinc : s.last_pts < pkt.pts) :
    (Producer.handle_packet stream_start s pkt now).state.rebase_pts = s.rebase_pts ∧
    (Producer.handle_packet stream_start s pkt now).pkt.pts = pkt.pts + s.rebase_pts ∧
    (Producer.handle_packet stream_start s pkt now).pkt.dts = pkt.dts + s.rebase_pts ∧
    (Producer.handle_packet stream_start s pkt now).state.last_pts = pkt.pts ∧
    (∀ e ∈ (Producer.handle_packet stream_start s pkt now).effects,
      e.is_too_far_warning = false ∧ ∀ a b c d, e ≠ Producer.Effect.log_reset a b c d) := by
  have hreb : ¬ (s.rebase_pts = AV_NOPTS_VALUE ∨ pkt.pts ≤ s.last_pts) := by
    intro h
    rcases h with h | h
    · exact hinit h
    · omega
  unfold Producer.handle_packet
  simp only [if_neg hreb, List.nil_append]
  split
  · refine ⟨rfl, rfl, rfl, rfl, ?_⟩
    intro e he
    simp only [List.mem_append, List.mem_singleton] at he
    rcases he with he | he
    · split at he
      · rw [List.mem_singleton] at he
        rw [he]
        exact ⟨rfl, fun _ _ _ _ h => by cases h⟩
      · simp at he
    · rw [he]
      exact ⟨rfl, fun _ _ _ _ h => by cases h⟩
  · refine ⟨rfl, rfl, rfl, rfl, ?_⟩
    intro e he
    split at he
    · rw [List.mem_singleton] at he
      rw [he]
      exact ⟨rfl, fun _ _ _ _ h => by cases h⟩
    · simp at he

/-- Witness of C4 (amended): with `rebase_pts = 0` and `last_pts = 960`, the
packet pts 1920 read at 40 ms keeps `rebase_pts = 0` and leaves with pts
1920. -/
theorem no_rebase_when_pts_increases_witness :
    (Producer.handle_packet 0 { rebase_pts := 0, last_pts := 960, next_expected_pts := 1920 }
      (Producer.opus_frame 1920 960) 40000).state.rebase_pts = 0 ∧
    (Producer.handle_packet 0 { rebase_pts := 0, last_pts := 960, next_expected_pts := 1920 }
      (Producer.opus_frame 1920 960) 40000).pkt.pts = 1920 + 0 :=
  ⟨(no_rebase_when_pts_increases 0 { rebase_pts := 0, last_pts := 960, next_expected_pts := 1920 }
      (Producer.opus_frame 1920 960) 40000 (by decide) (by decide)).1,
    (no_rebase_when_pts_increases 0 { rebase_pts := 0, last_pts := 960, next_expected_pts := 1920 }
      (Producer.opus_frame 1920 960) 40000 (by decide) (by decide)).2.1⟩

/-- C5, counterexample.  In scenario S4 the first packet (input pts 48000, read
at t = 1 s, `now_pts = 48000`) is written with output pts
`48000 + 48000 = 96000`, not 48000, after a pacing sleep of 900000
microseconds, and leaves `next_expected_pts = 96960`, not 48960.  The second
packet (input pts 0, posted at t = 1.02 s) is read when the sleep is over: at
t = 1.9 s (`now_pts = 91200`) it is rebased onto the baseline clamped to
`91200 + 4800 = 96000` and written with pts 96000, equal to the first: the
output sequence is not strictly increasing. -/
theorem scenario_S4_fails :
    (Producer.ThreadMain 0 Producer.State.init
      [Producer.packet_at (Producer.opus_frame 48000 960) 1000000]).effects =
      [Producer.Effect.log_reset AV_NOPTS_VALUE 48000 48000 AV_NOPTS_VALUE,
        Producer.Effect.usleep 900000,
        Producer.Effect.write_frame (Producer.opus_frame 96000 960)] ∧
    (Producer.ThreadMain 0 Producer.State.init
      [Producer.packet_at (Producer.opus_frame 48000 960) 1000000]).state.next_expected_pts
      = 96960 ∧
    (Producer.written (Producer.ThreadMain 0 Producer.State.init
      [Producer.packet_at (Producer.opus_frame 48000 960) 1000000,
        Producer.packet_at (Producer.opus_frame 0 960) 1900000]).effects).map
        (fun p => p.pts) = [96000, 96000] ∧
    (Producer.ThreadMain 0 Producer.State.init
      [Producer.packet_at (Producer.opus_frame 48000 960) 1000000,
        Producer.packet_at (Producer.opus_frame 0 960) 1900000]).state.rebase_pts = 96000 ∧
    ¬ ((Producer.written (Producer.ThreadMain 0 Producer.State.init
      [Producer.packet_at (Producer.opus_frame 48000 960) 1000000,
        Producer.packet_at (Producer.opus_frame 0 960) 1900000]).effects).map
        (fun p => p.pts)).Pairwise (fun x y => x < y) := by
  refine ⟨by decide, by decide, by decide, by decide, by decide⟩

/-- C5, amended.  Scenario S4 as the code runs it.  The first packet (input pts
48000, duration 960, read at t = 1 s, `now_pts = 48000`) sets
`rebase_pts = 48000`, is paced by a sleep of 900000 microseconds and is
written with output pts 96000.  The second packet (input pts 0) is read at a
time `t2` (in microseconds) at which that sleep is over, `t2 >= 1900000`.  It
triggers a rebase: with `now_pts` the clock at `t2` in pts units, the new
baseline is `next_expected_pts = 96960`, clamped to `now_pts + 4800` (with
the warning) when that is lower, or `now_pts` once the clock has passed
96960; the packet is written with that baseline as its pts, without another
sleep.  The output pts is at least 96000; it is above 96000 exactly when `t2`
is more than 10 microseconds after the end of the sleep, and it is 96960 when
`t2` is between 1.92 s and 2.02 s. -/
theorem scenario_S4_trace (t2 : Int) (ht : 1900000 ≤ t2) :
    (Producer.ThreadMain 0 Producer.State.init
      [Producer.packet_at (Producer.opus_frame 48000 960) 1000000,
        Producer.packet_at (Producer.opus_frame 0 960) t2]).effects =
      [Producer.Effect.log_reset AV_NOPTS_VALUE 48000 48000 AV_NOPTS_VALUE,
        Producer.Effect.usleep 900000,
        Producer.Effect.write_frame (Producer.opus_frame 96000 960)] ++
      Producer.rebase_log { rebase_pts := 48000, last_pts := 48000, next_expected_pts := 96960 }
        (Producer.opus_frame 0 960) (av_rescale OPUS_SAMPLE_RATE t2 MICROSECONDS) ++
      [Producer.Effect.write_frame (Producer.opus_frame
        (Producer.aligned_now_pts 96960 (av_rescale OPUS_SAMPLE_RATE t2 MICROSECONDS)) 960)] ∧
    (Producer.written (Producer.ThreadMain 0 Producer.State.init
      [Producer.packet_at (Producer.opus_frame 48000 960) 1000000,
        Producer.packet_at (Producer.opus_frame 0 960) t2]).effects).map (fun p => p.pts) =
      [96000, Producer.aligned_now_pts 96960 (av_rescale OPUS_SAMPLE_RATE t2 MICROSECONDS)] ∧
    96000 ≤ Producer.aligned_now_pts 96960 (av_rescale OPUS_SAMPLE_RATE t2 MICROSECONDS) ∧
    (96000 < Producer.aligned_now_pts 96960 (av_rescale OPUS_SAMPLE_RATE t2 MICROSECONDS) ↔
      1900010 < t2) ∧
    (1920000 ≤ t2 → t2 ≤ 2020000 →
      Producer.aligned_now_pts 96960 (av_rescale OPUS_SAMPLE_RATE t2 MICROSECONDS) = 96960) := by
  have hc : ¬ ((1000000 : Int) ≤ 0 ∨ t2 < 0) := by omega
  have hhalf : Int.tdiv 1000000 2 = 500000 := by decide
  have hn2 : av_rescale OPUS_SAMPLE_RATE t2 MICROSECONDS = (48000 * t2 + 500000) / 1000000 := by
    simp only [av_rescale, OPUS_SAMPLE_RATE, MICROSECONDS, if_neg hc,
      show ¬ ((48000 : Int) < 0) by decide, if_false, hhalf]
    exact Int.tdiv_eq_ediv (by omega) (by omega)
  have hmf : MAX_FUTURE = 4800 := by decide
  have h1 : Producer.iteration 0 Producer.State.init
      (Producer.packet_at (Producer.opus_frame 48000 960) 1000000) =
      { state := { rebase_pts := 48000, last_pts := 48000, next_expected_pts := 96960 },
        effects := [Producer.Effect.log_reset AV_NOPTS_VALUE 48000 48000 AV_NOPTS_VALUE,
          Producer.Effect.usleep 900000,
          Producer.Effect.write_frame (Producer.opus_frame 96000 960)],
        exit := none } := by decide
  have h2 : Producer.iteration 0
      { rebase_pts := 48000, last_pts := 48000, next_expected_pts := 96960 }
      (Producer.packet_at (Producer.opus_frame 0 960) t2) =
      { state := { rebase_pts := Producer.aligned_now_pts 96960
                     (av_rescale OPUS_SAMPLE_RATE t2 MICROSECONDS),
                   last_pts := 0,
                   next_expected_pts := Producer.aligned_now_pts 96960
                     (av_rescale OPUS_SAMPLE_RATE t2 MICROSECONDS) + 960 },
        effects := Producer.rebase_log
            { rebase_pts := 48000, last_pts := 48000, next_expected_pts := 96960 }
            (Producer.opus_frame 0 960) (av_rescale OPUS_SAMPLE_RATE t2 MICROSECONDS) ++
          [Producer.Effect.write_frame (Producer.opus_frame
            (Producer.aligned_now_pts 96960 (av_rescale OPUS_SAMPLE_RATE t2 MICROSECONDS))
            960)],
        exit := none } := by
    simp [Producer.iteration, Producer.packet_at, Producer.handle_packet, Producer.opus_frame,
      hmf]
  have heff : (Producer.ThreadMain 0 Producer.State.init
      [Producer.packet_at (Producer.opus_frame 48000 960) 1000000,
        Producer.packet_at (Producer.opus_frame 0 960) t2]).effects =
      [Producer.Effect.log_reset AV_NOPTS_VALUE 48000 48000 AV_NOPTS_VALUE,
        Producer.Effect.usleep 900000,
        Producer.Effect.write_frame (Producer.opus_frame 96000 960)] ++
      Producer.rebase_log { rebase_pts := 48000, last_pts := 48000, next_expected_pts := 96960 }
        (Producer.opus_frame 0 960) (av_rescale OPUS_SAMPLE_RATE t2 MICROSECONDS) ++
      [Producer.Effect.write_frame (Producer.opus_frame
        (Producer.aligned_now_pts 96960 (av_rescale OPUS_SAMPLE_RATE t2 MICROSECONDS)) 960)] := by
    simp only [Producer.ThreadMain, h1, h2, List.append_nil, List.append_assoc]
  have hal : Producer.aligned_now_pts 96960 (av_rescale OPUS_SAMPLE_RATE t2 MICROSECONDS) =
      (if (48000 * t2 + 500000) / 1000000 < 96960 then
        (if (48000 * t2 + 500000) / 1000000 + 4800 < 96960 then
          (48000 * t2 + 500000) / 1000000 + 4800 else 96960)
       else (48000 * t2 + 500000) / 1000000) := by
    rw [hn2]
    unfold Producer.aligned_now_pts
    rw [hmf]
    have hne : (96960 : Int) ≠ AV_NOPTS_VALUE := by decide
    split_ifs <;> omega
  refine ⟨heff, ?_, ?_, ?_, ?_⟩
  · rw [heff]
    simp [Producer.written, Producer.rebase_log, Producer.opus_frame]
    split_ifs <;> simp [Producer.written]
  · rw [hal]
    split_ifs <;> omega
  · rw [hal]
    split_ifs <;> omega
  · intro ha hb
    rw [hal]
    split_ifs <;> omega

/-- Witness of C5 (amended): the second packet read at t = 1.92 s
(`now_pts = 92160`) is written with pts 96960. -/
theorem scenario_S4_trace_witness :
    (Producer.written (Producer.ThreadMain 0 Producer.State.init
      [Producer.packet_at (Producer.opus_frame 48000 960) 1000000,
        Producer.packet_at (Producer.opus_frame 0 960) 1920000]).effects).map (fun p => p.pts) =
      [96000, Producer.aligned_now_pts 96960 (av_rescale OPUS_SAMPLE_RATE 1920000 MICROSECONDS)] ∧
    Producer.aligned_now_pts 96960 (av_rescale OPUS_SAMPLE_RATE 1920000 MICROSECONDS) = 96960 :=
  ⟨(scenario_S4_trace 1920000 (by decide)).2.1,
   (scenario_S4_trace 1920000 (by decide)).2.2.2.2 (by decide) (by decide)⟩


namespace Decoder

theorem toInt32_of_range (x : Int) (h0 : 0 ≤ x) (h1 : x < 2147483648) : toInt32 x = x := by
  unfold toInt32
  omega

/-- One pass of the recovery loop, written out. -/
theorem plc_loop_succ (p : Params) (codec : OpusCodec) (pkt : AVPacket)
    (expected_pts last_frame_size missing : Int) (n : Nat) (i : Int) (calls : Nat) :
    (plc_loop p codec pkt expected_pts last_frame_size missing (n + 1) i calls).1 =
      (if codec calls (recovery_call pkt last_frame_size missing i) < 0 then
          [Effect.opus_decode (recovery_call pkt last_frame_size missing i)
            (codec calls (recovery_call pkt last_frame_size missing i)),
           Effect.log_plc_error (codec calls (recovery_call pkt last_frame_size missing i))]
        else
          Effect.opus_decode (recovery_call pkt last_frame_size missing i)
            (codec calls (recovery_call pkt last_frame_size missing i)) ::
          send_frame p (codec calls (recovery_call pkt last_frame_size missing i))
            (expected_pts + recovered_offset i last_frame_size p.pts_scale)) ++
      (plc_loop p codec pkt expected_pts last_frame_size missing n (i + 1) (calls + 1)).1 := by
  simp only [plc_loop]
  split <;> simp

/-- The product of line 171 is the exact one when the operands are not
negative and the exact product is below `2^31`. -/
theorem recovered_offset_exact (i lfs scale : Int) (hi : 0 ≤ i) (hlfs : 0 < lfs)
    (hscale : 0 < scale) (h : i * lfs * scale < 2147483648) :
    recovered_offset i lfs scale = i * lfs * scale := by
  have h0 : 0 ≤ i * lfs := mul_nonneg hi (le_of_lt hlfs)
  have h1 : i * lfs ≤ i * lfs * scale := le_mul_of_one_le_right h0 (by omega)
  unfold recovered_offset
  rw [toInt32_of_range (i * lfs) h0 (by omega),
    toInt32_of_range (i * lfs * scale) (by omega) h]

/-- The recovery loop makes, for each index from `i0` on, the decode and the
emission that the specification lists, when the products of line 171 are the
exact ones. -/
theorem plc_loop_eq (p : Params) (codec : OpusCodec) (s : State) (pkt : AVPacket) (m : Nat)
    (hexact : ∀ i : Nat, i < m →
      recovered_offset (i : Int) s.last_frame_size p.pts_scale =
        (i : Int) * s.last_frame_size * p.pts_scale) :
    ∀ (n i0 : Nat), i0 + n = m →
      (plc_loop p codec pkt s.expected_pts s.last_frame_size (m : Int) n (i0 : Int)
        (s.calls + i0)).1 =
        (List.range' i0 n).flatMap (recovery_of_frame p codec s pkt (m : Int)) := by
  intro n
  induction n with
  | zero =>
    intro i0 _
    rfl
  | succ n ih =>
    intro i0 h
    have hih := ih (i0 + 1) (by omega)
    have hcast : ((i0 + 1 : Nat) : Int) = (i0 : Int) + 1 := by push_cast; rfl
    rw [hcast, ← Nat.add_assoc] at hih
    rw [List.range'_succ, List.flatMap_cons, ← hih, plc_loop_succ, hexact i0 (by omega)]
    congr 1
    have hcall : recovery_call pkt s.last_frame_size (m : Int) (i0 : Int) =
        (if (i0 : Int) < (m : Int) - 1 then
          { data := none, len := 0, frame_size := s.last_frame_size, decode_fec := 0 }
        else { data := pkt.data, len := pkt.size, frame_size := s.last_frame_size,
               decode_fec := 1 }) := by
      unfold recovery_call
      by_cases hlast : (i0 : Int) = (m : Int) - 1
      · have hnlt : ¬ ((i0 : Int) < (m : Int) - 1) := by omega
        rw [if_pos hlast, if_neg hnlt]
      · have hlt : (i0 : Int) < (m : Int) - 1 := by omega
        rw [if_neg hlast, if_pos hlt]
    unfold recovery_of_frame
    simp only
    rw [hcall]

/-- What the gap branch does (lines 136-177) when the gap is below `2^31`, so
that the quotient fits an `int`: the recovery actions of the frames `0` to
`missing - 1`, in order. -/
theorem conceal_eq (p : Params) (codec : OpusCodec) (s : State) (pkt : AVPacket)
    (hlfs : 0 < s.last_frame_size) (hscale : 0 < p.pts_scale)
    (hknown : s.expected_pts ≠ AV_NOPTS_VALUE) (hgap : pkt.pts > s.expected_pts)
    (hsmall : pkt.pts - s.expected_pts < 2147483648) :
    missing_frames p s pkt.pts =
      (pkt.pts - s.expected_pts) / (s.last_frame_size * p.pts_scale) ∧
    (conceal p codec s pkt).2 =
      (List.range ((pkt.pts - s.expected_pts) / (s.last_frame_size * p.pts_scale)).toNat).flatMap
        (recovery_of_frame p codec s pkt
          ((pkt.pts - s.expected_pts) / (s.last_frame_size * p.pts_scale))) := by
  have hppf : 0 < s.last_frame_size * p.pts_scale := mul_pos hlfs hscale
  have hq0 : 0 ≤ (pkt.pts - s.expected_pts) / (s.last_frame_size * p.pts_scale) :=
    Int.ediv_nonneg (by omega) (le_of_lt hppf)
  have hfit : (pkt.pts - s.expected_pts) / (s.last_frame_size * p.pts_scale) < 2147483648 :=
    lt_of_le_of_lt (Int.ediv_le_self _ (by omega)) hsmall
  have hm : missing_frames p s pkt.pts =
      (pkt.pts - s.expected_pts) / (s.last_frame_size * p.pts_scale) := by
    unfold missing_frames
    rw [Int.tdiv_eq_ediv (by omega) (le_of_lt hppf)]
    exact toInt32_of_range _ hq0 hfit
  have hmul : (pkt.pts - s.expected_pts) / (s.last_frame_size * p.pts_scale) *
      (s.last_frame_size * p.pts_scale) < 2147483648 :=
    lt_of_le_of_lt (Int.ediv_mul_le _ (ne_of_gt hppf)) hsmall
  refine ⟨hm, ?_⟩
  unfold conceal
  rw [if_pos ⟨hknown, hgap⟩, hm]
  generalize (pkt.pts - s.expected_pts) / (s.last_frame_size * p.pts_scale) = q
    at hq0 hfit hmul
  by_cases hpos : q > 0
  · rw [if_pos hpos]
    simp only
    have hcast : ((q.toNat : Nat) : Int) = q := Int.toNat_of_nonneg hq0
    have hexact : ∀ i : Nat, i < q.toNat →
        recovered_offset (i : Int) s.last_frame_size p.pts_scale =
          (i : Int) * s.last_frame_size * p.pts_scale := by
      intro i hi
      apply recovered_offset_exact _ _ _ (by positivity) hlfs hscale
      have hiq : (i : Int) ≤ q := by omega
      have := Int.mul_le_mul_of_nonneg_right hiq (le_of_lt hppf)
      rw [mul_assoc]
      omega
    have := plc_loop_eq p codec s pkt q.toNat hexact q.toNat 0 (by omega)
    rw [hcast] at this
    simp only [Nat.cast_zero, Nat.add_zero] at this
    rw [this, List.range_eq_range']
  · rw [if_neg hpos]
    have hz : q = 0 := by omega
    rw [hz]
    rfl

end Decoder

/-! ### audio_decode_thread.cc: packet loss concealment -/

/-- C2, counterexample.  In scenario S2 the first packet (pts 960, 480 samples
at `pts_scale = 2`) leaves `expected_pts = 1920`, so for the second packet
(pts 3840) the gap is 1920 and `missing_frames = 2`, not 3; the decoder emits
four buffers, with pts 960, 1920, 2880, 3840, not five. -/
theorem scenario_S2_four_buffers :
    (Decoder.ThreadMain Decoder.params_24k Decoder.codec_480
      (Decoder.State.init Decoder.params_24k)
      [Decoder.receive ThreadMessage.POST_CODEC_PARAMETERS,
        Decoder.receive (ThreadMessage.POST_PACKET (Decoder.rtp_packet 960))]).state.expected_pts
      = 1920 ∧
    Decoder.missing_frames Decoder.params_24k
      (Decoder.ThreadMain Decoder.params_24k Decoder.codec_480
        (Decoder.State.init Decoder.params_24k)
        [Decoder.receive ThreadMessage.POST_CODEC_PARAMETERS,
          Decoder.receive (ThreadMessage.POST_PACKET (Decoder.rtp_packet 960))]).state 3840 = 2 ∧
    (Decoder.emitted (Decoder.ThreadMain Decoder.params_24k Decoder.codec_480
      (Decoder.State.init Decoder.params_24k)
      [Decoder.receive ThreadMessage.POST_CODEC_PARAMETERS,
        Decoder.receive (ThreadMessage.POST_PACKET (Decoder.rtp_packet 960)),
        Decoder.receive (ThreadMessage.POST_PACKET (Decoder.rtp_packet 3840))]).effects).map
        (fun b => b.pts) = [960, 1920, 2880, 3840] := by
  refine ⟨by decide, by decide, by decide⟩

/-- C2, amended.  Scenario S2 as the code runs it: decoding at 24 kHz
(`pts_scale = 2`, every decode call returning 480 samples), the packet with
pts 960 is decoded and emitted with pts 960; for the packet with pts 3840 the
decoder computes `missing_frames = 2` and makes a PLC decode (no input data)
emitted with pts 1920, a FEC decode on the bytes of the packet emitted with
pts 2880, and the normal decode emitted with pts 3840: four buffers, each of
`480 * 2 = 960` bytes, the recovery decodes requesting `last_frame_size = 480`
samples. -/
theorem scenario_S2_trace :
    (Decoder.ThreadMain Decoder.params_24k Decoder.codec_480
      (Decoder.State.init Decoder.params_24k)
      [Decoder.receive ThreadMessage.POST_CODEC_PARAMETERS,
        Decoder.receive (ThreadMessage.POST_PACKET (Decoder.rtp_packet 960)),
        Decoder.receive (ThreadMessage.POST_PACKET (Decoder.rtp_packet 3840))]).effects =
      [Decoder.Effect.opus_decode
          { data := some [0xF8], len := 1, frame_size := 5760, decode_fec := 0 } 480,
        Decoder.Effect.send_callback { len := 960, pts := 960 },
        Decoder.Effect.opus_decode
          { data := none, len := 0, frame_size := 480, decode_fec := 0 } 480,
        Decoder.Effect.send_callback { len := 960, pts := 1920 },
        Decoder.Effect.opus_decode
          { data := some [0xF8], len := 1, frame_size := 480, decode_fec := 1 } 480,
        Decoder.Effect.send_callback { len := 960, pts := 2880 },
        Decoder.Effect.opus_decode
          { data := some [0xF8], len := 1, frame_size := 5760, decode_fec := 0 } 480,
        Decoder.Effect.send_callback { len := 960, pts := 3840 }] := by
  decide

/-- C3, counterexample.  With `expected_pts = 960`, `last_frame_size = 480` and
`pts_scale = 2`, a packet whose pts is `960 + 2^31 * 960` has
`(P - expected_pts) / (last_frame_size * pts_scale) = 2^31`; converted to
`int` this is `-2^31`, the test `missing_frames > 0` fails and the decoder
makes no recovery decode at all. -/
theorem gap_quotient_overflows_int :
    (2061584303040 - 960 : Int) / (480 * Decoder.params_24k.pts_scale) = 2147483648 ∧
    Decoder.missing_frames Decoder.params_24k
      { opus_decoder := true, expected_pts := 960, total_samples_decoded := 480,
        total_packets_decoded := 1, total_missing_frames := 0, last_frame_size := 480,
        start_time_realtime := AV_NOPTS_VALUE, start_time_localtime := 0, calls := 1 }
      2061584303040 = -2147483648 ∧
    Decoder.conceal Decoder.params_24k Decoder.codec_480
      { opus_decoder := true, expected_pts := 960, total_samples_decoded := 480,
        total_packets_decoded := 1, total_missing_frames := 0, last_frame_size := 480,
        start_time_realtime := AV_NOPTS_VALUE, start_time_localtime := 0, calls := 1 }
      (Decoder.rtp_packet 2061584303040) =
      ({ opus_decoder := true, expected_pts := 960, total_samples_decoded := 480,
         total_packets_decoded := 1, total_missing_frames := 0, last_frame_size := 480,
         start_time_realtime := AV_NOPTS_VALUE, start_time_localtime := 0, calls := 1 }, []) := by
  refine ⟨by decide, by decide, by decide⟩

/-- C3, amended.  With `last_frame_size > 0` and `pts_scale > 0`: for every
packet with pts `P` arriving when `expected_pts` is known and
`P > expected_pts`, if the gap `P - expected_pts` is below `2^31` (the
quotient and the products `i * last_frame_size * pts_scale` are `int`
values) then `missing_frames` is
`(P - expected_pts) / (last_frame_size * pts_scale)` and the actions of the
gap branch are, for each `i` from 0 to `missing - 1` in order, one recovery
decode requesting `last_frame_size` samples (PLC with no input data for
`i < missing - 1`, FEC on the bytes of the current packet for
`i = missing - 1`) followed, when the decode returned a frame and the thread
has a callback, by its emission with
`pts = expected_pts + i * last_frame_size * pts_scale`; when
`P <= expected_pts` or `expected_pts` is unknown the gap branch does nothing.
The actions of the packet are those of the gap branch followed by those of the
normal decode. -/
theorem gap_recovery (p : Decoder.Params) (codec : Decoder.OpusCodec) (s : Decoder.State)
    (pkt : AVPacket) (hlfs : 0 < s.last_frame_size) (hscale : 0 < p.pts_scale) :
    (s.expected_pts ≠ AV_NOPTS_VALUE → pkt.pts > s.expected_pts →
      pkt.pts - s.expected_pts < 2147483648 →
      Decoder.missing_frames p s pkt.pts =
        (pkt.pts - s.expected_pts) / (s.last_frame_size * p.pts_scale) ∧
      (Decoder.conceal p codec s pkt).2 =
        (List.range
          ((pkt.pts - s.expected_pts) / (s.last_frame_size * p.pts_scale)).toNat).flatMap
          (Decoder.recovery_of_frame p codec s pkt
            ((pkt.pts - s.expected_pts) / (s.last_frame_size * p.pts_scale)))) ∧
    ((s.expected_pts = AV_NOPTS_VALUE ∨ pkt.pts ≤ s.expected_pts) →
      Decoder.conceal p codec s pkt = (s, [])) ∧
    (s.opus_decoder = true →
      (Decoder.handle_packet p codec s pkt).2 =
        (Decoder.conceal p codec s pkt).2 ++
          (Decoder.decode_actual p codec (Decoder.conceal p codec s pkt).1 pkt).2) := by
  refine ⟨?_, ?_, ?_⟩
  · intro hknown hgap hsmall
    exact Decoder.conceal_eq p codec s pkt hlfs hscale hknown hgap hsmall
  · intro h
    unfold Decoder.conceal
    have hn : ¬ (s.expected_pts ≠ AV_NOPTS_VALUE ∧ pkt.pts > s.expected_pts) := by
      rcases h with h | h
      · exact fun hc => hc.1 h
      · exact fun hc => by omega
    rw [if_neg hn]
  · intro hdec
    unfold Decoder.handle_packet
    simp [hdec]

/-- Witness of C3 (amended): in the state scenario S2 reaches after its first
packet (`expected_pts = 1920`, `last_frame_size = 480`, `pts_scale = 2`), the
packet with pts 3840 gives `missing_frames = (3840 - 1920) / (480 * 2)`. -/
theorem gap_recovery_witness :
    Decoder.missing_frames Decoder.params_24k
      { opus_decoder := true, expected_pts := 1920, total_samples_decoded := 480,
        total_packets_decoded := 1, total_missing_frames := 0, last_frame_size := 480,
        start_time_realtime := AV_NOPTS_VALUE, start_time_localtime := 0, calls := 1 }
      (Decoder.rtp_packet 3840).pts =
      ((Decoder.rtp_packet 3840).pts - 1920) / (480 * Decoder.params_24k.pts_scale) :=
  ((gap_recovery Decoder.params_24k Decoder.codec_480
      { opus_decoder := true, expected_pts := 1920, total_samples_decoded := 480,
        total_packets_decoded := 1, total_missing_frames := 0, last_frame_size := 480,
        start_time_realtime := AV_NOPTS_VALUE, start_time_localtime := 0, calls := 1 }
      (Decoder.rtp_packet 3840) (by decide) (by decide)).1
    (by decide) (by decide) (by decide)).1

/-! ### producer_thread.cc: pacing -/

/-- C17, the code at the failing input.  A producer started at time 0 receives
the packet pts 6000 at time 0 (written with pts 6000 after a sleep of 25000
microseconds, leaving `rebase_pts = 0`, `last_pts = 6000`,
`next_expected_pts = 6960`) and then the packet pts 1000 at 25000
microseconds, where `now_pts(t) = 1200`.  The second packet rebases; the
rebase block overwrites the variable `now_pts` with the clamped baseline 6000,
so `future = 7000 - 6000 = 1000` and no sleep is requested, although the
packet leaves with `P_out = 7000`, which is `5800 > MAX_FUTURE` ahead of
`now_pts(t)`. -/
theorem pacing_after_rebase_ignores_clock :
    (Producer.ThreadMain 0 Producer.State.init
      [Producer.packet_at (Producer.opus_frame 6000 960) 0]).state =
      { rebase_pts := 0, last_pts := 6000, next_expected_pts := 6960 } ∧
    av_rescale OPUS_SAMPLE_RATE (25000 - 0) MICROSECONDS = 1200 ∧
    (Producer.handle_packet 0 { rebase_pts := 0, last_pts := 6000, next_expected_pts := 6960 }
      (Producer.opus_frame 1000 960) 25000).pkt.pts = 7000 ∧
    (7000 : Int) - 1200 > MAX_FUTURE ∧
    (Producer.handle_packet 0 { rebase_pts := 0, last_pts := 6000, next_expected_pts := 6960 }
      (Producer.opus_frame 1000 960) 25000).effects =
      [Producer.Effect.warn_too_far_ahead 6960 1200,
        Producer.Effect.log_reset 0 6000 1000 6000] ∧
    (Producer.ThreadMain 0 Producer.State.init
      [Producer.packet_at (Producer.opus_frame 6000 960) 0,
        Producer.packet_at (Producer.opus_frame 1000 960) 25000]).effects =
      [Producer.Effect.log_reset AV_NOPTS_VALUE 0 6000 AV_NOPTS_VALUE,
        Producer.Effect.usleep 25000,
        Producer.Effect.write_frame (Producer.opus_frame 6000 960),
        Producer.Effect.warn_too_far_ahead 6960 1200,
        Producer.Effect.log_reset 0 6000 1000 6000,
        Producer.Effect.write_frame (Producer.opus_frame 7000 960)] := by
  refine ⟨by decide, by decide, by decide, by decide, by decide, by decide⟩

/-! ### audio_decode_thread.cc: the normal decode -/

namespace Decoder

/-- The gap branch does nothing when `expected_pts` is unknown or not below
the pts of the packet. -/
theorem conceal_of_no_gap (p : Params) (codec : OpusCodec) (s : State) (pkt : AVPacket)
    (h : s.expected_pts = AV_NOPTS_VALUE ∨ pkt.pts ≤ s.expected_pts) :
    conceal p codec s pkt = (s, []) := by
  unfold conceal
  have hn : ¬ (s.expected_pts ≠ AV_NOPTS_VALUE ∧ pkt.pts > s.expected_pts) := by
    rcases h with h | h
    · exact fun hc => hc.1 h
    · exact fun hc => by omega
  rw [if_neg hn]

/-- A successful normal decode, written out. -/
theorem decode_actual_ok (p : Params) (codec : OpusCodec) (s : State) (pkt : AVPacket)
    (hcb : p.buffer_ready_async = true) (hok : 0 ≤ codec s.calls (normal_call pkt)) :
    decode_actual p codec s pkt =
      ({ s with last_frame_size := codec s.calls (normal_call pkt),
                total_samples_decoded := s.total_samples_decoded + codec s.calls (normal_call pkt),
                total_packets_decoded := s.total_packets_decoded + 1,
                expected_pts := pkt.pts + codec s.calls (normal_call pkt) * p.pts_scale,
                calls := s.calls + 1 },
        [Effect.opus_decode (normal_call pkt) (codec s.calls (normal_call pkt)),
          Effect.send_callback
            { len := codec s.calls (normal_call pkt) * 2, pts := pkt.pts }]) := by
  unfold decode_actual send_frame
  have hn : ¬ codec s.calls (normal_call pkt) < 0 := by omega
  simp only [normal_call] at hn ⊢
  rw [if_neg hn, if_pos hcb]

/-- A successfully decoded packet without a gap before it, written out. -/
theorem handle_packet_straight (p : Params) (codec : OpusCodec) (s : State) (pkt : AVPacket)
    (hdec : s.opus_decoder = true) (hcb : p.buffer_ready_async = true)
    (hexp : s.expected_pts = AV_NOPTS_VALUE ∨ pkt.pts ≤ s.expected_pts)
    (hok : 0 ≤ codec s.calls (normal_call pkt)) :
    (handle_packet p codec s pkt).2 =
      [Effect.opus_decode (normal_call pkt) (codec s.calls (normal_call pkt)),
        Effect.send_callback { len := codec s.calls (normal_call pkt) * 2, pts := pkt.pts }] ∧
    (handle_packet p codec s pkt).1.opus_decoder = true ∧
    (handle_packet p codec s pkt).1.calls = s.calls + 1 ∧
    (handle_packet p codec s pkt).1.expected_pts =
      pkt.pts + codec s.calls (normal_call pkt) * p.pts_scale := by
  have hc : conceal p codec s pkt = (s, []) := conceal_of_no_gap p codec s pkt hexp
  have hd := decode_actual_ok p codec s pkt hcb hok
  unfold handle_packet
  simp only [hdec, hc, hd]
  simp [hdec]

/-- A gap-free input is decoded straight through. -/
theorem ThreadMain_gap_free (p : Params) (codec : OpusCodec) (hcb : p.buffer_ready_async = true)
    (pkts : List AVPacket) :
    ∀ s : State, s.opus_decoder = true → gap_free p codec s.calls s.expected_pts pkts = true →
      (ThreadMain p codec s (feed pkts)).exit = none ∧
      (ThreadMain p codec s (feed pkts)).effects = straight_trace codec s.calls pkts ∧
      emitted (ThreadMain p codec s (feed pkts)).effects = straight_buffers codec s.calls pkts ∧
      (ThreadMain p codec s (feed pkts)).state.expected_pts =
        straight_expected p codec s.calls s.expected_pts pkts := by
  induction pkts with
  | nil =>
    intro s _ _
    exact ⟨rfl, rfl, rfl, rfl⟩
  | cons pkt rest ih =>
    intro s hdec hfree
    simp only [gap_free, Bool.and_eq_true, decide_eq_true_eq] at hfree
    obtain ⟨⟨hexp, hok⟩, hrest⟩ := hfree
    have hexp2 : s.expected_pts = AV_NOPTS_VALUE ∨ pkt.pts ≤ s.expected_pts := by
      rcases hexp with h | h
      · exact Or.inl h
      · exact Or.inr (le_of_eq h)
    obtain ⟨he, hd2, hcalls, hexpd⟩ := handle_packet_straight p codec s pkt hdec hcb hexp2 hok
    have hi := ih (handle_packet p codec s pkt).1 hd2 (by rw [hcalls, hexpd]; exact hrest)
    rw [hcalls, hexpd] at hi
    obtain ⟨h1, h2, h3, h4⟩ := hi
    have hstep : ThreadMain p codec s (feed (pkt :: rest)) =
        { state := (ThreadMain p codec (handle_packet p codec s pkt).1 (feed rest)).state,
          effects := (handle_packet p codec s pkt).2 ++
            (ThreadMain p codec (handle_packet p codec s pkt).1 (feed rest)).effects,
          exit := (ThreadMain p codec (handle_packet p codec s pkt).1 (feed rest)).exit } := by
      simp only [feed, List.map_cons, ThreadMain, iteration, receive]
      simp
    rw [hstep]
    refine ⟨h1, ?_, ?_, h4⟩
    · simp only [straight_trace, h2, he, List.cons_append, List.nil_append]
    · simp only [straight_buffers, he, emitted, List.cons_append, List.nil_append]
      rw [h3]

end Decoder

/-- C12.  For every packet with pts `P` that a running decoder (decoder
created, callback present) decodes successfully, `frame_size` being the value
the normal decode returns: the actions of the normal decode are the decode and
the emission of exactly one buffer, with pts `P` (and `frame_size * 2` bytes),
and after the packet `last_frame_size = frame_size` and
`expected_pts = P + frame_size * pts_scale`.  Hence a gap-free input (every
packet decoded successfully, with `P` equal to the current `expected_pts`, or
`expected_pts` still unknown) is decoded with one normal decode and one buffer
per packet and no recovery decode, and `expected_pts` ends at
`P + frame_size * pts_scale` of the last packet.  Scenario S1: at 24 kHz the
packets with pts 960, 1920, 2880 give three buffers with those pts (480
samples, 20 ms each) and `expected_pts` ends at 3840. -/
theorem normal_decode_emits_one (p : Decoder.Params) (codec : Decoder.OpusCodec)
    (s : Decoder.State) (pkt : AVPacket) (pkts : List AVPacket)
    (hdec : s.opus_decoder = true) (hcb : p.buffer_ready_async = true) :
    (0 ≤ codec (Decoder.conceal p codec s pkt).1.calls (Decoder.normal_call pkt) →
      (Decoder.handle_packet p codec s pkt).2 =
        (Decoder.conceal p codec s pkt).2 ++
          [Decoder.Effect.opus_decode (Decoder.normal_call pkt)
              (codec (Decoder.conceal p codec s pkt).1.calls (Decoder.normal_call pkt)),
            Decoder.Effect.send_callback
              { len := codec (Decoder.conceal p codec s pkt).1.calls
                  (Decoder.normal_call pkt) * 2,
                pts := pkt.pts }] ∧
      (Decoder.handle_packet p codec s pkt).1.last_frame_size =
        codec (Decoder.conceal p codec s pkt).1.calls (Decoder.normal_call pkt) ∧
      (Decoder.handle_packet p codec s pkt).1.expected_pts =
        pkt.pts +
          codec (Decoder.conceal p codec s pkt).1.calls (Decoder.normal_call pkt) *
            p.pts_scale) ∧
    (Decoder.gap_free p codec s.calls s.expected_pts pkts = true →
      (Decoder.ThreadMain p codec s (Decoder.feed pkts)).exit = none ∧
      (Decoder.ThreadMain p codec s (Decoder.feed pkts)).effects =
        Decoder.straight_trace codec s.calls pkts ∧
      Decoder.emitted (Decoder.ThreadMain p codec s (Decoder.feed pkts)).effects =
        Decoder.straight_buffers codec s.calls pkts ∧
      (Decoder.ThreadMain p codec s (Decoder.feed pkts)).state.expected_pts =
        Decoder.straight_expected p codec s.calls s.expected_pts pkts) ∧
    (Decoder.emitted
        (Decoder.ThreadMain Decoder.params_24k Decoder.codec_480
          (Decoder.State.init Decoder.params_24k)
          (Decoder.receive ThreadMessage.POST_CODEC_PARAMETERS ::
            Decoder.feed [Decoder.rtp_packet 960, Decoder.rtp_packet 1920,
              Decoder.rtp_packet 2880])).effects =
        [{ len := 960, pts := 960 }, { len := 960, pts := 1920 }, { len := 960, pts := 2880 }] ∧
      (Decoder.ThreadMain Decoder.params_24k Decoder.codec_480
          (Decoder.State.init Decoder.params_24k)
          (Decoder.receive ThreadMessage.POST_CODEC_PARAMETERS ::
            Decoder.feed [Decoder.rtp_packet 960, Decoder.rtp_packet 1920,
              Decoder.rtp_packet 2880])).state.expected_pts = 3840) := by
  refine ⟨?_, ?_, by decide, by decide⟩
  · intro hok
    have hd := Decoder.decode_actual_ok p codec (Decoder.conceal p codec s pkt).1 pkt hcb hok
    unfold Decoder.handle_packet
    simp only [hdec, hd]
    simp
  · intro hfree
    exact Decoder.ThreadMain_gap_free p codec hcb pkts s hdec hfree

/-- Witness of C12: scenario S1 after the decoder has been created (state with
`expected_pts` unknown), with the packets pts 960, 1920, 2880 at 24 kHz and a
codec returning 480 samples: three buffers with the pts of the packets. -/
theorem normal_decode_emits_one_witness :
    Decoder.emitted
      (Decoder.ThreadMain Decoder.params_24k Decoder.codec_480
        { Decoder.State.init Decoder.params_24k with opus_decoder := true }
        (Decoder.feed [Decoder.rtp_packet 960, Decoder.rtp_packet 1920,
          Decoder.rtp_packet 2880])).effects =
      Decoder.straight_buffers Decoder.codec_480 0
        [Decoder.rtp_packet 960, Decoder.rtp_packet 1920, Decoder.rtp_packet 2880] :=
  ((normal_decode_emits_one Decoder.params_24k Decoder.codec_480
      { Decoder.State.init Decoder.params_24k with opus_decoder := true }
      (Decoder.rtp_packet 960)
      [Decoder.rtp_packet 960, Decoder.rtp_packet 1920, Decoder.rtp_packet 2880]
      (by decide) (by decide)).2.1 (by decide)).2.2.1

/-! ### audio_decode_thread.cc: frame accounting -/

namespace Decoder

/-- The emitted buffers of a concatenation. -/
theorem emitted_append (a b : List Effect) : emitted (a ++ b) = emitted a ++ emitted b := by
  induction a with
  | nil => rfl
  | cons e rest ih =>
    cases e <;> simp [emitted, ih]

/-- The emitted samples of a concatenation. -/
theorem emitted_samples_append (a b : List Effect) :
    emitted_samples (a ++ b) = emitted_samples a + emitted_samples b := by
  simp [emitted_samples, emitted_append]

/-- The loop step of `ThreadMain` at a `POST_PACKET` message. -/
theorem ThreadMain_feed_cons (p : Params) (codec : OpusCodec) (s : State) (pkt : AVPacket)
    (rest : List AVPacket) :
    ThreadMain p codec s (feed (pkt :: rest)) =
      { state := (ThreadMain p codec (handle_packet p codec s pkt).1 (feed rest)).state,
        effects := (handle_packet p codec s pkt).2 ++
          (ThreadMain p codec (handle_packet p codec s pkt).1 (feed rest)).effects,
        exit := (ThreadMain p codec (handle_packet p codec s pkt).1 (feed rest)).exit } := by
  simp only [feed, List.map_cons, ThreadMain, iteration, receive]
  simp

/-- The recovery loop emits `last_frame_size` samples per pass when every
recovery decode returns the requested number of samples. -/
theorem plc_loop_samples (p : Params) (codec : OpusCodec) (pkt : AVPacket)
    (expected lfs missing : Int) (hcb : p.buffer_ready_async = true) (hlfs : 0 ≤ lfs)
    (hrec : ∀ (n : Nat) (call : DecodeCall),
      (call.decode_fec = 1 ∨ call.data = none) → codec n call = call.frame_size) :
    ∀ (n : Nat) (i : Int) (calls : Nat),
      emitted_samples (plc_loop p codec pkt expected lfs missing n i calls).1 = n * lfs := by
  intro n
  induction n with
  | zero =>
    intro i calls
    simp [plc_loop, emitted_samples, emitted]
  | succ n ih =>
    intro i calls
    have hret : codec calls (recovery_call pkt lfs missing i) = lfs := by
      rw [hrec calls (recovery_call pkt lfs missing i)]
      · unfold recovery_call
        split <;> rfl
      · unfold recovery_call
        split
        · exact Or.inl rfl
        · exact Or.inr rfl
    rw [plc_loop_succ, hret, if_neg (by omega), emitted_samples_append, ih]
    simp only [send_frame, hcb, if_true, emitted_samples, emitted, List.map_cons, List.map_nil,
      List.sum_cons, List.sum_nil]
    rw [Int.mul_ediv_cancel lfs (by decide)]
    push_cast
    ring

/-- What the gap branch leaves untouched, and the samples it emits when every
recovery decode returns the requested number of samples. -/
theorem conceal_samples (p : Params) (codec : OpusCodec) (s : State) (pkt : AVPacket)
    (hcb : p.buffer_ready_async = true) (hscale : 0 < p.pts_scale)
    (hlfs : 0 < s.last_frame_size)
    (hrec : ∀ (n : Nat) (call : DecodeCall),
      (call.decode_fec = 1 ∨ call.data = none) → codec n call = call.frame_size)
    (hfit : s.expected_pts = AV_NOPTS_VALUE ∨ pkt.pts - s.expected_pts < 2147483648) :
    (conceal p codec s pkt).1.opus_decoder = s.opus_decoder ∧
    (conceal p codec s pkt).1.expected_pts = s.expected_pts ∧
    (conceal p codec s pkt).1.last_frame_size = s.last_frame_size ∧
    emitted_samples (conceal p codec s pkt).2 =
      (if s.expected_pts ≠ AV_NOPTS_VALUE ∧ pkt.pts > s.expected_pts then
        (pkt.pts - s.expected_pts) / (s.last_frame_size * p.pts_scale) * s.last_frame_size
      else 0) := by
  by_cases hgap : s.expected_pts ≠ AV_NOPTS_VALUE ∧ pkt.pts > s.expected_pts
  · have hsmall : pkt.pts - s.expected_pts < 2147483648 := by
      rcases hfit with h | h
      · exact absurd h hgap.1
      · exact h
    have hq := (conceal_eq p codec s pkt hlfs hscale hgap.1 hgap.2 hsmall).1
    have hq0 : 0 ≤ (pkt.pts - s.expected_pts) / (s.last_frame_size * p.pts_scale) :=
      Int.ediv_nonneg (by omega) (le_of_lt (mul_pos hlfs hscale))
    unfold conceal
    rw [if_pos hgap, if_pos hgap, hq]
    by_cases hpos : (pkt.pts - s.expected_pts) / (s.last_frame_size * p.pts_scale) > 0
    · rw [if_pos hpos]
      refine ⟨rfl, rfl, rfl, ?_⟩
      rw [plc_loop_samples p codec pkt s.expected_pts s.last_frame_size _ hcb (le_of_lt hlfs) hrec,
        Int.toNat_of_nonneg hq0]
    · rw [if_neg hpos]
      refine ⟨rfl, rfl, rfl, ?_⟩
      have hz : (pkt.pts - s.expected_pts) / (s.last_frame_size * p.pts_scale) = 0 := by omega
      rw [hz]
      simp [emitted_samples, emitted]
  · unfold conceal
    rw [if_neg hgap, if_neg hgap]
    exact ⟨rfl, rfl, rfl, rfl⟩

/-- One packet of the accounting: the samples emitted for it, and the
variables after it. -/
theorem handle_packet_samples (p : Params) (codec : OpusCodec) (s : State) (pkt : AVPacket)
    (hdec : s.opus_decoder = true) (hcb : p.buffer_ready_async = true)
    (hscale : 0 < p.pts_scale) (hlfs : 0 < s.last_frame_size)
    (hnormal : ∀ n : Nat, codec n (normal_call pkt) * p.pts_scale = pkt.duration)
    (hrec : ∀ (n : Nat) (call : DecodeCall),
      (call.decode_fec = 1 ∨ call.data = none) → codec n call = call.frame_size)
    (hdur : 0 < pkt.duration)
    (hfit : s.expected_pts = AV_NOPTS_VALUE ∨ pkt.pts - s.expected_pts < 2147483648) :
    (handle_packet p codec s pkt).1.opus_decoder = true ∧
    (handle_packet p codec s pkt).1.expected_pts = pkt.pts + pkt.duration ∧
    (handle_packet p codec s pkt).1.last_frame_size = pkt.duration / p.pts_scale ∧
    0 < pkt.duration / p.pts_scale ∧
    emitted_samples (handle_packet p codec s pkt).2 =
      pkt.duration / p.pts_scale +
      (if s.expected_pts ≠ AV_NOPTS_VALUE ∧ pkt.pts > s.expected_pts then
        (pkt.pts - s.expected_pts) / (s.last_frame_size * p.pts_scale) * s.last_frame_size
      else 0) := by
  obtain ⟨c1, c2, c3, c4⟩ := conceal_samples p codec s pkt hcb hscale hlfs hrec hfit
  have hfs : codec (conceal p codec s pkt).1.calls (normal_call pkt) =
      pkt.duration / p.pts_scale := by
    rw [← hnormal (conceal p codec s pkt).1.calls]
    exact (Int.mul_ediv_cancel _ (ne_of_gt hscale)).symm
  have hfs0 : 0 < codec (conceal p codec s pkt).1.calls (normal_call pkt) := by
    have h := hnormal (conceal p codec s pkt).1.calls
    by_contra hneg
    have hle : codec (conceal p codec s pkt).1.calls (normal_call pkt) ≤ 0 := by omega
    have : codec (conceal p codec s pkt).1.calls (normal_call pkt) * p.pts_scale ≤ 0 :=
      Int.mul_nonpos_of_nonpos_of_nonneg hle (le_of_lt hscale)
    omega
  have hd := decode_actual_ok p codec (conceal p codec s pkt).1 pkt hcb (le_of_lt hfs0)
  have hh : handle_packet p codec s pkt =
      ((decode_actual p codec (conceal p codec s pkt).1 pkt).1,
        (conceal p codec s pkt).2 ++ (decode_actual p codec (conceal p codec s pkt).1 pkt).2) := by
    unfold handle_packet
    simp [hdec]
  rw [hh, hd]
  refine ⟨?_, ?_, ?_, ?_, ?_⟩
  · simp only [c1, hdec]
  · simp only [hnormal]
  · simp only [hfs]
  · rw [← hfs]; exact hfs0
  · simp only [emitted_samples_append, c4]
    simp only [emitted_samples, emitted, List.map_cons, List.map_nil, List.sum_cons,
      List.sum_nil]
    rw [Int.mul_ediv_cancel _ (by decide), hfs]
    ring

/-- The summed duration splits at the first packet when the duration of that
packet is a multiple of `pts_scale`. -/
theorem total_duration_cons (pts_scale fs : Int) (pkt : AVPacket) (rest : List AVPacket)
    (hscale : 0 < pts_scale) (h : fs * pts_scale = pkt.duration) :
    total_duration (pkt :: rest) / pts_scale =
      pkt.duration / pts_scale + total_duration rest / pts_scale := by
  simp only [total_duration, List.map_cons, List.sum_cons]
  rw [← h, add_comm, Int.add_mul_ediv_right _ _ (ne_of_gt hscale),
    Int.mul_ediv_cancel _ (ne_of_gt hscale)]
  ring

/-- The accounting of a whole input. -/
theorem ThreadMain_samples (p : Params) (codec : OpusCodec)
    (hcb : p.buffer_ready_async = true) (hscale : 0 < p.pts_scale)
    (hrec : ∀ (n : Nat) (call : DecodeCall),
      (call.decode_fec = 1 ∨ call.data = none) → codec n call = call.frame_size)
    (pkts : List AVPacket) :
    ∀ s : State, s.opus_decoder = true → 0 < s.last_frame_size →
      (∀ pkt ∈ pkts, ∀ n : Nat, codec n (normal_call pkt) * p.pts_scale = pkt.duration) →
      (∀ pkt ∈ pkts, 0 < pkt.duration) →
      gaps_fit_int s.expected_pts pkts = true →
      emitted_samples (ThreadMain p codec s (feed pkts)).effects =
        total_duration pkts / p.pts_scale +
          recovered_samples p.pts_scale s.expected_pts s.last_frame_size pkts := by
  induction pkts with
  | nil =>
    intro s _ _ _ _ _
    simp [feed, ThreadMain, emitted_samples, emitted, total_duration, recovered_samples]
  | cons pkt rest ih =>
    intro s hdec hlfs hnormal hdur hfit
    simp only [gaps_fit_int, Bool.and_eq_true, decide_eq_true_eq] at hfit
    obtain ⟨h1, h2, h3, h4, h5⟩ := handle_packet_samples p codec s pkt hdec hcb hscale hlfs
      (hnormal pkt (List.mem_cons_self _ _)) hrec (hdur pkt (List.mem_cons_self _ _)) hfit.1
    have hi := ih (handle_packet p codec s pkt).1 h1 (by rw [h3]; exact h4)
      (fun q hq => hnormal q (List.mem_cons_of_mem _ hq))
      (fun q hq => hdur q (List.mem_cons_of_mem _ hq)) (by rw [h2]; exact hfit.2)
    rw [ThreadMain_feed_cons]
    simp only [emitted_samples_append, hi, h5, h2, h3]
    rw [total_duration_cons p.pts_scale (codec 0 (normal_call pkt)) pkt rest hscale
      (hnormal pkt (List.mem_cons_self _ _) 0)]
    simp only [recovered_samples]
    ring

end Decoder

/-- C11, counterexample.  Decoding at 24 kHz with a codec that meets the codec
assumption (480 samples for a normal decode, the requested count for PLC and
FEC), the packets with pts 960 and `960 + 960 + 2^31 * 960` (duration 960
each) are decoded without error.  After the first packet `expected_pts = 1920`
and `last_frame_size = 480`, so the gap before the second packet has
`missing = 2^31` frames and the claimed total is `1920 / 2 + 2^31 * 480`
samples; the decoder stores the count in an `int`, where it is negative, makes
no recovery decode and emits the 960 samples of the two packets only. -/
theorem frame_accounting_fails_on_int_overflow :
    (Decoder.ThreadMain Decoder.params_24k Decoder.codec_20ms
      { Decoder.State.init Decoder.params_24k with opus_decoder := true }
      (Decoder.feed [Decoder.rtp_packet 960, Decoder.rtp_packet 2061584304000])).effects =
      [Decoder.Effect.opus_decode (Decoder.normal_call (Decoder.rtp_packet 960)) 480,
        Decoder.Effect.send_callback { len := 960, pts := 960 },
        Decoder.Effect.opus_decode
          (Decoder.normal_call (Decoder.rtp_packet 2061584304000)) 480,
        Decoder.Effect.send_callback { len := 960, pts := 2061584304000 }] ∧
    Decoder.emitted_samples
      (Decoder.ThreadMain Decoder.params_24k Decoder.codec_20ms
        { Decoder.State.init Decoder.params_24k with opus_decoder := true }
        (Decoder.feed [Decoder.rtp_packet 960, Decoder.rtp_packet 2061584304000])).effects =
      960 ∧
    Decoder.total_duration [Decoder.rtp_packet 960, Decoder.rtp_packet 2061584304000] /
        Decoder.params_24k.pts_scale = 960 ∧
    Decoder.recovered_samples Decoder.params_24k.pts_scale AV_NOPTS_VALUE 480
      [Decoder.rtp_packet 960, Decoder.rtp_packet 2061584304000] = 2147483648 * 480 := by
  refine ⟨by decide, by decide, by decide, by decide⟩

/-- C11, amended.  For a running decoder (decoder created, callback present,
`pts_scale > 0`, `last_frame_size > 0`) and every sequence of packets with
positive durations whose gaps are all below `2^31` pts units, under the codec
assumption that a normal decode of a packet returns `duration / pts_scale`
samples exactly (the returned count times `pts_scale` is the duration) and
that a PLC or FEC decode returns the requested number of samples, the total
number of samples in the buffers the decoder emits is
`D_real / pts_scale + sum over the gaps of missing * last_frame_size`, where
`D_real` is the summed duration of the packets and, at a packet with pts `P`
above a known `expected_pts`,
`missing = (P - expected_pts) / (last_frame_size * pts_scale)`. -/
theorem decoder_frame_accounting (p : Decoder.Params) (codec : Decoder.OpusCodec)
    (s : Decoder.State) (pkts : List AVPacket)
    (hdec : s.opus_decoder = true) (hcb : p.buffer_ready_async = true)
    (hscale : 0 < p.pts_scale) (hlfs : 0 < s.last_frame_size)
    (hnormal : ∀ pkt ∈ pkts, ∀ n : Nat,
      codec n (Decoder.normal_call pkt) * p.pts_scale = pkt.duration)
    (hrec : ∀ (n : Nat) (call : Decoder.DecodeCall),
      (call.decode_fec = 1 ∨ call.data = none) → codec n call = call.frame_size)
    (hdur : ∀ pkt ∈ pkts, 0 < pkt.duration)
    (hfit : Decoder.gaps_fit_int s.expected_pts pkts = true) :
    Decoder.emitted_samples (Decoder.ThreadMain p codec s (Decoder.feed pkts)).effects =
      Decoder.total_duration pkts / p.pts_scale +
        Decoder.recovered_samples p.pts_scale s.expected_pts s.last_frame_size pkts :=
  Decoder.ThreadMain_samples p codec hcb hscale hrec pkts s hdec hlfs hnormal hdur hfit

/-- Witness of C11 (amended): scenario S2 (pts 960, then pts 3840, at 24 kHz)
with a codec that meets the codec assumption: 480 + 480 samples for the two
packets and 2 * 480 for the gap. -/
theorem decoder_frame_accounting_witness :
    Decoder.emitted_samples
      (Decoder.ThreadMain Decoder.params_24k Decoder.codec_20ms
        { Decoder.State.init Decoder.params_24k with opus_decoder := true }
        (Decoder.feed [Decoder.rtp_packet 960, Decoder.rtp_packet 3840])).effects =
      Decoder.total_duration [Decoder.rtp_packet 960, Decoder.rtp_packet 3840] /
          Decoder.params_24k.pts_scale +
        Decoder.recovered_samples Decoder.params_24k.pts_scale AV_NOPTS_VALUE 480
          [Decoder.rtp_packet 960, Decoder.rtp_packet 3840] :=
  decoder_frame_accounting Decoder.params_24k Decoder.codec_20ms
    { Decoder.State.init Decoder.params_24k with opus_decoder := true }
    [Decoder.rtp_packet 960, Decoder.rtp_packet 3840]
    (by decide) (by decide) (by decide) (by decide)
    (by
      intro pkt hp n
      simp only [List.mem_cons, List.mem_singleton, List.not_mem_nil, or_false] at hp
      rcases hp with h | h <;> subst h <;> rfl)
    (by
      intro n call h
      unfold Decoder.codec_20ms
      rw [if_pos h])
    (by
      intro pkt hp
      simp only [List.mem_cons, List.mem_singleton, List.not_mem_nil, or_false] at hp
      rcases hp with h | h <;> subst h <;> decide)
    (by decide)

/-! ### demuxer.cc: the read hook of the file demuxer -/

namespace Demuxer

/-- While a reset is pending the hook discards the reset markers it
receives. -/
theorem read_packet_skip (buf : List Byte) (n : Int) (skipped queue : List Recv)
    (hskip : ∀ r ∈ skipped, 0 ≤ r.ret ∧ r.msg = ThreadMessage.OGG_RESET_DEMUXER) :
    read_packet true buf n (skipped ++ queue) = read_packet true buf n queue := by
  induction skipped with
  | nil => rfl
  | cons r rest ih =>
    have hr := hskip r (List.mem_cons_self _ _)
    have hn : ¬ r.ret < 0 := by omega
    rw [List.cons_append, read_packet, if_neg hn]
    simp only [hr.2, if_true]
    exact ih (fun q hq => hskip q (List.mem_cons_of_mem _ hq))

end Demuxer

/-- C18.  For every byte-buffer message `b` of length `m` that the read hook
of the file demuxer dequeues for a request of up to `n` bytes (received
successfully, after the reset markers `skipped` that the hook discards while a
reset is pending; none when no reset is pending): if `m <= n` the hook returns
`m`, the first `m` bytes of the caller's buffer are the bytes of the message,
the bytes after them are unchanged, and the receives left are exactly those
after the message (no further message is consumed); if `m > n` the hook
returns `AVERROR_INVALIDDATA` and the caller's buffer is unchanged. -/
theorem read_hook_copies_one_message (should_reset : Bool) (buf b : List Byte) (n ret : Int)
    (skipped queue : List Demuxer.Recv) (hret : 0 ≤ ret)
    (hskip : ∀ r ∈ skipped,
      should_reset = true ∧ 0 ≤ r.ret ∧ r.msg = ThreadMessage.OGG_RESET_DEMUXER) :
    ((b.length : Int) ≤ n →
      Demuxer.read_packet should_reset buf n
          (skipped ++ { ret := ret, msg := ThreadMessage.OGG_BUFFER b } :: queue) =
        some { ret := (b.length : Int), buf := b ++ buf.drop b.length,
               should_reset := should_reset, queue := queue } ∧
      (b ++ buf.drop b.length).take b.length = b ∧
      (b ++ buf.drop b.length).drop b.length = buf.drop b.length) ∧
    ((b.length : Int) > n →
      Demuxer.read_packet should_reset buf n
          (skipped ++ { ret := ret, msg := ThreadMessage.OGG_BUFFER b } :: queue) =
        some { ret := AVERROR_INVALIDDATA, buf := buf, should_reset := should_reset,
               queue := queue }) := by
  have hn : ¬ ret < 0 := by omega
  have hgo : Demuxer.read_packet should_reset buf n
      (skipped ++ { ret := ret, msg := ThreadMessage.OGG_BUFFER b } :: queue) =
      Demuxer.read_packet should_reset buf n
        ({ ret := ret, msg := ThreadMessage.OGG_BUFFER b } :: queue) := by
    cases skipped with
    | nil => rfl
    | cons r rest =>
      have hr := (hskip r (List.mem_cons_self _ _)).1
      subst hr
      exact Demuxer.read_packet_skip buf n (r :: rest) _ (fun q hq => (hskip q hq).2)
  rw [hgo]
  refine ⟨?_, ?_⟩
  · intro hle
    have hc : ¬ (n < 0 ∨ (b.length : Int) > n) := by omega
    refine ⟨?_, ?_, ?_⟩
    · rw [Demuxer.read_packet, if_neg hn]
      simp only [if_neg hc]
    · simp
    · simp
  · intro hgt
    have hc : n < 0 ∨ (b.length : Int) > n := Or.inr hgt
    rw [Demuxer.read_packet, if_neg hn]
    simp only [if_pos hc]

/-- Witness of C18: with a reset pending, a reset marker is discarded and the
three-byte message is copied into a four-byte buffer. -/
theorem read_hook_copies_one_message_witness :
    Demuxer.read_packet true [0, 0, 0, 9] 4
      ([{ ret := 0, msg := ThreadMessage.OGG_RESET_DEMUXER }] ++
        { ret := 0, msg := ThreadMessage.OGG_BUFFER [1, 2, 3] } ::
          [{ ret := 0, msg := ThreadMessage.OGG_BUFFER [4] }]) =
      some { ret := 3, buf := [1, 2, 3, 9], should_reset := true,
             queue := [{ ret := 0, msg := ThreadMessage.OGG_BUFFER [4] }] } :=
  ((read_hook_copies_one_message true [0, 0, 0, 9] [1, 2, 3] 4 0
      [{ ret := 0, msg := ThreadMessage.OGG_RESET_DEMUXER }]
      [{ ret := 0, msg := ThreadMessage.OGG_BUFFER [4] }] (by decide)
      (by
        intro r hr
        simp only [List.mem_singleton] at hr
        subst hr
        exact ⟨rfl, by decide, rfl⟩)).1 (by decide)).1

/-! ### demuxer.cc: `ThreadMain` -/

namespace Demuxer

/-- The actions of `readAndWritePacket` hold no post of codec parameters. -/
theorem codec_params_posted_read (es : List Effect) (tail : List ThreadEffect) :
    codec_params_posted (es.map ThreadEffect.read ++ tail) = codec_params_posted tail := by
  induction es with
  | nil => rfl
  | cons e rest ih =>
    simp only [List.map_cons, List.cons_append, codec_params_posted]
    exact ih

/-- The cleanup posts no codec parameters. -/
theorem codec_params_posted_cleanup (mode : DemuxerThreadMode) (input_open : Bool) (ret : Int) :
    codec_params_posted (cleanup mode input_open ret).1 = 0 := by
  unfold cleanup
  cases input_open <;> cases mode <;> simp [codec_params_posted]

/-- The loop of `ThreadMain` posts no codec parameters, whatever the number of
re-opens. -/
theorem codec_params_posted_main_loop (mode : DemuxerThreadMode) (turns : List Turn) :
    ∀ (ret : Int) (seen : Bool) (idx off : Int),
      codec_params_posted (main_loop mode ret seen idx off turns).effects = 0 := by
  induction turns with
  | nil =>
    intro ret seen idx off
    cases seen
    · rfl
    · simp only [main_loop]
      exact codec_params_posted_cleanup mode true ret
  | cons t rest ih =>
    intro ret seen idx off
    cases seen
    · simp only [main_loop]
      split
      · exact codec_params_posted_cleanup mode true ret
      · split
        · have h := codec_params_posted_read (readAndWritePacket mode idx off t.reads).effects []
          simp only [List.append_nil] at h
          rw [h]
          rfl
        · split
          · rw [codec_params_posted_read]
            exact codec_params_posted_cleanup mode true _
          · split
            · split
              · rw [codec_params_posted_read]
                simp only [codec_params_posted]
                exact codec_params_posted_cleanup mode false _
              · rw [codec_params_posted_read]
                simp only [codec_params_posted]
                exact ih _ _ _ _
            · rw [codec_params_posted_read]
              exact ih _ _ _ _
    · simp only [main_loop]
      exact codec_params_posted_cleanup mode true ret

end Demuxer

/-- C13, counterexample.  A file demuxer whose input is reset twice: the
initial open is followed by the post of the codec parameters; the first
re-open is followed by a packet and the next reset, the second re-open by a
packet and the end of the run, and no codec parameters are posted after
either re-open. -/
theorem no_codec_params_after_reopen :
    (Demuxer.ThreadMain DemuxerThreadMode.DEMUXER_MODE_FILE { ret := 0, stream_idx := 0 } 0
      [{ shutdown := false, reads := [Demuxer.reset_pass],
         reopen := { ret := 0, stream_idx := 0 } },
       { shutdown := false, reads := [read_of (opus_packet 0) 0, Demuxer.reset_pass],
         reopen := { ret := 0, stream_idx := 0 } },
       { shutdown := false,
         reads := [read_of (opus_packet 0) 0,
           { Demuxer.reset_pass with ret := AVERROR_EOF, should_reset := false }],
         reopen := { ret := 0, stream_idx := 0 } }]) =
      { effects :=
          [Demuxer.ThreadEffect.open_input 0,
            Demuxer.ThreadEffect.post_codec_parameters 0,
            Demuxer.ThreadEffect.close_input,
            Demuxer.ThreadEffect.open_input 0,
            Demuxer.ThreadEffect.read (Demuxer.Effect.post_start_time_local 1),
            Demuxer.ThreadEffect.read
              (Demuxer.Effect.post_packet
                { data := some [0xF8], pts := 0, dts := 0, duration := 960, stream_index := 0 }
                0 0),
            Demuxer.ThreadEffect.close_input,
            Demuxer.ThreadEffect.open_input 0,
            Demuxer.ThreadEffect.read (Demuxer.Effect.post_start_time_local 1),
            Demuxer.ThreadEffect.read
              (Demuxer.Effect.post_packet
                { data := some [0xF8], pts := 960, dts := 960, duration := 960,
                  stream_index := 0 }
                0 0),
            Demuxer.ThreadEffect.close_input],
        ret := some 0, pts_offset := 1920 } := by
  decide

/-- C13, amended.  In every run of the demuxer thread the codec parameters
are posted exactly once: when the initial open succeeds the actions of the run
begin with the open and the post of the codec parameters, and nothing that
follows (no re-open triggered by a reset, no packet, no cleanup) posts them
again, so the output queue receives one `CodecParams` message when that post
succeeds and none when it fails; when the initial open fails nothing is
posted. -/
theorem codec_params_posted_once (mode : DemuxerThreadMode) (first : Demuxer.OpenResult)
    (post_ret : Int) (turns : List Demuxer.Turn) :
    (first.ret = 0 →
      ∃ rest, (Demuxer.ThreadMain mode first post_ret turns).effects =
          Demuxer.ThreadEffect.open_input 0 ::
            Demuxer.ThreadEffect.post_codec_parameters post_ret :: rest ∧
        Demuxer.codec_params_posted rest = 0) ∧
    Demuxer.codec_params_posted (Demuxer.ThreadMain mode first post_ret turns).effects =
      (if first.ret = 0 ∧ 0 ≤ post_ret then 1 else 0) := by
  refine ⟨?_, ?_⟩
  · intro hopen
    unfold Demuxer.ThreadMain
    rw [if_neg (by simpa using hopen)]
    by_cases hp : post_ret < 0
    · rw [if_pos hp]
      exact ⟨_, rfl, Demuxer.codec_params_posted_cleanup mode true post_ret⟩
    · rw [if_neg hp]
      exact ⟨_, rfl, Demuxer.codec_params_posted_main_loop mode turns _ _ _ _⟩
  · unfold Demuxer.ThreadMain
    by_cases hopen : first.ret = 0
    · rw [if_neg (by simpa using hopen)]
      by_cases hp : post_ret < 0
      · rw [if_pos hp, if_neg (by omega)]
        simp only [Demuxer.codec_params_posted, if_pos hp, zero_add]
        exact Demuxer.codec_params_posted_cleanup mode true post_ret
      · rw [if_neg hp, if_pos ⟨hopen, by omega⟩]
        simp only [Demuxer.codec_params_posted, if_neg hp,
          Demuxer.codec_params_posted_main_loop mode turns]
    · rw [if_pos hopen, if_neg (fun h => hopen h.1)]
      simp only [Demuxer.codec_params_posted]
      exact Demuxer.codec_params_posted_cleanup mode false first.ret

/-- Witness of C13 (amended): a file demuxer that is reset once and then
reaches the end of its input posts the codec parameters once. -/
theorem codec_params_posted_once_witness :
    ∃ rest,
      (Demuxer.ThreadMain DemuxerThreadMode.DEMUXER_MODE_FILE { ret := 0, stream_idx := 0 } 0
        [{ shutdown := false, reads := [read_of (opus_packet 0) 0, Demuxer.reset_pass],
           reopen := { ret := 0, stream_idx := 0 } },
         { shutdown := false,
           reads := [{ Demuxer.reset_pass with ret := AVERROR_EOF, should_reset := false }],
           reopen := { ret := 0, stream_idx := 0 } }]).effects =
        Demuxer.ThreadEffect.open_input 0 ::
          Demuxer.ThreadEffect.post_codec_parameters 0 :: rest ∧
      Demuxer.codec_params_posted rest = 0 :=
  (codec_params_posted_once DemuxerThreadMode.DEMUXER_MODE_FILE { ret := 0, stream_idx := 0 }
    0 _).1 rfl

/-! ### demuxer.cc: continuity across re-opens -/

namespace Demuxer

/-- The duration repair keeps a duration non-negative. -/
theorem repair_duration_nonneg (pkt q : AVPacket) (h : repair_duration pkt = some q)
    (hd : 0 ≤ pkt.duration) : 0 ≤ q.duration := by
  unfold repair_duration at h
  split at h
  · split at h
    · split at h
      · exact absurd h (by simp)
      · simp only [Option.some.injEq] at h
        subst h
        simp only
        omega
    · simp only [Option.some.injEq] at h
      subst h
      exact hd
  · simp only [Option.some.injEq] at h
    subst h
    exact hd

/-- The local `next_expected_pts` follows the posted packets: it is the
`pts + duration` of the last packet handed to the output queue, and untouched
when there is none. -/
theorem next_expected_tracks (mode : DemuxerThreadMode) (idx off : Int) :
    ∀ (iters : List ReadIter) (st : ReadState),
      (posted (read_loop mode idx off st iters).effects = [] ∧
        (read_loop mode idx off st iters).state.next_expected_pts = st.next_expected_pts) ∨
      (∃ init last, posted (read_loop mode idx off st iters).effects = init ++ [last] ∧
        (read_loop mode idx off st iters).state.next_expected_pts = last.pts + last.duration) := by
  intro iters
  induction iters with
  | nil =>
    intro st
    exact Or.inl ⟨rfl, rfl⟩
  | cons it rest ih =>
    intro st
    rw [read_loop_cons]
    rcases read_iteration_cases mode idx off st it with
      ⟨hp, _, hn, _⟩ | ⟨q, hq, _, _, _, hn, hp, _⟩
    · cases hx : (read_iteration mode idx off st it).exit with
      | some ret =>
        simp only
        exact Or.inl ⟨hp, hn⟩
      | none =>
        simp only [posted_append, hp, List.nil_append]
        rcases ih (read_iteration mode idx off st it).state with ⟨h1, h2⟩ | ⟨init, last, h1, h2⟩
        · exact Or.inl ⟨h1, by rw [h2, hn]⟩
        · exact Or.inr ⟨init, last, h1, h2⟩
    · obtain ⟨hq1, _, _, _⟩ := repair_duration_fields _ _ hq
      have hlast : (read_iteration mode idx off st it).state.next_expected_pts =
          (shift_pts (next_correction st it.pkt) off q).pts +
            (shift_pts (next_correction st it.pkt) off q).duration := by
        rw [hn]
        simp only [shift_pts, hq1]
      cases hx : (read_iteration mode idx off st it).exit with
      | some ret =>
        simp only
        exact Or.inr ⟨[], shift_pts (next_correction st it.pkt) off q, by rw [hp]; rfl, hlast⟩
      | none =>
        simp only [posted_append, hp]
        rcases ih (read_iteration mode idx off st it).state with ⟨h1, h2⟩ | ⟨init, last, h1, h2⟩
        · refine Or.inr ⟨[], shift_pts (next_correction st it.pkt) off q, ?_, ?_⟩
          · rw [h1]; rfl
          · rw [h2]; exact hlast
        · refine Or.inr ⟨shift_pts (next_correction st it.pkt) off q :: init, last, ?_, h2⟩
          rw [h1]; rfl

/-- Every posted packet has a non-negative duration when the packets read
have. -/
theorem posted_duration_nonneg (mode : DemuxerThreadMode) (idx off : Int) :
    ∀ (iters : List ReadIter) (st : ReadState),
      (∀ it ∈ iters, 0 ≤ it.pkt.duration) →
      ∀ out ∈ posted (read_loop mode idx off st iters).effects, 0 ≤ out.duration := by
  intro iters
  induction iters with
  | nil =>
    intro st _ out hout
    simp [read_loop, posted] at hout
  | cons it rest ih =>
    intro st hd out hout
    have hrest : ∀ x ∈ rest, 0 ≤ x.pkt.duration := fun x hx => hd x (List.mem_cons_of_mem _ hx)
    rw [posted_read_loop_cons] at hout
    rcases read_iteration_cases mode idx off st it with
      ⟨hp, _, _, _⟩ | ⟨q, hq, _, _, _, _, hp, _⟩
    · rw [hp, List.nil_append] at hout
      split at hout
      · exact ih _ hrest out hout
      · simp at hout
    · rw [hp] at hout
      have hq0 := repair_duration_nonneg _ _ hq (hd it (List.mem_cons_self _ _))
      rcases List.mem_append.mp hout with h | h
      · simp only [List.mem_singleton] at h
        subst h
        simp only [shift_pts]
        exact hq0
      · split at h
        · exact ih _ hrest out h
        · simp at h

/-- No posted packet has a pts below `pts_offset`: the pts of a packet with
`pts_correction` added is never negative. -/
theorem posted_ge_offset (mode : DemuxerThreadMode) (idx off : Int) :
    ∀ (iters : List ReadIter) (st : ReadState),
      (∀ it ∈ iters, AV_NOPTS_VALUE ≤ it.pkt.pts) →
      (st.pts_correction = AV_NOPTS_VALUE ∨ 0 ≤ st.prev_pts + st.pts_correction) →
      ∀ out ∈ posted (read_loop mode idx off st iters).effects, off ≤ out.pts := by
  intro iters
  induction iters with
  | nil =>
    intro st _ _ out hout
    simp [read_loop, posted] at hout
  | cons it rest ih =>
    intro st hr hinv out hout
    by_cases hc : st.pts_correction = AV_NOPTS_VALUE
    · have hrest : ∀ x ∈ rest, AV_NOPTS_VALUE ≤ x.pkt.pts :=
        fun x hx => hr x (List.mem_cons_of_mem _ hx)
      rw [posted_read_loop_cons] at hout
      rcases read_iteration_cases mode idx off st it with
        ⟨hp, hcorr, _, _⟩ | ⟨q, hq, _, hprev, hcorr, _, hp, _⟩
      · rw [hp, List.nil_append] at hout
        split at hout
        · exact ih _ hrest (Or.inl (by rw [hcorr]; exact hc)) out hout
        · simp at hout
      · obtain ⟨hq1, _, _, _⟩ := repair_duration_fields _ _ hq
        have hnc : 0 ≤ it.pkt.pts + next_correction st it.pkt := by
          unfold next_correction
          rw [if_pos hc]
          split <;> omega
        rw [hp] at hout
        rcases List.mem_append.mp hout with h | h
        · simp only [List.mem_singleton] at h
          subst h
          simp only [shift_pts, hq1]
          omega
        · split at h
          · exact ih _ hrest (Or.inr (by rw [hprev, hcorr]; exact hnc)) out h
          · simp at h
    · have hb := (posted_sorted_of_set mode idx off (it :: rest) st hc hr).1 out hout
      rcases hinv with h | h
      · exact absurd h hc
      · omega

/-- Every posted packet is one of the packets read, with the `pts_correction`
of the call and `pts_offset` added to its pts. -/
theorem posted_shifted (mode : DemuxerThreadMode) (idx off : Int) :
    ∀ (iters : List ReadIter) (st : ReadState),
      ∀ out ∈ posted (read_loop mode idx off st iters).effects,
        ∃ x ∈ iters,
          out.pts = x.pkt.pts + (read_loop mode idx off st iters).state.pts_correction + off := by
  intro iters
  induction iters with
  | nil =>
    intro st out hout
    simp [read_loop, posted] at hout
  | cons it rest ih =>
    intro st out hout
    by_cases hc : st.pts_correction = AV_NOPTS_VALUE
    · rw [read_loop_cons] at hout ⊢
      rcases read_iteration_cases mode idx off st it with
        ⟨hp, _, _, _⟩ | ⟨q, hq, _, _, hcorr, _, hp, _⟩
      · cases hx : (read_iteration mode idx off st it).exit with
        | some ret =>
          rw [hx] at hout
          simp only [hp] at hout
          simp at hout
        | none =>
          rw [hx] at hout
          simp only [posted_append, hp, List.nil_append] at hout ⊢
          obtain ⟨x, hx1, hx2⟩ := ih _ out hout
          exact ⟨x, List.mem_cons_of_mem _ hx1, hx2⟩
      · obtain ⟨hq1, _, _, _⟩ := repair_duration_fields _ _ hq
        have hne : (read_iteration mode idx off st it).state.pts_correction ≠ AV_NOPTS_VALUE := by
          rw [hcorr]; exact next_correction_ne st it.pkt
        cases hx : (read_iteration mode idx off st it).exit with
        | some ret =>
          rw [hx] at hout
          simp only [hp, List.mem_singleton] at hout ⊢
          subst hout
          exact ⟨it, List.mem_cons_self _ _, by simp only [shift_pts, hq1, hcorr]⟩
        | none =>
          rw [hx] at hout
          simp only [posted_append, hp] at hout ⊢
          rw [pts_correction_stays mode idx off rest _ hne, hcorr]
          rcases List.mem_append.mp hout with h | h
          · simp only [List.mem_singleton] at h
            subst h
            exact ⟨it, List.mem_cons_self _ _, by simp only [shift_pts, hq1]⟩
          · obtain ⟨x, hx1, hx2, _⟩ := posted_shifted_of_set mode idx off rest _ hne out h
            rw [hcorr] at hx2
            exact ⟨x, List.mem_cons_of_mem _ hx1, hx2⟩
    · rw [pts_correction_stays mode idx off (it :: rest) st hc]
      obtain ⟨x, hx1, hx2, _⟩ := posted_shifted_of_set mode idx off (it :: rest) st hc out hout
      exact ⟨x, hx1, hx2⟩

end Demuxer

set_option maxRecDepth 100000 in
/-- C16, counterexample.  Scenario S6 as stated: at 24 kHz (480-sample frames),
600 samples fed to a fresh encoder followed by `FLUSH_OPUS_ENCODER`.  The first
480 samples fill a frame that is encoded and posted at once with pts 0, and the
flush posts the zero-padded rest with pts 960: two packets, not one, have been
posted when the flush is done. -/
theorem scenario_S6_two_packets_before_flush_ends :
    (Encoder.posted
      (Encoder.ThreadMain Encoder.params_24k Encoder.codec_3 (fun _ => 0) 0 0
        [Encoder.silence 600, Encoder.receive Encoder.Message.FLUSH_OPUS_ENCODER]).effects).map
      (fun pkt => pkt.pts) = [0, 960] ∧
    (Encoder.posted
      (Encoder.ThreadMain Encoder.params_24k Encoder.codec_3 (fun _ => 0) 0 0
        [Encoder.silence 600]).effects).map (fun pkt => pkt.pts) = [0] := by
  refine ⟨by decide, by decide⟩

/-- C16, amended.  Scenario S6 as the code runs it: at 24 kHz (480-sample
frames), 600 samples of value 1 fed to a fresh encoder make it encode the
first 480 and post a packet with pts 0 at once; `FLUSH_OPUS_ENCODER` then pads
the remaining 120 samples with zeros to a frame, posts it as a second packet
with pts 960 and resets the pts to 0; 480 further samples are posted as a third
packet, whose pts is 0.  Every packet has `dts = pts` and duration 960. -/
theorem scenario_S6_trace :
    (Encoder.ThreadMain Encoder.params_24k Encoder.codec_3 (fun _ => 0) 0 0
      [Encoder.ones 600]).effects =
      [Encoder.Effect.opus_encode (List.replicate 960 1) 480 3,
        Encoder.Effect.post_packet
          { data := some [0xF8, 0xFF, 0xFE], pts := 0, dts := 0, duration := 960,
            stream_index := 0 } 0 0] ∧
    (Encoder.ThreadMain Encoder.params_24k Encoder.codec_3 (fun _ => 0) 0 0
      [Encoder.ones 600, Encoder.receive Encoder.Message.FLUSH_OPUS_ENCODER]).effects =
      [Encoder.Effect.opus_encode (List.replicate 960 1) 480 3,
        Encoder.Effect.post_packet
          { data := some [0xF8, 0xFF, 0xFE], pts := 0, dts := 0, duration := 960,
            stream_index := 0 } 0 0,
        Encoder.Effect.opus_encode (List.replicate 240 1 ++ List.replicate 720 0) 480 3,
        Encoder.Effect.post_packet
          { data := some [0xF8, 0xFF, 0xFE], pts := 960, dts := 960, duration := 960,
            stream_index := 0 } 0 0] ∧
    (Encoder.ThreadMain Encoder.params_24k Encoder.codec_3 (fun _ => 0) 0 0
      [Encoder.ones 600, Encoder.receive Encoder.Message.FLUSH_OPUS_ENCODER]).state.pts = 0 ∧
    (Encoder.ThreadMain Encoder.params_24k Encoder.codec_3 (fun _ => 0) 0 0
      [Encoder.ones 600, Encoder.receive Encoder.Message.FLUSH_OPUS_ENCODER,
        Encoder.ones 480]).effects =
      [Encoder.Effect.opus_encode (List.replicate 960 1) 480 3,
        Encoder.Effect.post_packet
          { data := some [0xF8, 0xFF, 0xFE], pts := 0, dts := 0, duration := 960,
            stream_index := 0 } 0 0,
        Encoder.Effect.opus_encode (List.replicate 240 1 ++ List.replicate 720 0) 480 3,
        Encoder.Effect.post_packet
          { data := some [0xF8, 0xFF, 0xFE], pts := 960, dts := 960, duration := 960,
            stream_index := 0 } 0 0,
        Encoder.Effect.opus_encode (List.replicate 960 1) 480 3,
        Encoder.Effect.post_packet
          { data := some [0xF8, 0xFF, 0xFE], pts := 0, dts := 0, duration := 960,
            stream_index := 0 } 0 0] := by
  refine ⟨by decide!, by decide!, by decide!, by decide!⟩

/-! ### audio_encode_thread.cc: the numbering of the frames -/

namespace Encoder

/-- The posted packets of a concatenation. -/
theorem enc_posted_append (a b : List Effect) : posted (a ++ b) = posted a ++ posted b := by
  induction a with
  | nil => rfl
  | cons e rest ih =>
    cases e <;> simp [posted, ih]

/-- The encoded frames of a concatenation. -/
theorem enc_encoded_append (a b : List Effect) : encoded (a ++ b) = encoded a ++ encoded b := by
  induction a with
  | nil => rfl
  | cons e rest ih =>
    cases e <;> simp [encoded, ih]
    split <;> simp

/-- The numbering of a concatenation. -/
theorem numbered_from_append (xs ys : List AVPacket) :
    ∀ b : Int, numbered_from b xs → numbered_from (b + 960 * xs.length) ys →
      numbered_from b (xs ++ ys) := by
  induction xs with
  | nil =>
    intro b _ h
    simpa using h
  | cons x rest ih =>
    intro b hx hy
    obtain ⟨h1, h2, h3, h4⟩ := hx
    refine ⟨h1, h2, h3, ?_⟩
    apply ih (b + 960) h4
    have : b + 960 + 960 * (rest.length : Int) = b + 960 * ((x :: rest).length : Int) := by
      simp only [List.length_cons]
      push_cast
      ring
    rw [this]
    exact hy

/-- In a numbered list the packet at index `k` has `pts = dts = b + 960 * k`
and duration 960. -/
theorem numbered_from_index (xs : List AVPacket) :
    ∀ (b : Int) (k : Nat) (pkt : AVPacket), numbered_from b xs → xs[k]? = some pkt →
      pkt.pts = b + 960 * k ∧ pkt.dts = b + 960 * k ∧ pkt.duration = 960 := by
  induction xs with
  | nil =>
    intro b k pkt _ h
    simp at h
  | cons x rest ih =>
    intro b k pkt hx h
    obtain ⟨h1, h2, h3, h4⟩ := hx
    cases k with
    | zero =>
      simp only [List.getElem?_cons_zero, Option.some.injEq] at h
      subst h
      simp [h1, h2, h3]
    | succ k =>
      simp only [List.getElem?_cons_succ] at h
      obtain ⟨i1, i2, i3⟩ := ih (b + 960) k pkt h4 h
      refine ⟨?_, ?_, i3⟩
      · rw [i1]; push_cast; ring
      · rw [i2]; push_cast; ring

/-- The size of the packet of an encoded frame is the length `opus_encode`
returned. -/
theorem frame_packet_size (r : EncodeResult) (pts : Int) (h : 0 ≤ r.ret) :
    (frame_packet r pts).size = r.ret := by
  simp only [frame_packet, AVPacket.size, packet_bytes, List.length_map, List.length_range]
  exact Int.toNat_of_nonneg h

/-- The loop over a PCM buffer numbers the packets it posts from the current
pts, leaves the pts after the last of them, and posts every frame it
encodes. -/
theorem pcm_loop_numbered (p : Params) (codec : OpusEncoder) (post : PostResults)
    (hcodec : ∀ (n : Nat) (frame : List Int) (fs : Int), (codec n frame fs).ret ≠ 0) :
    ∀ (fuel : Nat) (s : State) (input : List Int) (remaining : Int),
      numbered_from s.pts (posted (pcm_loop p codec post fuel s input remaining).effects) ∧
      (pcm_loop p codec post fuel s input remaining).state.pts =
        s.pts + 960 * (posted (pcm_loop p codec post fuel s input remaining).effects).length ∧
      (posted (pcm_loop p codec post fuel s input remaining).effects).map AVPacket.size =
        encoded (pcm_loop p codec post fuel s input remaining).effects := by
  intro fuel
  induction fuel with
  | zero =>
    intro s input remaining
    simp [pcm_loop, posted, encoded, numbered_from]
  | succ fuel ih =>
    intro s input remaining
    rw [pcm_loop]
    split
    · simp [posted, encoded, numbered_from]
    · simp only []
      split
      · split
        · rename_i hr
          obtain ⟨i1, i2, i3⟩ := ih (after_error (copy_in p s input remaining))
            (input.drop (to_copy p s remaining).toNat) (remaining - to_copy p s remaining)
          simp only [posted, encoded]
          rw [if_neg (by omega)]
          exact ⟨i1, i2, i3⟩
        · rename_i hr
          obtain ⟨i1, i2, i3⟩ := ih (after_frame p (copy_in p s input remaining))
            (input.drop (to_copy p s remaining).toNat) (remaining - to_copy p s remaining)
          have h0 := hcodec (copy_in p s input remaining).calls
            (stereo_frame p.frame_size_input (copy_in p s input remaining).mono_accum)
            p.frame_size_input
          have hpos : (codec (copy_in p s input remaining).calls
              (stereo_frame p.frame_size_input (copy_in p s input remaining).mono_accum)
              p.frame_size_input).ret > 0 := by omega
          have hlog : ∀ (v : Int) (tail : List Effect),
              posted ((if v < 0 then [Effect.log_post_failed v] else []) ++ tail) =
                posted tail ∧
              encoded ((if v < 0 then [Effect.log_post_failed v] else []) ++ tail) =
                encoded tail := by
            intro v tail
            split <;> simp [posted, encoded]
          simp only [posted, encoded, (hlog _ _).1, (hlog _ _).2, if_pos hpos, List.map_cons,
            List.length_cons, numbered_from]
          refine ⟨⟨rfl, rfl, rfl, i1⟩, ?_, ?_⟩
          · rw [i2]
            simp only [after_frame, copy_in, FRAME_SIZE_OUTPUT]
            push_cast
            ring
          · rw [i3, frame_packet_size _ _ (le_of_lt hpos)]
      · exact ih (copy_in p s input remaining) _ _

end Encoder

namespace Encoder

/-- The flush posts at most one packet, with the current pts, and posts the
frame when it encodes one. -/
theorem flush_numbered (p : Params) (codec : OpusEncoder) (post : PostResults) (s : State) :
    numbered_from s.pts (posted (flush p codec post s).2) ∧
    (posted (flush p codec post s).2).map AVPacket.size = encoded (flush p codec post s).2 ∧
    (flush p codec post s).1.pts = 0 := by
  unfold flush
  split
  · simp only []
    split
    · rename_i hpos
      have hlog : ∀ v : Int,
          posted (if v < 0 then [Effect.log_flush_post_failed v] else []) = [] ∧
          encoded (if v < 0 then [Effect.log_flush_post_failed v] else []) = [] := by
        intro v
        split <;> simp [posted, encoded]
      simp only [posted, encoded, (hlog _).1, (hlog _).2, if_pos hpos, List.map_cons,
        List.map_nil, numbered_from]
      refine ⟨⟨rfl, rfl, rfl, trivial⟩, ?_, trivial⟩
      rw [frame_packet_size _ _ (le_of_lt hpos)]
    · rename_i hneg
      simp only [posted, encoded, if_neg hneg, List.map_nil, numbered_from]
      exact ⟨trivial, trivial, trivial⟩
  · simp [posted, encoded, numbered_from]

/-- A pass that does not handle a flush numbers the packets it posts from the
current pts and leaves the pts after the last of them. -/
theorem iteration_numbered (p : Params) (codec : OpusEncoder) (post : PostResults)
    (hcodec : ∀ (n : Nat) (frame : List Int) (fs : Int), (codec n frame fs).ret ≠ 0)
    (s : State) (it : Iter) (hmsg : it.msg ≠ Message.FLUSH_OPUS_ENCODER) :
    numbered_from s.pts (posted (iteration p codec post s it).effects) ∧
    (iteration p codec post s it).state.pts =
      s.pts + 960 * (posted (iteration p codec post s it).effects).length ∧
    (posted (iteration p codec post s it).effects).map AVPacket.size =
      encoded (iteration p codec post s it).effects := by
  have hdrain : ∀ tail : List Effect,
      posted ((if p.drain_async then [Effect.drain_async_send] else []) ++ tail) = posted tail ∧
      encoded ((if p.drain_async then [Effect.drain_async_send] else []) ++ tail) =
        encoded tail := by
    intro tail
    split <;> simp [posted, encoded]
  unfold iteration
  split
  · split <;> simp [posted, encoded, numbered_from]
  · simp only []
    split
    · simp only [(hdrain _).1, (hdrain _).2]
      exact pcm_loop_numbered p codec post hcodec _ _ _ _
    · rename_i h
      exact absurd h hmsg
    all_goals
      first
      | (simp only [(hdrain _).1, (hdrain _).2]
         simp [posted, encoded, numbered_from]
         done)
      | (cases p.drain_async <;> simp [posted, encoded, numbered_from])

/-- Every pass numbers the packets it posts from the current pts. -/
theorem iteration_numbered_any (p : Params) (codec : OpusEncoder) (post : PostResults)
    (hcodec : ∀ (n : Nat) (frame : List Int) (fs : Int), (codec n frame fs).ret ≠ 0)
    (s : State) (it : Iter) :
    numbered_from s.pts (posted (iteration p codec post s it).effects) ∧
    (posted (iteration p codec post s it).effects).map AVPacket.size =
      encoded (iteration p codec post s it).effects := by
  by_cases hmsg : it.msg = Message.FLUSH_OPUS_ENCODER
  · have hdrain : ∀ tail : List Effect,
        posted ((if p.drain_async then [Effect.drain_async_send] else []) ++ tail) =
          posted tail ∧
        encoded ((if p.drain_async then [Effect.drain_async_send] else []) ++ tail) =
          encoded tail := by
      intro tail
      split <;> simp [posted, encoded]
    unfold iteration
    split
    · split <;> simp [posted, encoded, numbered_from]
    · simp only [hmsg, (hdrain _).1, (hdrain _).2]
      exact ⟨(flush_numbered p codec post s).1, (flush_numbered p codec post s).2.1⟩
  · exact ⟨(iteration_numbered p codec post hcodec s it hmsg).1,
      (iteration_numbered p codec post hcodec s it hmsg).2.2⟩

/-- The loop step of `main_loop`, for the posted packets and the encoded
frames. -/
theorem main_loop_cons_effects (p : Params) (codec : OpusEncoder) (post : PostResults)
    (s : State) (it : Iter) (rest : List Iter) :
    (main_loop p codec post s (it :: rest)).effects = (iteration p codec post s it).effects ∨
    (main_loop p codec post s (it :: rest)).effects =
      (iteration p codec post s it).effects ++
        (main_loop p codec post (iteration p codec post s it).state rest).effects := by
  rw [main_loop]
  simp only []
  split
  · exact Or.inl rfl
  · split
    · exact Or.inl rfl
    · exact Or.inr rfl

/-- A run in which no pass before the last handles a flush numbers the packets
it posts from the pts it starts with, and posts every frame it encodes. -/
theorem main_loop_numbered (p : Params) (codec : OpusEncoder) (post : PostResults)
    (hcodec : ∀ (n : Nat) (frame : List Int) (fs : Int), (codec n frame fs).ret ≠ 0)
    (iters : List Iter) :
    ∀ s : State, (∀ it ∈ iters.dropLast, it.msg ≠ Message.FLUSH_OPUS_ENCODER) →
      numbered_from s.pts (posted (main_loop p codec post s iters).effects) ∧
      (posted (main_loop p codec post s iters).effects).map AVPacket.size =
        encoded (main_loop p codec post s iters).effects := by
  induction iters with
  | nil =>
    intro s _
    simp [main_loop, posted, encoded, numbered_from]
  | cons it rest ih =>
    intro s hseg
    rcases main_loop_cons_effects p codec post s it rest with h | h
    · rw [h]
      exact iteration_numbered_any p codec post hcodec s it
    · cases rest with
      | nil =>
        rw [h]
        simp only [main_loop, List.append_nil]
        exact iteration_numbered_any p codec post hcodec s it
      | cons it2 rest2 =>
        have hit : it.msg ≠ Message.FLUSH_OPUS_ENCODER :=
          hseg it (by simp [List.dropLast])
        have hrest : ∀ x ∈ (it2 :: rest2).dropLast, x.msg ≠ Message.FLUSH_OPUS_ENCODER := by
          intro x hx
          exact hseg x (by simp only [List.dropLast_cons₂]; exact List.mem_cons_of_mem _ hx)
        obtain ⟨a1, a2, a3⟩ := iteration_numbered p codec post hcodec s it hit
        obtain ⟨b1, b2⟩ := ih (iteration p codec post s it).state hrest
        rw [h, enc_posted_append, enc_encoded_append, List.map_append, a3, b2]
        refine ⟨numbered_from_append _ _ _ a1 ?_, rfl⟩
        rw [← a2]
        exact b1

end Encoder

/-- C15.  For every input sample rate and every sequence of messages in which
no message before the last is a flush, processed from a state whose pts is 0
(the initial state, or the state a `FLUSH_OPUS_ENCODER` leaves), with an
encoder that returns a negative error or a positive length: the `k`-th packet
the encoder posts (`k` counted from 0) has `pts = dts = 960 * k` and duration
960, and the posted packets are exactly the frames it encoded, in order (the
packet sizes are the lengths `opus_encode` returned); this includes the
zero-padded frame of a closing flush.  The pts is 0 at the start and after
every flush. -/
theorem encoder_frames_numbered (p : Encoder.Params) (codec : Encoder.OpusEncoder)
    (post : Encoder.PostResults) (s : Encoder.State) (iters : List Encoder.Iter) (k : Nat)
    (pkt : AVPacket) (hpts : s.pts = 0)
    (hseg : ∀ it ∈ iters.dropLast, it.msg ≠ Encoder.Message.FLUSH_OPUS_ENCODER)
    (hcodec : ∀ (n : Nat) (frame : List Int) (fs : Int), (codec n frame fs).ret ≠ 0)
    (hk : (Encoder.posted (Encoder.main_loop p codec post s iters).effects)[k]? = some pkt) :
    (pkt.pts = 960 * k ∧ pkt.dts = 960 * k ∧ pkt.duration = 960) ∧
    (Encoder.posted (Encoder.main_loop p codec post s iters).effects).map AVPacket.size =
      Encoder.encoded (Encoder.main_loop p codec post s iters).effects ∧
    Encoder.State.init.pts = 0 ∧
    (∀ s2 : Encoder.State, (Encoder.flush p codec post s2).1.pts = 0) ∧
    Encoder.ThreadMain p codec post 0 0 iters =
      Encoder.main_loop p codec post Encoder.State.init iters := by
  obtain ⟨h1, h2⟩ := Encoder.main_loop_numbered p codec post hcodec iters s hseg
  have hi := Encoder.numbered_from_index _ s.pts k pkt h1 hk
  rw [hpts] at hi
  refine ⟨?_, h2, rfl, fun s2 => (Encoder.flush_numbered p codec post s2).2.2, ?_⟩
  · simpa using hi
  · simp [Encoder.ThreadMain]

/-- Witness of C15: at 24 kHz, 600 samples followed by a flush; the packet at
index 1 (the padded frame) has pts 960, and the two posted packets are the two
encoded frames. -/
theorem encoder_frames_numbered_witness :
    (Encoder.posted (Encoder.main_loop Encoder.params_24k Encoder.codec_3 (fun _ => 0)
      Encoder.State.init
      [Encoder.silence 600, Encoder.receive Encoder.Message.FLUSH_OPUS_ENCODER]).effects).map
      AVPacket.size =
    Encoder.encoded (Encoder.main_loop Encoder.params_24k Encoder.codec_3 (fun _ => 0)
      Encoder.State.init
      [Encoder.silence 600, Encoder.receive Encoder.Message.FLUSH_OPUS_ENCODER]).effects :=
  (encoder_frames_numbered Encoder.params_24k Encoder.codec_3 (fun _ => 0) Encoder.State.init
    [Encoder.silence 600, Encoder.receive Encoder.Message.FLUSH_OPUS_ENCODER] 1
    { data := some [0xF8, 0xFF, 0xFE], pts := 960, dts := 960, duration := 960,
      stream_index := 0 }
    rfl (by decide!)
    (by
      intro n frame fs
      simp [Encoder.codec_3])
    (by decide!)).2.1

/-! ### Exit status of the threads -/

/-- The producer loop leaves with the result of the first pass after passes
that stayed in the loop. -/
theorem producer_exit_snoc (stream_start : Int) (it : Producer.Iter) (pre : List Producer.Iter) :
    ∀ s : Producer.State, (Producer.ThreadMain stream_start s pre).exit = none →
      (Producer.ThreadMain stream_start s (pre ++ [it])).exit =
        (Producer.iteration stream_start (Producer.ThreadMain stream_start s pre).state it).exit := by
  induction pre with
  | nil =>
    intro s _
    simp only [List.nil_append, Producer.ThreadMain]
    cases (Producer.iteration stream_start s it).exit <;> rfl
  | cons x rest ih =>
    intro s h
    simp only [List.cons_append, Producer.ThreadMain] at h ⊢
    cases hx : (Producer.iteration stream_start s x).exit with
    | some v =>
      rw [hx] at h
      simp at h
    | none =>
      rw [hx] at h
      simp only at h ⊢
      exact ih _ h

/-- The decoder loop leaves with the result of the first pass after passes
that stayed in the loop. -/
theorem decoder_exit_snoc (p : Decoder.Params) (codec : Decoder.OpusCodec) (it : Decoder.Iter)
    (pre : List Decoder.Iter) :
    ∀ s : Decoder.State, (Decoder.ThreadMain p codec s pre).exit = none →
      (Decoder.ThreadMain p codec s (pre ++ [it])).exit =
        (Decoder.iteration p codec (Decoder.ThreadMain p codec s pre).state it).exit := by
  induction pre with
  | nil =>
    intro s _
    simp only [List.nil_append, Decoder.ThreadMain]
    cases (Decoder.iteration p codec s it).exit <;> rfl
  | cons x rest ih =>
    intro s h
    simp only [List.cons_append, Decoder.ThreadMain] at h ⊢
    cases hx : (Decoder.iteration p codec s x).exit with
    | some v =>
      rw [hx] at h
      simp at h
    | none =>
      rw [hx] at h
      simp only at h ⊢
      exact ih _ h

/-- The encoder loop leaves with the result of the first pass after passes
that stayed in the loop and did not get stuck. -/
theorem encoder_exit_snoc (p : Encoder.Params) (codec : Encoder.OpusEncoder)
    (post : Encoder.PostResults) (it : Encoder.Iter) (pre : List Encoder.Iter) :
    ∀ s : Encoder.State, (Encoder.main_loop p codec post s pre).exit = none →
      (Encoder.main_loop p codec post s pre).stuck = false →
      (Encoder.main_loop p codec post s (pre ++ [it])).exit =
        (Encoder.iteration p codec post (Encoder.main_loop p codec post s pre).state it).exit := by
  induction pre with
  | nil =>
    intro s _ _
    simp only [List.nil_append, Encoder.main_loop]
    cases hx : (Encoder.iteration p codec post s it).exit with
    | some v => rfl
    | none =>
      simp only
      split
      · exact hx
      · rfl
  | cons x rest ih =>
    intro s h hs
    simp only [List.cons_append, Encoder.main_loop] at h hs ⊢
    cases hx : (Encoder.iteration p codec post s x).exit with
    | some v =>
      rw [hx] at h
      simp at h
    | none =>
      rw [hx] at h hs
      simp only at h hs ⊢
      by_cases hst : (Encoder.iteration p codec post s x).stuck = true
      · rw [if_pos hst] at hs
        rw [hst] at hs
        exact absurd hs (by simp)
      · simp only [if_neg hst] at h hs ⊢
        exact ih _ h hs

namespace Demuxer

/-- The return value of `readAndWritePacket` is the value the loop was left
with. -/
theorem readAndWritePacket_ret (mode : DemuxerThreadMode) (idx off : Int)
    (iters : List ReadIter) :
    (readAndWritePacket mode idx off iters).ret =
      (read_loop mode idx off ReadState.init iters).exit := by
  simp only [readAndWritePacket]
  cases (read_loop mode idx off ReadState.init iters).exit with
  | none => rfl
  | some v =>
    simp only
    split <;> rfl

/-- A pass that finds `shutdown` set after passes that found no flag set is the
pass whose flags `ThreadMain` sees. -/
theorem flags_of_leaving_pass (it : ReadIter) (hit : it.shutdown = true) (pre : List ReadIter)
    (hpre : ∀ x ∈ pre, x.shutdown = false ∧ x.should_reset = false) :
    shutdown_seen (pre ++ [it]) = true ∧ reset_pending (pre ++ [it]) = it.should_reset := by
  induction pre with
  | nil => simp [shutdown_seen, reset_pending, hit]
  | cons x rest ih =>
    have hx := hpre x (List.mem_cons_self _ _)
    have hr := ih (fun y hy => hpre y (List.mem_cons_of_mem _ hy))
    simp only [List.cons_append, shutdown_seen, reset_pending, hx.1, hx.2, Bool.or_self]
    simpa using hr

/-- The status `cleanup` returns for `AVERROR_EOF` and for 0 is 0. -/
theorem cleanup_status (mode : DemuxerThreadMode) (input_open : Bool) :
    (cleanup mode input_open AVERROR_EOF).2 = 0 ∧ (cleanup mode input_open 0).2 = 0 := by
  simp [cleanup]

end Demuxer

/-- C19, counterexample.  An RTP demuxer whose read fails with -5 leaves its
thread with status -5 after closing the receive side of the output queue; the
decoder then ends because its input queue returned `AVERROR_EOF`, and its exit
status is the -5 of the demuxer thread, not 0. -/
theorem decoder_status_after_eof_not_zero :
    Demuxer.ThreadMain DemuxerThreadMode.DEMUXER_MODE_RTP { ret := 0, stream_idx := 0 } 0
      [{ shutdown := false, reads := [{ read_of (opus_packet 0) 0 with ret := -5 }],
         reopen := { ret := 0, stream_idx := 0 } }] =
      { effects := [Demuxer.ThreadEffect.open_input 0,
          Demuxer.ThreadEffect.post_codec_parameters 0,
          Demuxer.ThreadEffect.read (Demuxer.Effect.log_read_fail (-5)),
          Demuxer.ThreadEffect.close_input, Demuxer.ThreadEffect.set_err_recv_eof],
        ret := some (-5), pts_offset := 0 } ∧
    Decoder.run Decoder.params_24k Decoder.codec_480
      [Decoder.receive ThreadMessage.POST_CODEC_PARAMETERS,
        { recv_ret := AVERROR_EOF, msg := ThreadMessage.TICK, opus_err := 0 }] (-5) =
      some (-5) := by
  refine ⟨by decide, by decide⟩

/-- C19, amended.  Producer and encoder: a run that ends because the input
queue returned `AVERROR_EOF` ends with status 0.  Decoder: a run that ends
because the input queue returned `AVERROR_EOF` ends with the exit status of the
demuxer thread when that is not 0, and with 0 otherwise.  Demuxer (RTP and
file): the thread returns 0 when the initial open returns `AVERROR_EOF`, when a
call of `readAndWritePacket` returns `AVERROR_EOF`, when a re-open returns
`AVERROR_EOF`, and when `av_read_frame` returns `AVERROR_EXIT` (or anything
else) with `shutdown` set and no reset pending, after passes that found no flag
set and stayed in the loop. -/
theorem expected_terminations
    (stream_start : Int) (ps : Producer.State) (ppre : List Producer.Iter) (pit : Producer.Iter)
    (ep : Encoder.Params) (ecodec : Encoder.OpusEncoder) (epost : Encoder.PostResults)
    (es : Encoder.State) (epre : List Encoder.Iter) (eit : Encoder.Iter)
    (dp : Decoder.Params) (dcodec : Decoder.OpusCodec) (dpre : List Decoder.Iter)
    (dit : Decoder.Iter) (demux_ret : Int)
    (mode : DemuxerThreadMode) (first : Demuxer.OpenResult) (post_ret ret0 idx off : Int)
    (turns rest : List Demuxer.Turn) (t : Demuxer.Turn) (rpre : List Demuxer.ReadIter)
    (rit : Demuxer.ReadIter) :
    ((Producer.ThreadMain stream_start ps ppre).exit = none → pit.recv_ret = AVERROR_EOF →
      (Producer.ThreadMain stream_start ps (ppre ++ [pit])).exit = some 0) ∧
    ((Encoder.main_loop ep ecodec epost es epre).exit = none →
      (Encoder.main_loop ep ecodec epost es epre).stuck = false →
      eit.recv_ret = AVERROR_EOF →
      (Encoder.main_loop ep ecodec epost es (epre ++ [eit])).exit = some 0) ∧
    ((Decoder.ThreadMain dp dcodec (Decoder.State.init dp) dpre).exit = none →
      dit.recv_ret = AVERROR_EOF →
      Decoder.run dp dcodec (dpre ++ [dit]) demux_ret =
        some (if demux_ret ≠ 0 then demux_ret else 0)) ∧
    (first.ret = AVERROR_EOF → (Demuxer.ThreadMain mode first post_ret turns).ret = some 0) ∧
    (t.shutdown = false →
      (Demuxer.readAndWritePacket mode idx off t.reads).ret = some AVERROR_EOF →
      (Demuxer.main_loop mode ret0 false idx off (t :: rest)).ret = some 0) ∧
    (t.shutdown = false → t.reads = rpre ++ [rit] →
      (∀ x ∈ rpre, x.shutdown = false ∧ x.should_reset = false) →
      (Demuxer.read_loop mode idx off Demuxer.ReadState.init rpre).exit = none →
      rit.ret = AVERROR_EXIT → rit.shutdown = true → rit.should_reset = false →
      (Demuxer.main_loop mode ret0 false idx off (t :: rest)).ret = some 0) ∧
    (t.shutdown = false → (Demuxer.readAndWritePacket mode idx off t.reads).ret = some 0 →
      Demuxer.reset_pending t.reads = true → t.reopen.ret = AVERROR_EOF →
      (Demuxer.main_loop mode ret0 false idx off (t :: rest)).ret = some 0) := by
  refine ⟨?_, ?_, ?_, ?_, ?_, ?_, ?_⟩
  · intro h he
    rw [producer_exit_snoc stream_start pit ppre ps h]
    simp [Producer.iteration, he, AVERROR_EOF]
  · intro h hs he
    rw [encoder_exit_snoc ep ecodec epost eit epre es h hs]
    simp [Encoder.iteration, he, AVERROR_EOF]
  · intro h he
    unfold Decoder.run
    rw [decoder_exit_snoc dp dcodec dit dpre _ h]
    simp [Decoder.iteration, he, AVERROR_EOF, Decoder.thread_status]
  · intro h
    unfold Demuxer.ThreadMain
    have hne : first.ret ≠ 0 := by rw [h]; decide
    rw [if_pos hne, h]
    simp [(Demuxer.cleanup_status mode false).1]
  · intro hsd hret
    have hneg : AVERROR_EOF < 0 := by decide
    simp only [Demuxer.main_loop, hsd, hret, if_pos hneg, (Demuxer.cleanup_status mode true).1]
    simp
  · intro hsd hreads hpre hrun hexit hshut hreset
    have hflags := Demuxer.flags_of_leaving_pass rit hshut rpre hpre
    have hret : (Demuxer.readAndWritePacket mode idx off t.reads).ret = some 0 := by
      rw [Demuxer.readAndWritePacket_ret, hreads,
        Demuxer.read_loop_append mode idx off [rit] rpre _ hrun]
      simp [Demuxer.read_loop, Demuxer.read_iteration, hshut]
    rw [hreads] at hret
    simp only [Demuxer.main_loop, hsd, hreads, hret, hflags.1, hflags.2, hreset,
      (Demuxer.cleanup_status mode true).2]
    simp
  · intro hsd hret hreset hopen
    have hne : t.reopen.ret ≠ 0 := by rw [hopen]; decide
    simp only [Demuxer.main_loop, hsd, hret, hreset, hopen,
      (Demuxer.cleanup_status mode false).1]
    simp [AVERROR_EOF]

/-- Witness of C19 (amended): an RTP demuxer reads a packet, then
`av_read_frame` is interrupted with `AVERROR_EXIT` while `shutdown` is set; the
thread returns 0. -/
theorem expected_terminations_witness :
    (Demuxer.main_loop DemuxerThreadMode.DEMUXER_MODE_RTP 0 false 0 0
      [{ shutdown := false,
         reads := [read_of (opus_packet 0) 0] ++ [Demuxer.shutdown_pass AVERROR_EXIT],
         reopen := { ret := 0, stream_idx := 0 } }]).ret = some 0 :=
  (expected_terminations 0 Producer.State.init [] (Producer.packet_at (Producer.opus_frame 0 960) 0)
    Encoder.params_24k Encoder.codec_3 (fun _ => 0) Encoder.State.init [] (Encoder.silence 1)
    Decoder.params_24k Decoder.codec_480 [] (Decoder.receive ThreadMessage.TICK) 0
    DemuxerThreadMode.DEMUXER_MODE_RTP { ret := 0, stream_idx := 0 } 0 0 0 0 [] []
    { shutdown := false,
      reads := [read_of (opus_packet 0) 0] ++ [Demuxer.shutdown_pass AVERROR_EXIT],
      reopen := { ret := 0, stream_idx := 0 } }
    [read_of (opus_packet 0) 0] (Demuxer.shutdown_pass AVERROR_EXIT)).2.2.2.2.2.1
    rfl rfl (by decide) (by decide) rfl rfl rfl

/-! ### time_util.cc -/

/-- The library call `av_rescale(a, MICROSECONDS, 1LL << 32)` written out. -/
theorem av_rescale_to_us (a : Int) :
    (0 ≤ a → av_rescale a MICROSECONDS 4294967296 = (a * 1000000 + 2147483648) / 4294967296) ∧
    (a < 0 →
      av_rescale a MICROSECONDS 4294967296 =
        -((-a * 1000000 + 2147483648) / 4294967296)) := by
  have hc : ¬ ((4294967296 : Int) ≤ 0 ∨ (1000000 : Int) < 0) := by decide
  have hhalf : Int.tdiv 4294967296 2 = 2147483648 := by decide
  refine ⟨?_, ?_⟩
  · intro h
    have ha : ¬ a < 0 := by omega
    simp only [av_rescale, MICROSECONDS, if_neg hc, if_neg ha, hhalf]
    exact Int.tdiv_eq_ediv (by omega) (by omega)
  · intro h
    simp only [av_rescale, MICROSECONDS, if_neg hc, if_pos h, hhalf]
    rw [Int.tdiv_eq_ediv (by omega) (by omega)]

/-- C21.  For every 64-bit NTP timestamp `n` in 32.32 fixed point,
`ntp_to_realtime n` is the Unix time in microseconds:
`ntp_to_realtime n + 2208988800 * 10^6` is `n * 10^6 / 2^32` rounded to the
nearest integer, in both branches (`n` above and not above `INT64_MAX`).  For
`n` not above `INT64_MAX` and for `n` from `2208988800 * 2^32` on, a quotient
halfway between two integers is rounded up; in between (times before 1970 in
the first branch) it is rounded down.  The three values of the test in the
source hold. -/
theorem ntp_to_realtime_is_unix_time (n : Int) (h0 : 0 ≤ n) (h1 : n < 18446744073709551616) :
    nearest_to_quotient (ntp_to_realtime n + 2208988800 * 1000000) (n * 1000000) ∧
    ((n ≤ INT64_MAX ∨ 2208988800 * 4294967296 ≤ n) →
      ntp_to_realtime n = (n * 1000000 + 2147483648) / 4294967296 - 2208988800 * 1000000) ∧
    (INT64_MAX < n → n < 2208988800 * 4294967296 →
      ntp_to_realtime n =
        -(((2208988800 * 4294967296 - n) * 1000000 + 2147483648) / 4294967296)) ∧
    ntp_to_realtime 16926700461382759874 = 1732065763360000 ∧
    ntp_to_realtime 34918880717524816 = -2200858614526866 ∧
    ntp_to_realtime 5278618062092763 = -2207759775959000 := by
  have hval : (n ≤ INT64_MAX →
        ntp_to_realtime n = (n * 1000000 + 2147483648) / 4294967296 - 2208988800 * 1000000) ∧
      (2208988800 * 4294967296 ≤ n →
        ntp_to_realtime n = (n * 1000000 + 2147483648) / 4294967296 - 2208988800 * 1000000) ∧
      (INT64_MAX < n → n < 2208988800 * 4294967296 →
        ntp_to_realtime n =
          -(((2208988800 * 4294967296 - n) * 1000000 + 2147483648) / 4294967296)) := by
    refine ⟨?_, ?_, ?_⟩
    · intro hle
      have hn : ¬ n > INT64_MAX := by omega
      simp only [INT64_MAX] at hle
      simp only [ntp_to_realtime, if_neg hn, (av_rescale_to_us n).1 h0, toInt64, NTP_OFFSET_US,
        NTP_OFFSET]
      omega
    · intro hge
      have hn : n > INT64_MAX := by simp only [INT64_MAX]; omega
      have harg : toInt64 ((n - NTP_OFFSET * 4294967296) % 18446744073709551616) =
          n - 9487534653230284800 := by
        simp only [toInt64, NTP_OFFSET]
        omega
      simp only [ntp_to_realtime, if_pos hn, harg,
        (av_rescale_to_us (n - 9487534653230284800)).1 (by omega)]
      omega
    · intro hgt hlt
      have hgt2 := hgt
      simp only [INT64_MAX] at hgt2
      have harg : toInt64 ((n - NTP_OFFSET * 4294967296) % 18446744073709551616) =
          n - 9487534653230284800 := by
        simp only [toInt64, NTP_OFFSET]
        omega
      simp only [ntp_to_realtime, if_pos hgt, harg,
        (av_rescale_to_us (n - 9487534653230284800)).2 (by omega)]
      have : -(n - 9487534653230284800) * 1000000 =
          (2208988800 * 4294967296 - n) * 1000000 := by ring
      rw [this]
  refine ⟨?_, ?_, ?_, by decide, by decide, by decide⟩
  · unfold nearest_to_quotient
    by_cases hle : n ≤ INT64_MAX
    · rw [hval.1 hle]
      omega
    · by_cases hge : 2208988800 * 4294967296 ≤ n
      · rw [hval.2.1 hge]
        omega
      · rw [hval.2.2 (by omega) (by omega)]
        omega
  · intro h
    rcases h with h | h
    · exact hval.1 h
    · exact hval.2.1 h
  · exact hval.2.2

/-- Witness of C21: the timestamp of the first test in the source, which is
above `INT64_MAX`. -/
theorem ntp_to_realtime_is_unix_time_witness :
    nearest_to_quotient (ntp_to_realtime 16926700461382759874 + 2208988800 * 1000000)
      (16926700461382759874 * 1000000) :=
  (ntp_to_realtime_is_unix_time 16926700461382759874 (by decide) (by decide)).1

/-! ### producer_thread.cc: the rebase and the regression check -/

namespace Producer

/-- The written packets of a concatenation. -/
theorem producer_written_append (a b : List Effect) :
    written (a ++ b) = written a ++ written b := by
  induction a with
  | nil => rfl
  | cons e rest ih => cases e <;> simp [written, ih]

/-- Nothing is written before the call of `av_write_frame`. -/
theorem handle_packet_written (ss : Int) (s : State) (pkt : AVPacket) (now : Int) :
    written (handle_packet ss s pkt now).effects = [] := by
  unfold handle_packet rebase_log
  simp only []
  split_ifs <;> simp [written, producer_written_append]

/-- The drop is logged exactly when the regression check drops the packet. -/
theorem handle_packet_drop_log (ss : Int) (s : State) (pkt : AVPacket) (now : Int) :
    ((handle_packet ss s pkt now).dropped = false →
      ∀ a b, Effect.warn_drop a b ∉ (handle_packet ss s pkt now).effects) ∧
    ((handle_packet ss s pkt now).dropped = true →
      ∃ a b, Effect.warn_drop a b ∈ (handle_packet ss s pkt now).effects) := by
  unfold handle_packet rebase_log
  simp only []
  split_ifs <;> simp

/-- A pass that receives a packet: the packet is handed to `av_write_frame`
unless the regression check dropped it, and the pass leaves the loop only when
the write fails. -/
theorem iteration_of_packet (ss : Int) (s : State) (it : Iter) (pkt : AVPacket)
    (hrecv : 0 ≤ it.recv_ret) (hmsg : it.msg = ThreadMessage.POST_PACKET pkt) :
    (iteration ss s it).state = (handle_packet ss s pkt it.now).state ∧
    ((handle_packet ss s pkt it.now).dropped = true →
      (iteration ss s it).effects = (handle_packet ss s pkt it.now).effects ∧
      (iteration ss s it).exit = none) ∧
    ((handle_packet ss s pkt it.now).dropped = false →
      written (iteration ss s it).effects = [(handle_packet ss s pkt it.now).pkt] ∧
      (∀ a b, Effect.warn_drop a b ∉ (iteration ss s it).effects) ∧
      ((iteration ss s it).exit = none ↔ 0 ≤ it.write_ret)) := by
  have hn : ¬ it.recv_ret < 0 := by omega
  have hw := handle_packet_written ss s pkt it.now
  have hl := (handle_packet_drop_log ss s pkt it.now).1
  simp only [iteration, if_neg hn, hmsg]
  refine ⟨?_, ?_, ?_⟩
  · split_ifs <;> rfl
  · intro hd
    simp only [hd, if_true, and_self]
  · intro hd
    have hd2 : ¬ (handle_packet ss s pkt it.now).dropped = true := by simp [hd]
    simp only [if_neg hd2]
    by_cases hwr : it.write_ret < 0
    · simp only [if_pos hwr, producer_written_append, hw, written, List.nil_append]
      refine ⟨trivial, ?_, ?_⟩
      · intro a b hmem
        simp only [List.mem_append, List.mem_cons, List.mem_singleton, List.not_mem_nil,
          or_false] at hmem
        rcases hmem with hmem | hmem | hmem
        · exact hl hd a b hmem
        · cases hmem
        · cases hmem
      · constructor
        · intro h; cases h
        · intro h; omega
    · simp only [if_neg hwr, producer_written_append, hw, written, List.nil_append]
      refine ⟨trivial, ?_, ?_⟩
      · intro a b hmem
        simp only [List.mem_append, List.mem_singleton] at hmem
        rcases hmem with hmem | hmem
        · exact hl hd a b hmem
        · cases hmem
      · constructor
        · intro _; omega
        · intro _; trivial

end Producer

/-- C22.  For every packet on which the producer rebases (`rebase_pts`
uninitialised or `P_in <= last_pts`), with `now_pts` the clock in samples: the
new `rebase_pts` is `now_pts` when `next_expected_pts` is unset or not greater
than `now_pts`, and `min(next_expected_pts, now_pts + 4800)` otherwise; the
packet gets pts and dts `P_in + rebase_pts`; `next_expected_pts` is cleared
before the regression check, so the packet is not dropped: no drop is logged,
the pass hands the packet to `av_write_frame`, and `next_expected_pts` is left
at `P_out + duration`. -/
theorem rebase_baseline (stream_start : Int) (s : Producer.State) (it : Producer.Iter)
    (pkt : AVPacket) (hrecv : 0 ≤ it.recv_ret) (hmsg : it.msg = ThreadMessage.POST_PACKET pkt)
    (hreb : s.rebase_pts = AV_NOPTS_VALUE ∨ pkt.pts ≤ s.last_pts) :
    (Producer.iteration stream_start s it).state.rebase_pts =
      (if s.next_expected_pts = AV_NOPTS_VALUE ∨
          s.next_expected_pts ≤ av_rescale OPUS_SAMPLE_RATE (it.now - stream_start) MICROSECONDS
        then av_rescale OPUS_SAMPLE_RATE (it.now - stream_start) MICROSECONDS
        else min s.next_expected_pts
          (av_rescale OPUS_SAMPLE_RATE (it.now - stream_start) MICROSECONDS + 4800)) ∧
    (Producer.handle_packet stream_start s pkt it.now).pkt.pts =
      pkt.pts + (Producer.iteration stream_start s it).state.rebase_pts ∧
    (Producer.handle_packet stream_start s pkt it.now).pkt.dts =
      pkt.dts + (Producer.iteration stream_start s it).state.rebase_pts ∧
    (Producer.handle_packet stream_start s pkt it.now).dropped = false ∧
    (Producer.iteration stream_start s it).state.next_expected_pts =
      (Producer.handle_packet stream_start s pkt it.now).pkt.pts + pkt.duration ∧
    (∀ a b, Producer.Effect.warn_drop a b ∉
      (Producer.iteration stream_start s it).effects) ∧
    Producer.written (Producer.iteration stream_start s it).effects =
      [(Producer.handle_packet stream_start s pkt it.now).pkt] := by
  have hmax : MAX_FUTURE = 4800 := by decide
  obtain ⟨hst, _, hwr⟩ := Producer.iteration_of_packet stream_start s it pkt hrecv hmsg
  have hfacts : (Producer.handle_packet stream_start s pkt it.now).state.rebase_pts =
        Producer.aligned_now_pts s.next_expected_pts
          (av_rescale OPUS_SAMPLE_RATE (it.now - stream_start) MICROSECONDS) ∧
      (Producer.handle_packet stream_start s pkt it.now).pkt.pts =
        pkt.pts + (Producer.handle_packet stream_start s pkt it.now).state.rebase_pts ∧
      (Producer.handle_packet stream_start s pkt it.now).pkt.dts =
        pkt.dts + (Producer.handle_packet stream_start s pkt it.now).state.rebase_pts ∧
      (Producer.handle_packet stream_start s pkt it.now).dropped = false ∧
      (Producer.handle_packet stream_start s pkt it.now).state.next_expected_pts =
        (Producer.handle_packet stream_start s pkt it.now).pkt.pts + pkt.duration := by
    unfold Producer.handle_packet
    simp only [if_pos hreb, ne_eq, not_true_eq_false, false_and, if_false, and_self]
  obtain ⟨f1, f2, f3, f4, f5⟩ := hfacts
  rw [hst]
  refine ⟨?_, f2, f3, f4, f5, (hwr f4).2.1, (hwr f4).1⟩
  rw [f1]
  simp only [Producer.aligned_now_pts, hmax]
  by_cases h1 : s.next_expected_pts = AV_NOPTS_VALUE
  · simp [h1]
  · by_cases h2 : s.next_expected_pts ≤
        av_rescale OPUS_SAMPLE_RATE (it.now - stream_start) MICROSECONDS
    · have hn : ¬ (s.next_expected_pts ≠ AV_NOPTS_VALUE ∧ s.next_expected_pts >
          av_rescale OPUS_SAMPLE_RATE (it.now - stream_start) MICROSECONDS) := by
        intro h; omega
      rw [if_neg hn, if_pos (Or.inr h2)]
    · have hp : s.next_expected_pts ≠ AV_NOPTS_VALUE ∧ s.next_expected_pts >
          av_rescale OPUS_SAMPLE_RATE (it.now - stream_start) MICROSECONDS :=
        ⟨h1, by omega⟩
      have hn : ¬ (s.next_expected_pts = AV_NOPTS_VALUE ∨ s.next_expected_pts ≤
          av_rescale OPUS_SAMPLE_RATE (it.now - stream_start) MICROSECONDS) := by
        intro h; rcases h with h | h
        · exact h1 h
        · exact h2 h
      rw [if_pos hp, if_neg hn]
      split
      · rw [min_eq_right (by omega)]
      · rw [min_eq_left (by omega)]

/-- Witness of C22: after a packet written with pts 6000 (so
`next_expected_pts = 6960`), the packet pts 1000 read at 25000 microseconds
(`now_pts = 1200`) rebases to `min(6960, 1200 + 4800) = 6000`. -/
theorem rebase_baseline_witness :
    (Producer.iteration 0 { rebase_pts := 0, last_pts := 6000, next_expected_pts := 6960 }
      (Producer.packet_at (Producer.opus_frame 1000 960) 25000)).state.rebase_pts =
      (if (6960 : Int) = AV_NOPTS_VALUE ∨
          (6960 : Int) ≤ av_rescale OPUS_SAMPLE_RATE (25000 - 0) MICROSECONDS
        then av_rescale OPUS_SAMPLE_RATE (25000 - 0) MICROSECONDS
        else min 6960 (av_rescale OPUS_SAMPLE_RATE (25000 - 0) MICROSECONDS + 4800)) :=
  (rebase_baseline 0 { rebase_pts := 0, last_pts := 6000, next_expected_pts := 6960 }
    (Producer.packet_at (Producer.opus_frame 1000 960) 25000) (Producer.opus_frame 1000 960)
    (by decide) rfl (Or.inr (by decide))).1

/-- C23.  For every packet the producer processes, with `next_expected_pts`
the value the regression check reads (cleared when the packet rebased, the
stored value otherwise) and `P_out` the rebased pts: the packet is handed to
`av_write_frame` if and only if `next_expected_pts` is unset or
`P_out >= next_expected_pts`.  When it is dropped, the drop is logged, nothing
is written, `next_expected_pts` and `rebase_pts` are unchanged and the pass
stays in the loop; when it is written, `next_expected_pts` becomes
`P_out + duration`. -/
theorem regression_drop (stream_start : Int) (s : Producer.State) (it : Producer.Iter)
    (pkt : AVPacket) (hrecv : 0 ≤ it.recv_ret) (hmsg : it.msg = ThreadMessage.POST_PACKET pkt) :
    (Producer.written (Producer.iteration stream_start s it).effects =
        [(Producer.handle_packet stream_start s pkt it.now).pkt] ↔
      ((if s.rebase_pts = AV_NOPTS_VALUE ∨ pkt.pts ≤ s.last_pts then AV_NOPTS_VALUE
          else s.next_expected_pts) = AV_NOPTS_VALUE ∨
        (Producer.handle_packet stream_start s pkt it.now).pkt.pts ≥
          (if s.rebase_pts = AV_NOPTS_VALUE ∨ pkt.pts ≤ s.last_pts then AV_NOPTS_VALUE
            else s.next_expected_pts))) ∧
    (Producer.written (Producer.iteration stream_start s it).effects ≠
        [(Producer.handle_packet stream_start s pkt it.now).pkt] →
      Producer.written (Producer.iteration stream_start s it).effects = [] ∧
      (∃ a b, Producer.Effect.warn_drop a b ∈ (Producer.iteration stream_start s it).effects) ∧
      (Producer.iteration stream_start s it).state.next_expected_pts = s.next_expected_pts ∧
      (Producer.iteration stream_start s it).state.rebase_pts = s.rebase_pts ∧
      (Producer.iteration stream_start s it).exit = none) ∧
    (Producer.written (Producer.iteration stream_start s it).effects =
        [(Producer.handle_packet stream_start s pkt it.now).pkt] →
      (Producer.iteration stream_start s it).state.next_expected_pts =
        (Producer.handle_packet stream_start s pkt it.now).pkt.pts + pkt.duration) := by
  obtain ⟨hst, hdr, hwr⟩ := Producer.iteration_of_packet stream_start s it pkt hrecv hmsg
  have hw0 := Producer.handle_packet_written stream_start s pkt it.now
  have hlog := (Producer.handle_packet_drop_log stream_start s pkt it.now).2
  have hfacts :
      ((Producer.handle_packet stream_start s pkt it.now).dropped = false ↔
        ((if s.rebase_pts = AV_NOPTS_VALUE ∨ pkt.pts ≤ s.last_pts then AV_NOPTS_VALUE
            else s.next_expected_pts) = AV_NOPTS_VALUE ∨
          (Producer.handle_packet stream_start s pkt it.now).pkt.pts ≥
            (if s.rebase_pts = AV_NOPTS_VALUE ∨ pkt.pts ≤ s.last_pts then AV_NOPTS_VALUE
              else s.next_expected_pts))) ∧
      ((Producer.handle_packet stream_start s pkt it.now).dropped = true →
        (Producer.handle_packet stream_start s pkt it.now).state.next_expected_pts =
          s.next_expected_pts ∧
        (Producer.handle_packet stream_start s pkt it.now).state.rebase_pts = s.rebase_pts) ∧
      ((Producer.handle_packet stream_start s pkt it.now).dropped = false →
        (Producer.handle_packet stream_start s pkt it.now).state.next_expected_pts =
          (Producer.handle_packet stream_start s pkt it.now).pkt.pts + pkt.duration) := by
    unfold Producer.handle_packet
    by_cases hreb : s.rebase_pts = AV_NOPTS_VALUE ∨ pkt.pts ≤ s.last_pts
    · simp only [if_pos hreb, ne_eq, not_true_eq_false, false_and, if_false]
      simp
    · simp only [if_neg hreb]
      by_cases hd : s.next_expected_pts ≠ AV_NOPTS_VALUE ∧
          pkt.pts + s.rebase_pts < s.next_expected_pts
      · simp only [if_pos hd]
        refine ⟨⟨fun h => by simp at h, fun h => ?_⟩, by simp, by simp⟩
        exfalso
        rcases h with h | h
        · exact hd.1 h
        · omega
      · simp only [if_neg hd]
        refine ⟨⟨fun _ => ?_, fun _ => by simp⟩, by simp, by simp⟩
        by_cases h1 : s.next_expected_pts = AV_NOPTS_VALUE
        · exact Or.inl h1
        · right
          have : ¬ pkt.pts + s.rebase_pts < s.next_expected_pts := fun h => hd ⟨h1, h⟩
          omega
  obtain ⟨f1, f2, f3⟩ := hfacts
  have hiff : Producer.written (Producer.iteration stream_start s it).effects =
      [(Producer.handle_packet stream_start s pkt it.now).pkt] ↔
      (Producer.handle_packet stream_start s pkt it.now).dropped = false := by
    constructor
    · intro h
      by_contra hc
      have hd : (Producer.handle_packet stream_start s pkt it.now).dropped = true := by
        simpa using hc
      rw [(hdr hd).1, hw0] at h
      cases h
    · intro h
      exact (hwr h).1
  refine ⟨hiff.trans f1, ?_, ?_⟩
  · intro hne
    have hd : (Producer.handle_packet stream_start s pkt it.now).dropped = true := by
      by_contra hc
      exact hne (hiff.mpr (by simpa using hc))
    rw [hst, (hdr hd).1]
    exact ⟨hw0, hlog hd, (f2 hd).1, (f2 hd).2, (hdr hd).2⟩
  · intro h
    rw [hst]
    exact f3 (hiff.mp h)

/-- Witness of C23: with `rebase_pts = 0`, `last_pts = 960` and
`next_expected_pts = 1920`, the packet pts 1000 does not rebase and has
`P_out = 1000 < 1920`: it is dropped and `next_expected_pts` stays 1920. -/
theorem regression_drop_witness :
    Producer.written
        (Producer.iteration 0 { rebase_pts := 0, last_pts := 960, next_expected_pts := 1920 }
          (Producer.packet_at (Producer.opus_frame 1000 960) 0)).effects = [] ∧
    (∃ a b, Producer.Effect.warn_drop a b ∈
      (Producer.iteration 0 { rebase_pts := 0, last_pts := 960, next_expected_pts := 1920 }
        (Producer.packet_at (Producer.opus_frame 1000 960) 0)).effects) ∧
    (Producer.iteration 0 { rebase_pts := 0, last_pts := 960, next_expected_pts := 1920 }
      (Producer.packet_at (Producer.opus_frame 1000 960) 0)).state.next_expected_pts = 1920 ∧
    (Producer.iteration 0 { rebase_pts := 0, last_pts := 960, next_expected_pts := 1920 }
      (Producer.packet_at (Producer.opus_frame 1000 960) 0)).state.rebase_pts = 0 ∧
    (Producer.iteration 0 { rebase_pts := 0, last_pts := 960, next_expected_pts := 1920 }
      (Producer.packet_at (Producer.opus_frame 1000 960) 0)).exit = none :=
  (regression_drop 0 { rebase_pts := 0, last_pts := 960, next_expected_pts := 1920 }
    (Producer.packet_at (Producer.opus_frame 1000 960) 0) (Producer.opus_frame 1000 960)
    (by decide) rfl).2.1 (by decide)

/-! ### audio_decode_thread.cc: decode errors -/

namespace Decoder

/-- The gap branch leaves `expected_pts`, `last_frame_size` and the decoder
alone. -/
theorem conceal_keeps (p : Params) (codec : OpusCodec) (s : State) (pkt : AVPacket) :
    (conceal p codec s pkt).1.expected_pts = s.expected_pts ∧
    (conceal p codec s pkt).1.last_frame_size = s.last_frame_size ∧
    (conceal p codec s pkt).1.opus_decoder = s.opus_decoder := by
  unfold conceal
  split_ifs <;> exact ⟨rfl, rfl, rfl⟩

/-- The packet handling is the gap branch followed by the normal decode. -/
theorem handle_packet_eq (p : Params) (codec : OpusCodec) (s : State) (pkt : AVPacket)
    (hdec : s.opus_decoder = true) :
    handle_packet p codec s pkt =
      ((decode_actual p codec (conceal p codec s pkt).1 pkt).1,
        (conceal p codec s pkt).2 ++ (decode_actual p codec (conceal p codec s pkt).1 pkt).2) := by
  unfold handle_packet
  simp [hdec]

end Decoder

/-- C24.  For every packet whose normal decode returns an error, the decoder
logs the error and emits no buffer for the packet (the actions of the packet
are those of the gap branch, the failed decode and the log line), leaves
`expected_pts` and `last_frame_size` unchanged, and the pass stays in the loop.
Likewise a failed PLC or FEC decode of missing frame `i` is logged, emits no
buffer, and the loop goes on with frame `i + 1`. -/
theorem decode_errors_not_fatal (p : Decoder.Params) (codec : Decoder.OpusCodec)
    (s : Decoder.State) (pkt : AVPacket) (expected last_frame_size missing i : Int)
    (n calls : Nat) (hdec : s.opus_decoder = true) :
    (codec (Decoder.conceal p codec s pkt).1.calls (Decoder.normal_call pkt) < 0 →
      (Decoder.handle_packet p codec s pkt).2 =
        (Decoder.conceal p codec s pkt).2 ++
          [Decoder.Effect.opus_decode (Decoder.normal_call pkt)
              (codec (Decoder.conceal p codec s pkt).1.calls (Decoder.normal_call pkt)),
            Decoder.Effect.log_decode_error
              (codec (Decoder.conceal p codec s pkt).1.calls (Decoder.normal_call pkt))] ∧
      Decoder.emitted (Decoder.handle_packet p codec s pkt).2 =
        Decoder.emitted (Decoder.conceal p codec s pkt).2 ∧
      (Decoder.handle_packet p codec s pkt).1.expected_pts = s.expected_pts ∧
      (Decoder.handle_packet p codec s pkt).1.last_frame_size = s.last_frame_size ∧
      (Decoder.iteration p codec s (Decoder.receive (ThreadMessage.POST_PACKET pkt))).exit =
        none) ∧
    (codec calls (Decoder.recovery_call pkt last_frame_size missing i) < 0 →
      (Decoder.plc_loop p codec pkt expected last_frame_size missing (n + 1) i calls).1 =
        [Decoder.Effect.opus_decode (Decoder.recovery_call pkt last_frame_size missing i)
            (codec calls (Decoder.recovery_call pkt last_frame_size missing i)),
          Decoder.Effect.log_plc_error
            (codec calls (Decoder.recovery_call pkt last_frame_size missing i))] ++
          (Decoder.plc_loop p codec pkt expected last_frame_size missing n (i + 1)
            (calls + 1)).1 ∧
      Decoder.emitted
        [Decoder.Effect.opus_decode (Decoder.recovery_call pkt last_frame_size missing i)
            (codec calls (Decoder.recovery_call pkt last_frame_size missing i)),
          Decoder.Effect.log_plc_error
            (codec calls (Decoder.recovery_call pkt last_frame_size missing i))] = []) := by
  refine ⟨?_, ?_⟩
  · intro herr
    obtain ⟨k1, k2, _⟩ := Decoder.conceal_keeps p codec s pkt
    have hd : Decoder.decode_actual p codec (Decoder.conceal p codec s pkt).1 pkt =
        ({ (Decoder.conceal p codec s pkt).1 with
            calls := (Decoder.conceal p codec s pkt).1.calls + 1 },
          [Decoder.Effect.opus_decode (Decoder.normal_call pkt)
              (codec (Decoder.conceal p codec s pkt).1.calls (Decoder.normal_call pkt)),
            Decoder.Effect.log_decode_error
              (codec (Decoder.conceal p codec s pkt).1.calls (Decoder.normal_call pkt))]) := by
      unfold Decoder.decode_actual
      simp only [Decoder.normal_call] at herr ⊢
      rw [if_pos herr]
    rw [Decoder.handle_packet_eq p codec s pkt hdec, hd]
    refine ⟨rfl, ?_, k1, k2, ?_⟩
    · simp [Decoder.emitted_append, Decoder.emitted]
    · simp [Decoder.iteration, Decoder.receive]
  · intro herr
    rw [Decoder.plc_loop_succ, if_pos herr]
    exact ⟨rfl, rfl⟩

/-- Witness of C24: a decoder at 24 kHz whose codec fails every call; the
packet with pts 960 is not decoded and `expected_pts` stays unknown. -/
theorem decode_errors_not_fatal_witness :
    (Decoder.handle_packet Decoder.params_24k (fun _ _ => -4)
      { Decoder.State.init Decoder.params_24k with opus_decoder := true }
      (Decoder.rtp_packet 960)).1.expected_pts = AV_NOPTS_VALUE ∧
    (Decoder.iteration Decoder.params_24k (fun _ _ => -4)
      { Decoder.State.init Decoder.params_24k with opus_decoder := true }
      (Decoder.receive (ThreadMessage.POST_PACKET (Decoder.rtp_packet 960)))).exit = none :=
  ⟨((decode_errors_not_fatal Decoder.params_24k (fun _ _ => -4)
      { Decoder.State.init Decoder.params_24k with opus_decoder := true }
      (Decoder.rtp_packet 960) 0 480 1 0 0 0 rfl).1 (by decide)).2.2.1,
   ((decode_errors_not_fatal Decoder.params_24k (fun _ _ => -4)
      { Decoder.State.init Decoder.params_24k with opus_decoder := true }
      (Decoder.rtp_packet 960) 0 480 1 0 0 0 rfl).1 (by decide)).2.2.2.2⟩

/-! ### audio_decode_thread.cc: the pts of recovered frames -/

namespace Decoder

/-- The conversion to `int` never enlarges a non-negative value. -/
theorem toInt32_le_self (x : Int) (h : 0 ≤ x) : toInt32 x ≤ x := by
  unfold toInt32
  omega

/-- The count of missing frames, multiplied by the pts length of a frame,
stays within the gap. -/
theorem missing_frames_within_gap (p : Params) (s : State) (pts : Int)
    (hlfs : 0 < s.last_frame_size) (hscale : 0 < p.pts_scale) (hgap : pts > s.expected_pts) :
    missing_frames p s pts * (s.last_frame_size * p.pts_scale) ≤ pts - s.expected_pts := by
  have hppf : 0 < s.last_frame_size * p.pts_scale := mul_pos hlfs hscale
  have hq : Int.tdiv (pts - s.expected_pts) (s.last_frame_size * p.pts_scale) =
      (pts - s.expected_pts) / (s.last_frame_size * p.pts_scale) :=
    Int.tdiv_eq_ediv (by omega) (le_of_lt hppf)
  have hq0 : 0 ≤ (pts - s.expected_pts) / (s.last_frame_size * p.pts_scale) :=
    Int.ediv_nonneg (by omega) (le_of_lt hppf)
  have hle : missing_frames p s pts ≤
      (pts - s.expected_pts) / (s.last_frame_size * p.pts_scale) := by
    unfold missing_frames
    rw [hq]
    exact toInt32_le_self _ hq0
  calc missing_frames p s pts * (s.last_frame_size * p.pts_scale)
      ≤ (pts - s.expected_pts) / (s.last_frame_size * p.pts_scale) *
          (s.last_frame_size * p.pts_scale) :=
        Int.mul_le_mul_of_nonneg_right hle (le_of_lt hppf)
    _ ≤ pts - s.expected_pts := Int.ediv_mul_le _ (ne_of_gt hppf)

/-- The buffers the recovery loop emits while the products of line 171 stay
below `2^31`: each belongs to an index `j` of the passes made, with
`pts = expected_pts + j * last_frame_size * pts_scale`, and their pts do not
decrease. -/
theorem plc_loop_emitted (p : Params) (codec : OpusCodec) (pkt : AVPacket)
    (expected lfs missing : Int) (hlfs : 0 < lfs) (hscale : 0 < p.pts_scale) :
    ∀ (n : Nat) (i : Int) (calls : Nat), 0 ≤ i →
      (i + (n : Int)) * (lfs * p.pts_scale) < 2147483648 →
      (∀ buf ∈ emitted (plc_loop p codec pkt expected lfs missing n i calls).1,
        ∃ j : Int, i ≤ j ∧ j < i + n ∧ buf.pts = expected + j * lfs * p.pts_scale) ∧
      (emitted (plc_loop p codec pkt expected lfs missing n i calls).1).Pairwise
        (fun a b => a.pts ≤ b.pts) := by
  have hppf : 0 < lfs * p.pts_scale := mul_pos hlfs hscale
  intro n
  induction n with
  | zero =>
    intro i calls _ _
    simp [plc_loop, emitted]
  | succ n ih =>
    intro i calls hi hfit
    have hfit1 : (i + 1 + (n : Int)) * (lfs * p.pts_scale) < 2147483648 := by
      have hc : i + 1 + (n : Int) = i + ((n + 1 : Nat) : Int) := by push_cast; ring
      rw [hc]
      exact hfit
    obtain ⟨h1, h2⟩ := ih (i + 1) (calls + 1) (by omega) hfit1
    have hrest : ∀ buf ∈ emitted
        (plc_loop p codec pkt expected lfs missing n (i + 1) (calls + 1)).1,
        ∃ j : Int, i ≤ j ∧ j < i + ((n + 1 : Nat) : Int) ∧
          buf.pts = expected + j * lfs * p.pts_scale := by
      intro buf hb
      obtain ⟨j, j1, j2, j3⟩ := h1 buf hb
      exact ⟨j, by omega, by push_cast; omega, j3⟩
    have hoff : recovered_offset i lfs p.pts_scale = i * lfs * p.pts_scale := by
      apply recovered_offset_exact i lfs p.pts_scale hi hlfs hscale
      have hle : i * (lfs * p.pts_scale) ≤ (i + ((n + 1 : Nat) : Int)) * (lfs * p.pts_scale) :=
        Int.mul_le_mul_of_nonneg_right (by push_cast; omega) (le_of_lt hppf)
      rw [mul_assoc]
      omega
    rw [plc_loop_succ, hoff]
    split
    · simp only [emitted_append, emitted, List.nil_append]
      exact ⟨hrest, h2⟩
    · simp only [List.cons_append, emitted, emitted_append, send_frame]
      split
      · simp only [emitted, List.nil_append, List.cons_append, List.mem_cons,
          List.pairwise_cons]
        refine ⟨?_, ?_, h2⟩
        · intro buf hb
          rcases hb with hb | hb
          · subst hb
            exact ⟨i, le_refl _, by push_cast; omega, rfl⟩
          · exact hrest buf hb
        · intro b hb
          obtain ⟨j, j1, _, j3⟩ := h1 b hb
          rw [j3]
          have : i * (lfs * p.pts_scale) ≤ j * (lfs * p.pts_scale) :=
            Int.mul_le_mul_of_nonneg_right (by omega) (le_of_lt hppf)
          nlinarith [this]
      · exact ⟨hrest, h2⟩

/-- The buffers the gap branch emits for a gap below `2^31` lie between
`expected_pts` and the pts of the packet, a frame length before it at least,
in non-decreasing order. -/
theorem conceal_emitted (p : Params) (codec : OpusCodec) (s : State) (pkt : AVPacket)
    (hlfs : 0 < s.last_frame_size) (hscale : 0 < p.pts_scale)
    (hsmall : pkt.pts - s.expected_pts < 2147483648) :
    (∀ buf ∈ emitted (conceal p codec s pkt).2,
      s.expected_pts ≤ buf.pts ∧
      buf.pts + s.last_frame_size * p.pts_scale ≤ pkt.pts) ∧
    (emitted (conceal p codec s pkt).2).Pairwise (fun a b => a.pts ≤ b.pts) := by
  have hppf : 0 < s.last_frame_size * p.pts_scale := mul_pos hlfs hscale
  unfold conceal
  split
  · rename_i hg
    split
    · rename_i hm
      have hw := missing_frames_within_gap p s pkt.pts hlfs hscale hg.2
      have hfit : ((0 : Int) + (((missing_frames p s pkt.pts).toNat : Nat) : Int)) *
          (s.last_frame_size * p.pts_scale) < 2147483648 := by
        rw [Int.toNat_of_nonneg (le_of_lt hm), zero_add]
        omega
      obtain ⟨h1, h2⟩ := plc_loop_emitted p codec pkt s.expected_pts s.last_frame_size
        (missing_frames p s pkt.pts) hlfs hscale (missing_frames p s pkt.pts).toNat 0 s.calls
        (le_refl 0) hfit
      refine ⟨?_, h2⟩
      intro buf hb
      obtain ⟨j, j1, j2, j3⟩ := h1 buf hb
      rw [Int.toNat_of_nonneg (le_of_lt hm)] at j2
      have hj : (j + 1) * (s.last_frame_size * p.pts_scale) ≤
          missing_frames p s pkt.pts * (s.last_frame_size * p.pts_scale) :=
        Int.mul_le_mul_of_nonneg_right (by omega) (le_of_lt hppf)
      have hj0 : 0 ≤ j * (s.last_frame_size * p.pts_scale) :=
        Int.mul_nonneg j1 (le_of_lt hppf)
      rw [j3]
      constructor
      · nlinarith [hj0]
      · nlinarith [hj, hw]
    · simp [emitted]
  · simp [emitted]

/-- With a callback and recovery decodes that all return a frame, the recovery
loop emits, for every pass `j`, a buffer stamped with `expected_pts` plus the
`int` product of line 171. -/
theorem plc_loop_emits (p : Params) (codec : OpusCodec) (pkt : AVPacket)
    (expected lfs missing : Int) (hcb : p.buffer_ready_async = true)
    (hok : ∀ (calls : Nat) (call : DecodeCall), 0 ≤ codec calls call) :
    ∀ (n : Nat) (i : Int) (calls : Nat) (j : Nat), j < n →
      ∃ buf ∈ emitted (plc_loop p codec pkt expected lfs missing n i calls).1,
        buf.pts = expected + recovered_offset (i + (j : Int)) lfs p.pts_scale := by
  intro n
  induction n with
  | zero =>
    intro i calls j hj
    omega
  | succ n ih =>
    intro i calls j hj
    have hn : ¬ codec calls (recovery_call pkt lfs missing i) < 0 := by
      have := hok calls (recovery_call pkt lfs missing i)
      omega
    rw [plc_loop_succ, if_neg hn]
    simp only [List.cons_append, emitted, emitted_append, send_frame, hcb, if_true,
      List.nil_append]
    cases j with
    | zero =>
      refine ⟨_, List.mem_cons_self _ _, ?_⟩
      simp
    | succ j =>
      obtain ⟨buf, hb, hp⟩ := ih (i + 1) (calls + 1) j (by omega)
      refine ⟨buf, List.mem_cons_of_mem _ hb, ?_⟩
      rw [hp]
      have hc : i + 1 + (j : Int) = i + ((j + 1 : Nat) : Int) := by push_cast; ring
      rw [hc]

/-- With a callback and recovery decodes that all return a frame, the gap
branch emits a buffer for every missing frame `j`, stamped with `expected_pts`
plus the `int` product of line 171. -/
theorem conceal_emits (p : Params) (codec : OpusCodec) (s : State) (pkt : AVPacket)
    (hcb : p.buffer_ready_async = true)
    (hok : ∀ (calls : Nat) (call : DecodeCall), 0 ≤ codec calls call)
    (hknown : s.expected_pts ≠ AV_NOPTS_VALUE) (hgap : pkt.pts > s.expected_pts)
    (j : Nat) (hj : (j : Int) < missing_frames p s pkt.pts) :
    ∃ buf ∈ emitted (conceal p codec s pkt).2,
      buf.pts = s.expected_pts + recovered_offset (j : Int) s.last_frame_size p.pts_scale := by
  have hm : missing_frames p s pkt.pts > 0 := by omega
  unfold conceal
  rw [if_pos ⟨hknown, hgap⟩, if_pos hm]
  simp only
  obtain ⟨buf, hb, hp⟩ := plc_loop_emits p codec pkt s.expected_pts s.last_frame_size
    (missing_frames p s pkt.pts) hcb hok (missing_frames p s pkt.pts).toNat 0 s.calls j
    (by omega)
  refine ⟨buf, hb, ?_⟩
  rw [hp, zero_add]

end Decoder

/-- C28, the code at the failing input.  A decoder at 24 kHz (`pts_scale = 2`)
that has decoded the packet with pts 960 (`expected_pts = 1920`,
`last_frame_size = 480`) receives a packet with pts `2147487360`.  The gap is
`2147485440`, `missing_frames = 2236964`, and
`1920 + 2236964 * 480 * 2 <= 2147487360` as the claim says.  But for the last
missing frame, `i = 2236963`, the product `i * 480 * 2` that line 171 takes on
`int` operands is `2147484480 - 2^32 = -2147482816`, and the frame is emitted
with pts `1920 - 2147482816 = -2147480896`, below `expected_pts`, where the
claim has `1920 + 2147484480 = 2147486400`, inside `[expected_pts, P)`. -/
theorem recovered_pts_wraps_below_expected :
    Decoder.missing_frames Decoder.params_24k
      { opus_decoder := true, expected_pts := 1920, total_samples_decoded := 480,
        total_packets_decoded := 1, total_missing_frames := 0, last_frame_size := 480,
        start_time_realtime := AV_NOPTS_VALUE, start_time_localtime := 0, calls := 1 }
      2147487360 = 2236964 ∧
    (1920 : Int) + 2236964 * 480 * Decoder.params_24k.pts_scale ≤ 2147487360 ∧
    (1920 : Int) + 2236963 * 480 * Decoder.params_24k.pts_scale = 2147486400 ∧
    Decoder.recovered_offset 2236963 480 Decoder.params_24k.pts_scale = -2147482816 ∧
    (∃ buf ∈ Decoder.emitted (Decoder.conceal Decoder.params_24k Decoder.codec_480
        { opus_decoder := true, expected_pts := 1920, total_samples_decoded := 480,
          total_packets_decoded := 1, total_missing_frames := 0, last_frame_size := 480,
          start_time_realtime := AV_NOPTS_VALUE, start_time_localtime := 0, calls := 1 }
        (Decoder.rtp_packet 2147487360)).2,
      buf.pts = -2147480896 ∧ buf.pts < 1920) := by
  refine ⟨by decide, by decide, by decide, by decide, ?_⟩
  obtain ⟨buf, hb, hp⟩ := Decoder.conceal_emits Decoder.params_24k Decoder.codec_480
    { opus_decoder := true, expected_pts := 1920, total_samples_decoded := 480,
      total_packets_decoded := 1, total_missing_frames := 0, last_frame_size := 480,
      start_time_realtime := AV_NOPTS_VALUE, start_time_localtime := 0, calls := 1 }
    (Decoder.rtp_packet 2147487360) rfl (fun _ _ => by simp [Decoder.codec_480]) (by decide)
    (by decide)
    2236963 (by decide)
  have hv : buf.pts = -2147480896 := by
    rw [hp]
    decide
  exact ⟨buf, hb, hv, by rw [hv]; decide⟩

/-! ### audio_decode_thread.cc: the order of the emitted buffers -/

namespace Decoder

/-- A successful normal decode, whatever the callback: the buffers it emits
carry the pts of the packet, and the variables it leaves. -/
theorem decode_actual_success (p : Params) (codec : OpusCodec) (s : State) (pkt : AVPacket)
    (hok : 0 < codec s.calls (normal_call pkt)) :
    (∀ buf ∈ emitted (decode_actual p codec s pkt).2, buf.pts = pkt.pts) ∧
    (decode_actual p codec s pkt).1.expected_pts =
      pkt.pts + codec s.calls (normal_call pkt) * p.pts_scale ∧
    (decode_actual p codec s pkt).1.last_frame_size = codec s.calls (normal_call pkt) ∧
    (emitted (decode_actual p codec s pkt).2).Pairwise (fun a b => a.pts ≤ b.pts) := by
  have hn : ¬ codec s.calls (normal_call pkt) < 0 := by omega
  unfold decode_actual send_frame
  simp only [normal_call] at hn hok ⊢
  rw [if_neg hn]
  refine ⟨?_, rfl, rfl, ?_⟩
  · intro buf hb
    split at hb
    · simp only [emitted, List.mem_singleton] at hb
      rw [hb]
    · simp [emitted] at hb
  · split <;> simp [emitted]

/-- The normal decode leaves the decoder in place. -/
theorem decode_actual_keeps_decoder (p : Params) (codec : OpusCodec) (s : State)
    (pkt : AVPacket) : (decode_actual p codec s pkt).1.opus_decoder = s.opus_decoder := by
  unfold decode_actual
  simp only []
  split <;> rfl

/-- Without a decoder every packet is skipped: nothing is emitted. -/
theorem ThreadMain_no_decoder (p : Params) (codec : OpusCodec) (pkts : List AVPacket) :
    ∀ s : State, s.opus_decoder = false →
      emitted (ThreadMain p codec s (feed pkts)).effects = [] := by
  induction pkts with
  | nil =>
    intro s _
    simp [feed, ThreadMain, emitted]
  | cons pkt rest ih =>
    intro s h
    have hnone : handle_packet p codec s pkt = (s, []) := by
      unfold handle_packet
      simp [h]
    rw [ThreadMain_feed_cons, hnone]
    simp only [List.nil_append]
    exact ih s h

/-- With every normal decode successful and every gap below `2^31`, the
buffers emitted for packets in non-decreasing pts order are at or above a
bound that the packets and `expected_pts` respect, and in non-decreasing pts
order. -/
theorem ThreadMain_emitted_sorted (p : Params) (codec : OpusCodec) (hscale : 0 < p.pts_scale)
    (pkts : List AVPacket) :
    ∀ (s : State) (low : Int),
      s.opus_decoder = true →
      (s.expected_pts = AV_NOPTS_VALUE ∨ (0 < s.last_frame_size ∧ low ≤ s.expected_pts)) →
      (∀ pkt ∈ pkts, low ≤ pkt.pts) →
      pkts.Pairwise (fun a b => a.pts ≤ b.pts) →
      (∀ pkt ∈ pkts, ∀ n : Nat, 0 < codec n (normal_call pkt)) →
      (∀ q ∈ pkts.head?, s.expected_pts ≠ AV_NOPTS_VALUE →
        q.pts - s.expected_pts < 2147483648) →
      pkts.Chain' (fun a b => b.pts - a.pts < 2147483648) →
      (∀ buf ∈ emitted (ThreadMain p codec s (feed pkts)).effects, low ≤ buf.pts) ∧
      (emitted (ThreadMain p codec s (feed pkts)).effects).Pairwise
        (fun a b => a.pts ≤ b.pts) := by
  induction pkts with
  | nil =>
    intro s low _ _ _ _ _ _ _
    simp [feed, ThreadMain, emitted]
  | cons pkt rest ih =>
    intro s low hdec hinv hlow hsorted hok hfirst hstep
    have hrest_sorted := (List.pairwise_cons.mp hsorted).2
    have hrest_ge : ∀ q ∈ rest, pkt.pts ≤ q.pts := (List.pairwise_cons.mp hsorted).1
    have hrest_ok : ∀ q ∈ rest, ∀ n : Nat, 0 < codec n (normal_call q) :=
      fun q hq => hok q (List.mem_cons_of_mem _ hq)
    have hP : low ≤ pkt.pts := hlow pkt (List.mem_cons_self _ _)
    have hsmall : s.expected_pts ≠ AV_NOPTS_VALUE → pkt.pts - s.expected_pts < 2147483648 :=
      hfirst pkt (by simp)
    rw [ThreadMain_feed_cons]
    simp only [emitted_append]
    rw [handle_packet_eq p codec s pkt hdec]
    simp only [emitted_append]
    obtain ⟨k1, k2, k3⟩ := conceal_keeps p codec s pkt
    obtain ⟨d1, d2, d3, d4⟩ := decode_actual_success p codec (conceal p codec s pkt).1 pkt
      (hok pkt (List.mem_cons_self _ _) _)
    have hfs := hok pkt (List.mem_cons_self _ _) (conceal p codec s pkt).1.calls
    have hexp : pkt.pts ≤ (decode_actual p codec (conceal p codec s pkt).1 pkt).1.expected_pts := by
      rw [d2]
      have := mul_pos hfs hscale
      omega
    have hdec1 : (decode_actual p codec (conceal p codec s pkt).1 pkt).1.opus_decoder = true := by
      rw [decode_actual_keeps_decoder, k3]
      exact hdec
    have hfirst1 : ∀ q ∈ rest.head?,
        (decode_actual p codec (conceal p codec s pkt).1 pkt).1.expected_pts ≠ AV_NOPTS_VALUE →
        q.pts - (decode_actual p codec (conceal p codec s pkt).1 pkt).1.expected_pts <
          2147483648 := by
      intro q hq _
      have hrel := List.Chain'.rel_head? hstep hq
      omega
    obtain ⟨r1, r2⟩ := ih (decode_actual p codec (conceal p codec s pkt).1 pkt).1 pkt.pts
      hdec1 (Or.inr ⟨by rw [d3]; exact hfs, hexp⟩) hrest_ge hrest_sorted hrest_ok hfirst1
      (List.Chain'.tail hstep)
    have hc : (∀ buf ∈ emitted (conceal p codec s pkt).2,
          low ≤ buf.pts ∧ buf.pts ≤ pkt.pts) ∧
        (emitted (conceal p codec s pkt).2).Pairwise (fun a b => a.pts ≤ b.pts) := by
      by_cases hg : s.expected_pts ≠ AV_NOPTS_VALUE ∧ pkt.pts > s.expected_pts
      · rcases hinv with h | h
        · exact absurd h hg.1
        · obtain ⟨c1, c2⟩ := conceal_emitted p codec s pkt h.1 hscale (hsmall hg.1)
          refine ⟨?_, c2⟩
          intro buf hb
          obtain ⟨b1, b2⟩ := c1 buf hb
          have := mul_pos h.1 hscale
          exact ⟨by omega, by omega⟩
      · have hnil : conceal p codec s pkt = (s, []) := by
          apply conceal_of_no_gap
          by_cases h1 : s.expected_pts = AV_NOPTS_VALUE
          · exact Or.inl h1
          · right
            by_contra h2
            exact hg ⟨h1, by omega⟩
        rw [hnil]
        simp [emitted]
    refine ⟨?_, ?_⟩
    · intro buf hb
      simp only [List.mem_append] at hb
      rcases hb with (hb | hb) | hb
      · exact (hc.1 buf hb).1
      · rw [d1 buf hb]; exact hP
      · have := r1 buf hb
        omega
    · rw [List.pairwise_append, List.pairwise_append]
      refine ⟨⟨hc.2, d4, ?_⟩, r2, ?_⟩
      · intro a ha b hb
        rw [d1 b hb]
        exact (hc.1 a ha).2
      · intro a ha b hb
        have hb2 := r1 b hb
        simp only [List.mem_append] at ha
        rcases ha with ha | ha
        · have := (hc.1 a ha).2
          omega
        · rw [d1 a ha]
          exact hb2

end Decoder

/-- C27, counterexample.  Decoding at 24 kHz the packets with pts 960, 3840,
4800 (increasing), with a codec whose calls return 480 samples except the
normal decode of the second packet, which fails: the second packet emits its
two recovered frames (pts 1920, 2880) and leaves `expected_pts` at 1920, so the
third packet recovers three frames from 1920 again, and the buffer with pts
1920 is emitted after the one with pts 2880. -/
theorem emitted_pts_decrease_after_decode_error :
    (Decoder.emitted
      (Decoder.ThreadMain Decoder.params_24k Decoder.codec_fail_3
        { Decoder.State.init Decoder.params_24k with opus_decoder := true }
        (Decoder.feed [Decoder.rtp_packet 960, Decoder.rtp_packet 3840,
          Decoder.rtp_packet 4800])).effects).map (fun b => b.pts) =
      [960, 1920, 2880, 1920, 2880, 3840, 4800] := by
  decide

/-- C27, amended.  For every decoder input packet sequence with non-decreasing
pts whose normal decodes all succeed (each returns a positive sample count)
and whose gaps fit an `int` (each packet is less than `2^31` pts units after
the packet before it, the first less than `2^31` after a known
`expected_pts`), whatever the PLC and FEC decodes return (sample count or
error), with `pts_scale > 0`, from a state in which `expected_pts` is unknown
or `last_frame_size` is positive: the pts values of the buffers the decoder
emits to the host, recovered frames included, are non-decreasing. -/
theorem emitted_pts_nondecreasing (p : Decoder.Params) (codec : Decoder.OpusCodec)
    (s : Decoder.State) (pkts : List AVPacket) (hscale : 0 < p.pts_scale)
    (hinv : s.expected_pts = AV_NOPTS_VALUE ∨ 0 < s.last_frame_size)
    (hsorted : pkts.Pairwise (fun a b => a.pts ≤ b.pts))
    (hok : ∀ pkt ∈ pkts, ∀ n : Nat, 0 < codec n (Decoder.normal_call pkt))
    (hfirst : ∀ q ∈ pkts.head?, s.expected_pts ≠ AV_NOPTS_VALUE →
      q.pts - s.expected_pts < 2147483648)
    (hstep : pkts.Chain' (fun a b => b.pts - a.pts < 2147483648)) :
    (Decoder.emitted (Decoder.ThreadMain p codec s (Decoder.feed pkts)).effects).Pairwise
      (fun a b => a.pts ≤ b.pts) := by
  by_cases hdec : s.opus_decoder = true
  · cases pkts with
    | nil => simp [Decoder.feed, Decoder.ThreadMain, Decoder.emitted]
    | cons pkt rest =>
      have hge : ∀ q ∈ pkt :: rest, min pkt.pts s.expected_pts ≤ q.pts := by
        intro q hq
        rcases List.mem_cons.mp hq with h | h
        · rw [h]; exact min_le_left _ _
        · exact le_trans (min_le_left _ _) ((List.pairwise_cons.mp hsorted).1 q h)
      refine (Decoder.ThreadMain_emitted_sorted p codec hscale (pkt :: rest) s
        (min pkt.pts s.expected_pts) hdec ?_ hge hsorted hok hfirst hstep).2
      rcases hinv with h | h
      · exact Or.inl h
      · exact Or.inr ⟨h, min_le_right _ _⟩
  · have hfalse : s.opus_decoder = false := by simpa using hdec
    rw [Decoder.ThreadMain_no_decoder p codec pkts s hfalse]
    exact List.Pairwise.nil

/-- Witness of C27 (amended): scenario S2 (pts 960, then 3840) at 24 kHz with
every call returning 480 samples. -/
theorem emitted_pts_nondecreasing_witness :
    (Decoder.emitted
      (Decoder.ThreadMain Decoder.params_24k Decoder.codec_480
        { Decoder.State.init Decoder.params_24k with opus_decoder := true }
        (Decoder.feed [Decoder.rtp_packet 960, Decoder.rtp_packet 3840])).effects).Pairwise
      (fun a b => a.pts ≤ b.pts) :=
  emitted_pts_nondecreasing Decoder.params_24k Decoder.codec_480
    { Decoder.State.init Decoder.params_24k with opus_decoder := true }
    [Decoder.rtp_packet 960, Decoder.rtp_packet 3840] (by decide) (Or.inl rfl)
    (by simp [Decoder.rtp_packet])
    (by
      intro pkt _ n
      simp [Decoder.codec_480])
    (by
      intro q _ h
      exact absurd rfl h)
    (by simp [Decoder.rtp_packet])

/-! ### audio_decode_thread.cc: the length of the emitted buffers -/

/-- C30, the code at the failing input.  A decoder configured for two channels
at 24 kHz (the decoder is created with `opus_channels = 2` and `decoder_output`
has room for `OPUS_MAX_FRAME_SIZE * opus_channels` samples) receives the packets
with pts 960 and 3840, every decode returning 480 samples per channel.  Each
of the four buffers handed to the host (normal, PLC, FEC, normal) has
`len = 480 * sizeof(int16_t) = 960` bytes, half of the
`480 * 2 * 2 = 1920` bytes that were decoded. -/
theorem stereo_buffer_holds_half_the_samples :
    Decoder.emitted
      (Decoder.ThreadMain Decoder.params_stereo Decoder.codec_480
        (Decoder.State.init Decoder.params_stereo)
        (Decoder.receive ThreadMessage.POST_CODEC_PARAMETERS ::
          Decoder.feed [Decoder.rtp_packet 960, Decoder.rtp_packet 3840])).effects =
      [{ len := 960, pts := 960 }, { len := 960, pts := 1920 }, { len := 960, pts := 2880 },
        { len := 960, pts := 3840 }] ∧
    (480 : Int) * Decoder.params_stereo.channels * 2 = 1920 ∧
    Decoder.send_frame Decoder.params_stereo 480 960 =
      [Decoder.Effect.send_callback { len := 960, pts := 960 }] := by
  refine ⟨by decide, by decide, by decide⟩

/-! ### demuxer.cc: reset markers during re-initialisation -/

/-- C26.  For every sequence of messages on the input queue of the file
demuxer, while `should_reset` is true: the read hook discards every reset
marker it receives without returning (a queue that holds reset markers only
leaves the hook waiting) and answers the read with the first receive that is
not a reset marker, everything after it staying on the queue and `should_reset`
staying true: the error of the queue when the receive failed, the copy of the
bytes (or `AVERROR_INVALIDDATA` when they do not fit) for a byte buffer, and
`AVERROR_INVALIDDATA` for any other message. -/
theorem reset_markers_discarded (buf : List Byte) (n : Int)
    (skipped rest : List Demuxer.Recv) (r : Demuxer.Recv)
    (hskip : ∀ x ∈ skipped, 0 ≤ x.ret ∧ x.msg = ThreadMessage.OGG_RESET_DEMUXER)
    (hr : r.ret < 0 ∨ r.msg ≠ ThreadMessage.OGG_RESET_DEMUXER) :
    Demuxer.read_packet true buf n skipped = none ∧
    Demuxer.read_packet true buf n (skipped ++ r :: rest) =
      Demuxer.read_packet true buf n (r :: rest) ∧
    (∃ res, Demuxer.read_packet true buf n (skipped ++ r :: rest) = some res ∧
      res.should_reset = true ∧ res.queue = rest) ∧
    (r.ret < 0 →
      Demuxer.read_packet true buf n (skipped ++ r :: rest) =
        some { ret := r.ret, buf := buf, should_reset := true, queue := rest }) ∧
    (∀ b, 0 ≤ r.ret → r.msg = ThreadMessage.OGG_BUFFER b →
      Demuxer.read_packet true buf n (skipped ++ r :: rest) =
        (if n < 0 ∨ (b.length : Int) > n then
          some { ret := AVERROR_INVALIDDATA, buf := buf, should_reset := true, queue := rest }
         else
          some { ret := (b.length : Int), buf := b ++ buf.drop b.length, should_reset := true,
                 queue := rest })) ∧
    (0 ≤ r.ret → (∀ b, r.msg ≠ ThreadMessage.OGG_BUFFER b) →
      Demuxer.read_packet true buf n (skipped ++ r :: rest) =
        some { ret := AVERROR_INVALIDDATA, buf := buf, should_reset := true, queue := rest }) := by
  have hgo := Demuxer.read_packet_skip buf n skipped (r :: rest) hskip
  have hnone : Demuxer.read_packet true buf n skipped = none := by
    have h := Demuxer.read_packet_skip buf n skipped [] hskip
    rw [List.append_nil] at h
    rw [h]
    rfl
  have herr : r.ret < 0 →
      Demuxer.read_packet true buf n (r :: rest) =
        some { ret := r.ret, buf := buf, should_reset := true, queue := rest } := by
    intro h
    rw [Demuxer.read_packet, if_pos h]
  have hbuf : ∀ b, 0 ≤ r.ret → r.msg = ThreadMessage.OGG_BUFFER b →
      Demuxer.read_packet true buf n (r :: rest) =
        (if n < 0 ∨ (b.length : Int) > n then
          some { ret := AVERROR_INVALIDDATA, buf := buf, should_reset := true, queue := rest }
         else
          some { ret := (b.length : Int), buf := b ++ buf.drop b.length, should_reset := true,
                 queue := rest }) := by
    intro b h0 hm
    have hn : ¬ r.ret < 0 := by omega
    rw [Demuxer.read_packet, if_neg hn]
    simp only [hm]
  have hother : 0 ≤ r.ret → r.msg ≠ ThreadMessage.OGG_RESET_DEMUXER →
      (∀ b, r.msg ≠ ThreadMessage.OGG_BUFFER b) →
      Demuxer.read_packet true buf n (r :: rest) =
        some { ret := AVERROR_INVALIDDATA, buf := buf, should_reset := true, queue := rest } := by
    intro h0 h1 h2
    have hn : ¬ r.ret < 0 := by omega
    rw [Demuxer.read_packet, if_neg hn]
    cases hm : r.msg with
    | OGG_RESET_DEMUXER => exact absurd hm h1
    | OGG_BUFFER b => exact absurd hm (h2 b)
    | _ => rfl
  refine ⟨hnone, hgo, ?_, ?_, ?_, ?_⟩
  · rw [hgo]
    by_cases h : r.ret < 0
    · exact ⟨_, herr h, rfl, rfl⟩
    · have h1 : r.msg ≠ ThreadMessage.OGG_RESET_DEMUXER := by
        rcases hr with hr | hr
        · exact absurd hr h
        · exact hr
      by_cases hb : ∃ b, r.msg = ThreadMessage.OGG_BUFFER b
      · obtain ⟨b, hb⟩ := hb
        rw [hbuf b (by omega) hb]
        split
        · exact ⟨_, rfl, rfl, rfl⟩
        · exact ⟨_, rfl, rfl, rfl⟩
      · exact ⟨_, hother (by omega) h1 (fun b hm => hb ⟨b, hm⟩), rfl, rfl⟩
  · intro h
    rw [hgo]
    exact herr h
  · intro b h0 hm
    rw [hgo]
    exact hbuf b h0 hm
  · intro h0 h2
    rw [hgo]
    have h1 : r.msg ≠ ThreadMessage.OGG_RESET_DEMUXER := by
      rcases hr with hr | hr
      · omega
      · exact hr
    exact hother h0 h1 h2

/-- Witness of C26: with a reset pending, two reset markers are discarded and
the end of the queue (`AVERROR_EOF`) answers the read. -/
theorem reset_markers_discarded_witness :
    Demuxer.read_packet true [0, 0] 2
      ([{ ret := 0, msg := ThreadMessage.OGG_RESET_DEMUXER },
        { ret := 0, msg := ThreadMessage.OGG_RESET_DEMUXER }] ++
        { ret := AVERROR_EOF, msg := ThreadMessage.TICK } :: []) =
      some { ret := AVERROR_EOF, buf := [0, 0], should_reset := true, queue := [] } :=
  (reset_markers_discarded [0, 0] 2
    [{ ret := 0, msg := ThreadMessage.OGG_RESET_DEMUXER },
      { ret := 0, msg := ThreadMessage.OGG_RESET_DEMUXER }] []
    { ret := AVERROR_EOF, msg := ThreadMessage.TICK }
    (by decide) (Or.inl (by decide))).2.2.2.1 (by decide)

/-! ### Blocking and non-blocking sends on the demuxer path -/

namespace Demuxer

/-- The post of `correct_and_post` uses the flags of the mode. -/
theorem correct_and_post_flags (mode : DemuxerThreadMode) (off : Int) (st : ReadState)
    (q : AVPacket) (post_ret : Int) (pre : List Effect) (pkt : AVPacket) (flags ret : Int)
    (h : Effect.post_packet pkt flags ret ∈ (correct_and_post mode off st q post_ret pre).effects) :
    Effect.post_packet pkt flags ret ∈ pre ∨ flags = send_flags mode := by
  unfold correct_and_post at h
  simp only [] at h
  split_ifs at h
  all_goals
    simp only [List.mem_append, List.mem_cons, List.mem_singleton, List.not_mem_nil,
      or_false] at h
  · rcases h with h | h | h
    · exact Or.inl h
    · cases h; exact Or.inr rfl
    · cases h
  · rcases h with h | h
    · exact Or.inl h
    · cases h; exact Or.inr rfl
  · rcases h with h | h
    · exact Or.inl h
    · cases h; exact Or.inr rfl

/-- The filters post nothing but through `correct_and_post`. -/
theorem filter_packet_flags (mode : DemuxerThreadMode) (idx off : Int) (st : ReadState)
    (q : AVPacket) (post_ret : Int) (pre : List Effect) (pkt : AVPacket) (flags ret : Int)
    (h : Effect.post_packet pkt flags ret ∈ (filter_packet mode idx off st q post_ret pre).effects) :
    Effect.post_packet pkt flags ret ∈ pre ∨ flags = send_flags mode := by
  unfold filter_packet at h
  split at h
  · exact Or.inl h
  · split at h
    · exact Or.inl h
    · split_ifs at h
      · exact Or.inl h
      · simp only [List.mem_append, List.mem_singleton] at h
        rcases h with h | h
        · exact Or.inl h
        · cases h
      · exact Or.inl h
      · simp only [List.mem_append, List.mem_singleton] at h
        rcases h with h | h
        · exact Or.inl h
        · cases h
      · exact Or.inl h
      · exact correct_and_post_flags mode off _ _ post_ret pre pkt flags ret h

/-- Every post of a packet made by one pass uses the flags of the mode. -/
theorem read_iteration_post_flags (mode : DemuxerThreadMode) (idx off : Int) (st : ReadState)
    (it : ReadIter) (pkt : AVPacket) (flags ret : Int)
    (h : Effect.post_packet pkt flags ret ∈ (read_iteration mode idx off st it).effects) :
    flags = send_flags mode := by
  have htick : Effect.post_packet pkt flags ret ∉
      (if it.should_tick then [Effect.post_tick] else []) := by
    split <;> simp
  have hnote : Effect.post_packet pkt flags ret ∉ (note_start_times st it).2 := by
    unfold note_start_times
    simp only []
    split_ifs <;> simp
  unfold read_iteration at h
  simp only [] at h
  generalize (if it.should_tick then [Effect.post_tick] else []) = tick at h htick
  split_ifs at h
  · exact absurd h htick
  · exact absurd h htick
  · exact absurd h htick
  · simp only [List.mem_append, List.mem_singleton] at h
    rcases h with h | h
    · exact absurd h htick
    · cases h
  · exact absurd h htick
  · rcases filter_packet_flags mode idx off _ _ _ _ pkt flags ret h with h2 | h2
    · simp only [List.mem_append] at h2
      rcases h2 with h2 | h2
      · exact absurd h2 htick
      · exact absurd h2 hnote
    · exact h2

/-- Every post of a packet made by `readAndWritePacket` uses the flags of the
mode. -/
theorem read_loop_post_flags (mode : DemuxerThreadMode) (idx off : Int) :
    ∀ (iters : List ReadIter) (st : ReadState) (pkt : AVPacket) (flags ret : Int),
      Effect.post_packet pkt flags ret ∈ (read_loop mode idx off st iters).effects →
      flags = send_flags mode := by
  intro iters
  induction iters with
  | nil =>
    intro st pkt flags ret h
    simp [read_loop] at h
  | cons it rest ih =>
    intro st pkt flags ret h
    rw [read_loop_cons] at h
    cases hx : (read_iteration mode idx off st it).exit with
    | some v =>
      rw [hx] at h
      exact read_iteration_post_flags mode idx off st it pkt flags ret h
    | none =>
      rw [hx] at h
      simp only [List.mem_append] at h
      rcases h with h | h
      · exact read_iteration_post_flags mode idx off st it pkt flags ret h
      · exact ih _ pkt flags ret h

end Demuxer

/-- C25, counterexample.  The host posts the Ogg bytes `[1, 2, 3]` while the
input queue of the file demuxer is full: the send is made with
`AV_THREAD_MESSAGE_NONBLOCK`, returns `AVERROR(EAGAIN)`, the warning is logged,
the buffer is released and the error is returned: the bytes are dropped. -/
theorem ogg_buffer_post_is_nonblocking :
    Messages.post_ogg_buffer_to_thread [1, 2, 3] true AVERROR_EAGAIN =
      { ret := AVERROR_EAGAIN,
        effects := [Messages.Effect.queue_send (ThreadMessage.OGG_BUFFER [1, 2, 3])
            AV_THREAD_MESSAGE_NONBLOCK AVERROR_EAGAIN,
          Messages.Effect.warn_dropping_buffer, Messages.Effect.buffer_unref] } ∧
    AV_THREAD_MESSAGE_NONBLOCK ≠ 0 := by
  refine ⟨by decide, by decide⟩

/-- C25, amended.  On the file-demuxer path the Ogg byte buffers are posted to
the input queue of the demuxer with a non-blocking send
(`AV_THREAD_MESSAGE_NONBLOCK`): when the send fails the buffer is released and
the error returned, with a warning when the error is `AVERROR(EAGAIN)` (queue
full).  The file demuxer posts every packet to its output queue with a blocking
send (flags 0), whereas the RTP demuxer posts packets with
`AV_THREAD_MESSAGE_NONBLOCK`. -/
theorem demuxer_path_send_flags (buffer : List Byte) (send_ret : Int) (mode : DemuxerThreadMode)
    (stream_idx pts_offset : Int) (iters : List Demuxer.ReadIter) (pkt : AVPacket)
    (flags ret : Int) :
    (∃ rest, (Messages.post_ogg_buffer_to_thread buffer true send_ret).effects =
      Messages.Effect.queue_send (ThreadMessage.OGG_BUFFER buffer) AV_THREAD_MESSAGE_NONBLOCK
        send_ret :: rest) ∧
    (Messages.post_ogg_buffer_to_thread buffer true send_ret).ret = send_ret ∧
    (send_ret ≠ 0 →
      Messages.Effect.buffer_unref ∈
        (Messages.post_ogg_buffer_to_thread buffer true send_ret).effects) ∧
    (send_ret = AVERROR_EAGAIN →
      Messages.Effect.warn_dropping_buffer ∈
        (Messages.post_ogg_buffer_to_thread buffer true send_ret).effects) ∧
    (Demuxer.Effect.post_packet pkt flags ret ∈
        (Demuxer.readAndWritePacket mode stream_idx pts_offset iters).effects →
      (mode = DemuxerThreadMode.DEMUXER_MODE_FILE → flags = 0) ∧
      (mode = DemuxerThreadMode.DEMUXER_MODE_RTP → flags = AV_THREAD_MESSAGE_NONBLOCK)) := by
  refine ⟨?_, ?_, ?_, ?_, ?_⟩
  · unfold Messages.post_ogg_buffer_to_thread
    simp only [Bool.true_eq_false, if_false]
    split
    · exact ⟨_, rfl⟩
    · exact ⟨_, rfl⟩
  · unfold Messages.post_ogg_buffer_to_thread
    simp only [Bool.true_eq_false, if_false]
    split <;> rfl
  · intro h
    unfold Messages.post_ogg_buffer_to_thread
    simp only [Bool.true_eq_false, if_false, if_pos h]
    simp
  · intro h
    have hne : send_ret ≠ 0 := by rw [h]; decide
    unfold Messages.post_ogg_buffer_to_thread
    simp only [Bool.true_eq_false, if_false, if_pos hne, if_pos h]
    simp
  · intro h
    rw [Demuxer.readAndWritePacket_effects] at h
    have hf := Demuxer.read_loop_post_flags mode stream_idx pts_offset iters _ pkt flags ret h
    refine ⟨?_, ?_⟩
    · intro hm
      rw [hf, hm]
      rfl
    · intro hm
      rw [hf, hm]
      rfl

/-- Witness of C25 (amended): a file demuxer reads one packet; the post of the
packet found in the trace has flags 0. -/
theorem demuxer_path_send_flags_witness :
    (DemuxerThreadMode.DEMUXER_MODE_FILE = DemuxerThreadMode.DEMUXER_MODE_FILE →
      (0 : Int) = 0) ∧
    (DemuxerThreadMode.DEMUXER_MODE_FILE = DemuxerThreadMode.DEMUXER_MODE_RTP →
      (0 : Int) = AV_THREAD_MESSAGE_NONBLOCK) :=
  (demuxer_path_send_flags [1, 2, 3] 0 DemuxerThreadMode.DEMUXER_MODE_FILE 0 0
    [read_of (opus_packet 0) 0]
    { data := some [0xF8], pts := 0, dts := 0, duration := 960, stream_index := 0 } 0 0).2.2.2.2
    (by decide)

/-! ### audio_encode_thread.cc: the accumulation loop -/

namespace Encoder

/-- The copy into the accumulator stays inside the array when the frame size
does not exceed its length. -/
theorem write_at_length (buf src : List Int) (pos : Nat) (h : pos + src.length ≤ buf.length) :
    (write_at buf pos src).length = buf.length := by
  simp only [write_at, List.length_append, List.length_take, List.length_drop]
  omega

/-- The number of samples copied in a pass of the loop over a PCM buffer. -/
theorem to_copy_bounds (p : Params) (s : State) (remaining : Int)
    (hacc : s.accum_pos < p.frame_size_input) (hrem : 0 < remaining) :
    1 ≤ to_copy p s remaining ∧ to_copy p s remaining ≤ remaining ∧
    to_copy p s remaining ≤ p.frame_size_input - s.accum_pos ∧
    (to_copy p s remaining = remaining ∨
      to_copy p s remaining = p.frame_size_input - s.accum_pos) := by
  unfold to_copy
  split
  · exact ⟨by omega, by omega, by omega, Or.inr rfl⟩
  · exact ⟨by omega, by omega, by omega, Or.inl rfl⟩

/-- The loop over a PCM buffer, with a positive frame size, an accumulator
level below it and no encode failure: it is left within one pass per sample,
posts one packet per frame completed and leaves the rest in the accumulator,
inside the array. -/
theorem pcm_loop_counts (p : Params) (codec : OpusEncoder) (post : PostResults)
    (hF : 0 < p.frame_size_input)
    (hcodec : ∀ (n : Nat) (frame : List Int) (fs : Int), 0 ≤ (codec n frame fs).ret) :
    ∀ (fuel : Nat) (s : State) (input : List Int) (remaining : Int),
      0 ≤ s.accum_pos → s.accum_pos < p.frame_size_input → 0 ≤ remaining →
      remaining ≤ fuel → p.frame_size_input ≤ s.mono_accum.length →
      (pcm_loop p codec post fuel s input remaining).finished = true ∧
      ((posted (pcm_loop p codec post fuel s input remaining).effects).length : Int) =
        (s.accum_pos + remaining) / p.frame_size_input ∧
      (pcm_loop p codec post fuel s input remaining).state.accum_pos =
        (s.accum_pos + remaining) % p.frame_size_input ∧
      (pcm_loop p codec post fuel s input remaining).state.mono_accum.length =
        s.mono_accum.length := by
  intro fuel
  induction fuel with
  | zero =>
    intro s input remaining h0 h1 hr hf _
    have hz : remaining = 0 := by
      have : remaining ≤ 0 := by simpa using hf
      omega
    subst hz
    simp only [pcm_loop, le_refl, decide_True, posted, List.length_nil, add_zero, Nat.cast_zero]
    exact ⟨trivial, (Int.ediv_eq_zero_of_lt h0 h1).symm, (Int.emod_eq_of_lt h0 h1).symm, trivial⟩
  | succ fuel ih =>
    intro s input remaining h0 h1 hr hf hlen
    rw [pcm_loop]
    by_cases hz : remaining ≤ 0
    · have hz2 : remaining = 0 := by omega
      subst hz2
      simp only [if_pos hz, posted, List.length_nil, add_zero, Nat.cast_zero]
      exact ⟨trivial, (Int.ediv_eq_zero_of_lt h0 h1).symm, (Int.emod_eq_of_lt h0 h1).symm,
        trivial⟩
    · rw [if_neg hz]
      simp only []
      obtain ⟨t1, t2, t3, t4⟩ := to_copy_bounds p s remaining h1 (by omega)
      have hacc1 : (copy_in p s input remaining).accum_pos =
          s.accum_pos + to_copy p s remaining := rfl
      have hlen1 : (copy_in p s input remaining).mono_accum.length = s.mono_accum.length := by
        simp only [copy_in]
        apply write_at_length
        have : (List.take (to_copy p s remaining).toNat input).length ≤
            (to_copy p s remaining).toNat := by
          rw [List.length_take]
          exact Nat.min_le_left _ _
        omega
      have hfuel : remaining - to_copy p s remaining ≤ (fuel : Int) := by
        push_cast at hf
        omega
      by_cases hfull : (copy_in p s input remaining).accum_pos ≥ p.frame_size_input
      · rw [if_pos hfull]
        have hret := hcodec (copy_in p s input remaining).calls
          (stereo_frame p.frame_size_input (copy_in p s input remaining).mono_accum)
          p.frame_size_input
        rw [if_neg (by omega)]
        have hsum : s.accum_pos + to_copy p s remaining = p.frame_size_input := by
          rw [hacc1] at hfull
          omega
        obtain ⟨i1, i2, i3, i4⟩ := ih (after_frame p (copy_in p s input remaining))
          (input.drop (to_copy p s remaining).toNat) (remaining - to_copy p s remaining)
          (le_refl 0) hF (by omega) hfuel (by simp only [after_frame]; rw [hlen1]; exact hlen)
        have hlog : ∀ (v : Int) (tail : List Effect),
            posted ((if v < 0 then [Effect.log_post_failed v] else []) ++ tail) =
              posted tail := by
          intro v tail
          split <;> simp [posted]
        have hacc0 : (after_frame p (copy_in p s input remaining)).accum_pos = 0 := rfl
        rw [hacc0, zero_add] at i2 i3
        have hsplit : s.accum_pos + remaining =
            (remaining - to_copy p s remaining) + p.frame_size_input * 1 := by omega
        refine ⟨i1, ?_, ?_, ?_⟩
        · simp only [posted, hlog, List.length_cons]
          push_cast
          rw [i2, hsplit, Int.add_mul_ediv_left _ _ (ne_of_gt hF)]
        · rw [i3, hsplit, Int.add_mul_emod_self_left]
        · rw [i4]
          simp only [after_frame]
          exact hlen1
      · rw [if_neg hfull]
        have hlt : s.accum_pos + to_copy p s remaining < p.frame_size_input := by
          rw [hacc1] at hfull
          omega
        have htc : to_copy p s remaining = remaining := by
          rcases t4 with h | h
          · exact h
          · omega
        obtain ⟨i1, i2, i3, i4⟩ := ih (copy_in p s input remaining)
          (input.drop (to_copy p s remaining).toNat) (remaining - to_copy p s remaining)
          (by rw [hacc1]; omega) (by rw [hacc1]; exact hlt) (by omega) hfuel
          (by rw [hlen1]; exact hlen)
        rw [hacc1, htc] at i2 i3
        simp only [htc, sub_self, add_zero] at i1 i2 i3 i4 ⊢
        exact ⟨i1, i2, i3, by rw [i4]; exact hlen1⟩

end Encoder

namespace Encoder

/-- A run over PCM buffers, from an accumulator level below a positive frame
size and with no encode failure: every buffer is consumed, one packet is
posted per frame completed, and the rest stays in the accumulator. -/
theorem main_loop_counts (p : Params) (codec : OpusEncoder) (post : PostResults)
    (hF : 0 < p.frame_size_input)
    (hcodec : ∀ (n : Nat) (frame : List Int) (fs : Int), 0 ≤ (codec n frame fs).ret)
    (bufs : List (List Byte)) :
    ∀ s : State, 0 ≤ s.accum_pos → s.accum_pos < p.frame_size_input →
      p.frame_size_input ≤ s.mono_accum.length →
      (main_loop p codec post s (feed_pcm bufs)).exit = none ∧
      (main_loop p codec post s (feed_pcm bufs)).stuck = false ∧
      ((posted (main_loop p codec post s (feed_pcm bufs)).effects).length : Int) =
        (s.accum_pos + total_samples bufs) / p.frame_size_input ∧
      (main_loop p codec post s (feed_pcm bufs)).state.accum_pos =
        (s.accum_pos + total_samples bufs) % p.frame_size_input ∧
      (main_loop p codec post s (feed_pcm bufs)).state.mono_accum.length =
        s.mono_accum.length := by
  induction bufs with
  | nil =>
    intro s h0 h1 _
    simp only [feed_pcm, List.map_nil, main_loop, posted, List.length_nil, total_samples,
      List.sum_nil, add_zero, Nat.cast_zero]
    exact ⟨trivial, trivial, (Int.ediv_eq_zero_of_lt h0 h1).symm,
      (Int.emod_eq_of_lt h0 h1).symm, trivial⟩
  | cons buf rest ih =>
    intro s h0 h1 hlen
    obtain ⟨c1, c2, c3, c4⟩ := pcm_loop_counts p codec post hF hcodec (buf.length / 2) s
      (pcm_samples buf) ((buf.length / 2 : Nat) : Int) h0 h1 (by positivity) (le_refl _) hlen
    have hit : iteration p codec post s
        (receive (Message.declared (ThreadMessage.POST_PCM_BUFFER buf))) =
        { state := (pcm_loop p codec post (buf.length / 2) s (pcm_samples buf)
            ((buf.length / 2 : Nat) : Int)).state,
          effects := (if p.drain_async then [Effect.drain_async_send] else []) ++
            (pcm_loop p codec post (buf.length / 2) s (pcm_samples buf)
              ((buf.length / 2 : Nat) : Int)).effects,
          exit := none, stuck := false } := by
      simp only [iteration, receive, show ¬ ((0 : Int) < 0) by decide, if_false, c1,
        Bool.not_true]
    have hF0 := hF
    have hmod0 : 0 ≤ (s.accum_pos + ((buf.length / 2 : Nat) : Int)) % p.frame_size_input :=
      Int.emod_nonneg _ (ne_of_gt hF)
    have hmod1 : (s.accum_pos + ((buf.length / 2 : Nat) : Int)) % p.frame_size_input <
        p.frame_size_input := Int.emod_lt_of_pos _ hF
    obtain ⟨r1, r2, r3, r4, r5⟩ := ih
      (pcm_loop p codec post (buf.length / 2) s (pcm_samples buf)
        ((buf.length / 2 : Nat) : Int)).state
      (by rw [c3]; exact hmod0) (by rw [c3]; exact hmod1) (by rw [c4]; exact hlen)
    have hdrain : ∀ tail : List Effect,
        posted ((if p.drain_async then [Effect.drain_async_send] else []) ++ tail) =
          posted tail := by
      intro tail
      split <;> simp [posted]
    have htot : total_samples (buf :: rest) =
        ((buf.length / 2 : Nat) : Int) + total_samples rest := by
      simp [total_samples]
    simp only [feed_pcm, List.map_cons, main_loop, hit, Bool.false_eq_true, if_false]
    simp only [feed_pcm] at r1 r2 r3 r4 r5
    refine ⟨r1, r2, ?_, ?_, ?_⟩
    · rw [enc_posted_append, hdrain, List.length_append, Nat.cast_add, c2, r3, c3, htot]
      have hx := Int.ediv_add_emod (s.accum_pos + ((buf.length / 2 : Nat) : Int))
        p.frame_size_input
      have : s.accum_pos + (((buf.length / 2 : Nat) : Int) + total_samples rest) =
          ((s.accum_pos + ((buf.length / 2 : Nat) : Int)) % p.frame_size_input +
            total_samples rest) +
          p.frame_size_input *
            ((s.accum_pos + ((buf.length / 2 : Nat) : Int)) / p.frame_size_input) := by
        omega
      rw [this, Int.add_mul_ediv_left _ _ (ne_of_gt hF)]
      ring
    · rw [r4, c3, htot, Int.emod_add_emod, add_assoc]
    · rw [r5, c4]

end Encoder

/-- C29.  For every sequence of PCM buffers totalling `N` 16-bit samples fed
to a fresh encoder whose input frame size `F = sampleRate * 20 / 1000`
satisfies `0 < F <= 960`, with no flush and no encode failure: the
accumulation loop is left on every buffer (the run is not stuck and waits for
the next message), exactly `N / F` packets are posted, and afterwards the
accumulator holds `N mod F` samples, a level in `[0, F)`, inside the array of
`MAX_FRAME_SIZE_INPUT` samples. -/
theorem accumulation_counts (p : Encoder.Params) (codec : Encoder.OpusEncoder)
    (post : Encoder.PostResults) (bufs : List (List Byte))
    (hF0 : 0 < p.frame_size_input) (hF1 : p.frame_size_input ≤ 960)
    (hcodec : ∀ (n : Nat) (frame : List Int) (fs : Int), 0 ≤ (codec n frame fs).ret) :
    (Encoder.ThreadMain p codec post 0 0 (Encoder.feed_pcm bufs)).exit = none ∧
    (Encoder.ThreadMain p codec post 0 0 (Encoder.feed_pcm bufs)).stuck = false ∧
    ((Encoder.posted (Encoder.ThreadMain p codec post 0 0 (Encoder.feed_pcm bufs)).effects).length
      : Int) = Encoder.total_samples bufs / p.frame_size_input ∧
    (Encoder.ThreadMain p codec post 0 0 (Encoder.feed_pcm bufs)).state.accum_pos =
      Encoder.total_samples bufs % p.frame_size_input ∧
    0 ≤ (Encoder.ThreadMain p codec post 0 0 (Encoder.feed_pcm bufs)).state.accum_pos ∧
    (Encoder.ThreadMain p codec post 0 0 (Encoder.feed_pcm bufs)).state.accum_pos <
      p.frame_size_input ∧
    (Encoder.ThreadMain p codec post 0 0 (Encoder.feed_pcm bufs)).state.mono_accum.length =
      MAX_FRAME_SIZE_INPUT := by
  have hmain : Encoder.ThreadMain p codec post 0 0 (Encoder.feed_pcm bufs) =
      Encoder.main_loop p codec post Encoder.State.init (Encoder.feed_pcm bufs) := by
    simp [Encoder.ThreadMain]
  have hlen : (p.frame_size_input : Int) ≤ (Encoder.State.init.mono_accum.length : Int) := by
    simp only [Encoder.State.init, List.length_replicate, MAX_FRAME_SIZE_INPUT]
    exact hF1
  obtain ⟨m1, m2, m3, m4, m5⟩ := Encoder.main_loop_counts p codec post hF0 hcodec bufs
    Encoder.State.init (le_refl 0) hF0 hlen
  have hacc : Encoder.State.init.accum_pos = 0 := rfl
  rw [hacc, zero_add] at m3 m4
  rw [hmain]
  refine ⟨m1, m2, m3, m4, ?_, ?_, ?_⟩
  · rw [m4]; exact Int.emod_nonneg _ (ne_of_gt hF0)
  · rw [m4]; exact Int.emod_lt_of_pos _ hF0
  · rw [m5]
    simp [Encoder.State.init]

/-- Witness of C29: at 24 kHz (`F = 480`), buffers of 600 and 480 samples:
`1080 / 480 = 2` packets and `1080 mod 480 = 120` samples left. -/
theorem accumulation_counts_witness :
    ((Encoder.posted (Encoder.ThreadMain Encoder.params_24k Encoder.codec_3 (fun _ => 0) 0 0
      (Encoder.feed_pcm [List.replicate 1200 0, List.replicate 960 0])).effects).length : Int) =
      Encoder.total_samples [List.replicate 1200 0, List.replicate 960 0] /
        Encoder.params_24k.frame_size_input ∧
    (Encoder.ThreadMain Encoder.params_24k Encoder.codec_3 (fun _ => 0) 0 0
      (Encoder.feed_pcm [List.replicate 1200 0, List.replicate 960 0])).state.accum_pos =
      Encoder.total_samples [List.replicate 1200 0, List.replicate 960 0] %
        Encoder.params_24k.frame_size_input :=
  ⟨(accumulation_counts Encoder.params_24k Encoder.codec_3 (fun _ => 0)
      [List.replicate 1200 0, List.replicate 960 0] (by decide) (by decide)
      (by intro n frame fs; simp [Encoder.codec_3])).2.2.1,
   (accumulation_counts Encoder.params_24k Encoder.codec_3 (fun _ => 0)
      [List.replicate 1200 0, List.replicate 960 0] (by decide) (by decide)
      (by intro n frame fs; simp [Encoder.codec_3])).2.2.2.1⟩

end AudioRtp
